import Mathlib

/-!
Verification of the commute-time ETA computation engine.

This file contains a shallow embedding, in Lean 4, of the core of the
`commute_time` repository: the ETA calculator (`src/services/eta-calculator.ts`
and its refactored variant with `buildETAResult`), the realtime transit
service post-processing and bus-arrival cache (`src/services/realtime-transit.ts`),
the intercity bus timetable service (`src/services/intercity-bus-service.ts`),
the KST time helpers (`src/lib/time-utils.ts`), and the subway station graph
with its BFS reachability check (`src/data/subway-graph.ts`,
`src/data/subway-stations.ts`).

Effectful TypeScript code is embedded by passing the upstream world (API
responses, caches, the clock) as explicit arguments; upstream HTTP calls are
recorded in an explicit query log.  JavaScript `Map`/`Set` objects are
modelled as association lists / lists with insertion-order append, and
JavaScript numbers on the data paths used here are modelled as `Nat`/`Int`
(arrival seconds are non-negative; differences are taken in `Int`).

Definitions are translated from the TypeScript source; theorems at the end of
the file settle the specification claims.
-/

/-! ## Data model (`src/types`) -/

/-- Per-query realtime arrival record (TS `ArrivalInfo`).  `arrivalTime` is in
seconds, `0` meaning "already at platform or unknown". -/
structure ArrivalInfo where
  stationName : String
  lineName : String
  direction : String
  arrivalTime : Nat
  arrivalMessage : String
  remainingStops : Option Nat := none
  vehicleType : String := ""
  isLastTrain : Bool := false
  destination : Option String := none
deriving Repr, DecidableEq

/-- A saved route leg (TS `RouteLeg`, fields used by the ETA engine). -/
structure RouteLeg where
  id : Option String := none
  type : String
  legSubType : Option String := none
  startStation : Option String := none
  endStation : Option String := none
  startStationId : Option String := none
  lineNames : List String := []
  gyeonggiStationId : Option String := none
deriving Repr, DecidableEq

/-- A saved route (TS `SavedRouteWithLegs`, fields used by the ETA engine).
The TS field `alias` is called `aliasName` here because `alias` is taken by a
Lean command. -/
structure SavedRoute where
  id : String
  aliasName : String
  routeType : String
  routeSource : Option String := none
  totalTime : Nat
  legs : List RouteLeg
deriving Repr, DecidableEq

/-- One entry of the per-leg arrival list in an ETA result (TS `LegArrivalInfo`). -/
structure LegArrivalInfo where
  type : String
  lineName : String
  arrivalMessage : String
  arrivalTime : Int
  startStation : Option String := none
  endStation : Option String := none
  destination : Option String := none
  isSchedule : Bool := false
deriving Repr, DecidableEq

/-- A scheduled intercity departure (TS `IntercityDeparture`). -/
structure IntercityDeparture where
  departureTime : String
  arrivalTime : String
  waitMinutes : Int
  gradeNm : String := ""
  charge : Int := 0
deriving Repr, DecidableEq

/-- Per-leg result of `getAllTransitArrivals` (TS `CityArrivalEntry` in the
ETA calculator). -/
structure CityArrivalEntry where
  type : String
  arrivals : List ArrivalInfo
  startStation : Option String := none
  endStation : Option String := none
deriving Repr, DecidableEq

/-- The ETA computation result (TS `ETAResult`). -/
structure ETAResult where
  estimatedArrival : String
  waitTime : Int
  travelTime : Nat
  isEstimate : Bool
  routeId : String
  routeAlias : String
  routeType : String
  routeSource : Option String
  legArrivals : List LegArrivalInfo
deriving Repr, DecidableEq

/-! ## Time utilities (`src/lib/time-utils.ts`)

The TS code shifts a `Date` by the timezone offset and +9 hours and reads the
hour of the shifted date.  We model the current instant as milliseconds since
the epoch (`nowMs : Nat`), so the KST hour is `(nowMs / 3600000 + 9) % 24`. -/

/-- KST hour of a UTC epoch-millisecond instant (TS `getKoreaHour`). -/
def getKoreaHour (nowMs : Nat) : Nat :=
  (nowMs / 3600000 + 9) % 24

/-- Whether the current KST time is in the nightly off-hours window
(TS `isOffHours`): `hour >= 1 && hour < 5`. -/
def isOffHours (nowMs : Nat) : Bool :=
  let hour := getKoreaHour nowMs
  decide (1 ≤ hour ∧ hour < 5)

/-- Model of `Date.prototype.toISOString` applied to an epoch-millisecond
value: an injective rendering of the timestamp.  The ETA claims only ever
compare this against the empty-string off-hours sentinel, so the exact text
is irrelevant; it is never the empty string. -/
def toISOStringModel (ms : Int) : String :=
  "iso:" ++ toString ms

/-! ## ETA calculator (`src/services/eta-calculator.ts`, also the refactored
copy whose pure core is `buildETAResult`) -/

/-- Average headway fallback (seconds) by leg type (TS `AVERAGE_HEADWAY`,
`bus = 600`, `subway = 300`); `none` models `t in AVERAGE_HEADWAY` failing. -/
def AVERAGE_HEADWAY (t : String) : Option Nat :=
  if t = "bus" then some 600
  else if t = "subway" then some 300
  else none

/-- JavaScript falsiness of an optional string (`!leg.startStationId`):
`null`/`undefined`/`""` are falsy. -/
def jsFalsyOptStr (o : Option String) : Bool :=
  match o with
  | none => true
  | some s => decide (s = "")

/-- Whether a leg is an intercity/express bus leg (TS `isIntercityBusLeg`). -/
def isIntercityBusLeg (leg : RouteLeg) (routeSource : Option String) : Bool :=
  if leg.legSubType = some "intercity_bus" ∨ leg.legSubType = some "express_bus" then
    true
  else if routeSource = some "inter_local" ∧ leg.type = "bus" ∧
      jsFalsyOptStr leg.startStationId = true then
    true
  else
    false

/-- The transit legs of a route (`route.legs.filter(type bus or subway)`). -/
def transitLegsOf (route : SavedRoute) : List RouteLeg :=
  route.legs.filter (fun leg => decide (leg.type = "bus" ∨ leg.type = "subway"))

/-- JS `leg.lineNames[0] || "시외버스"`: first line name, falling back on the
default when the list is empty or its head is the empty string. -/
def firstLineNameOr (lineNames : List String) (dflt : String) : String :=
  match lineNames with
  | [] => dflt
  | n :: _ => if n = "" then dflt else n

/-- Entries contributed to `legArrivals` by a single transit leg
(the body of the `for (const leg of transitLegs)` loop in `buildETAResult`). -/
def legEntries (routeSource : Option String) (allArrivals : List CityArrivalEntry)
    (intercityResults : List (RouteLeg × List IntercityDeparture))
    (leg : RouteLeg) : List LegArrivalInfo :=
  if isIntercityBusLeg leg routeSource then
    -- intercity leg: timetable based
    match intercityResults.find? (fun r => decide (r.1 = leg)) with
    | some r =>
      match r.2 with
      | [] =>
        [{ type := "bus", lineName := firstLineNameOr leg.lineNames "시외버스",
           arrivalMessage := "배차 정보 없음", arrivalTime := (600 : Int),
           startStation := leg.startStation, endStation := leg.endStation,
           isSchedule := true }]
      | deps@(_ :: _) =>
        deps.map (fun dep =>
          { type := "bus", lineName := firstLineNameOr leg.lineNames "시외버스",
            arrivalMessage := dep.departureTime ++ " 출발 (" ++ toString dep.waitMinutes ++ "분 후)",
            arrivalTime := dep.waitMinutes * 60,
            startStation := leg.startStation, endStation := leg.endStation,
            isSchedule := true })
    | none =>
      [{ type := "bus", lineName := firstLineNameOr leg.lineNames "시외버스",
         arrivalMessage := "배차 정보 없음", arrivalTime := (600 : Int),
         startStation := leg.startStation, endStation := leg.endStation,
         isSchedule := true }]
  else
    -- city leg: realtime arrivals found by start station name
    match allArrivals.find? (fun a => decide (a.startStation = leg.startStation)) with
    | some realtimeData =>
      if realtimeData.arrivals ≠ [] then
        realtimeData.arrivals.map (fun a =>
          { type := realtimeData.type, lineName := a.lineName,
            arrivalMessage := a.arrivalMessage, arrivalTime := (a.arrivalTime : Int),
            startStation := realtimeData.startStation,
            endStation := realtimeData.endStation,
            destination := a.destination })
      else
        leg.lineNames.map (fun name =>
          { type := leg.type, lineName := name, arrivalMessage := "실시간 정보 없음",
            arrivalTime := (((AVERAGE_HEADWAY leg.type).getD 600 : Nat) : Int),
            startStation := leg.startStation, endStation := leg.endStation })
    | none =>
      leg.lineNames.map (fun name =>
        { type := leg.type, lineName := name, arrivalMessage := "실시간 정보 없음",
          arrivalTime := (((AVERAGE_HEADWAY leg.type).getD 600 : Nat) : Int),
          startStation := leg.startStation, endStation := leg.endStation })

/-- The `legArrivals` accumulation loop of `buildETAResult`: entries are
pushed onto one growing array while walking `transitLegs` in order. -/
def buildLegArrivals (routeSource : Option String)
    (allArrivals : List CityArrivalEntry)
    (intercityResults : List (RouteLeg × List IntercityDeparture))
    (transitLegs : List RouteLeg) : List LegArrivalInfo :=
  transitLegs.foldl
    (fun acc leg => acc ++ legEntries routeSource allArrivals intercityResults leg)
    []

/-- Wait-time / estimate-flag determination of `buildETAResult`
("대기 시간 결정: 첫 번째 대중교통 구간 기준"). -/
def determineWait (routeSource : Option String)
    (allArrivals : List CityArrivalEntry)
    (intercityResults : List (RouteLeg × List IntercityDeparture))
    (transitLegs : List RouteLeg) : Int × Bool :=
  let firstIsIntercity :=
    match transitLegs with
    | firstLeg :: _ => isIntercityBusLeg firstLeg routeSource
    | [] => false
  if firstIsIntercity = true then
    -- first leg is an intercity bus leg
    match transitLegs with
    | firstLeg :: _ =>
      match intercityResults.find? (fun r => decide (r.1 = firstLeg)) with
      | some r =>
        match r.2 with
        | dep :: _ => (dep.waitMinutes * 60, false)
        | [] => ((600 : Int), true)
      | none => ((600 : Int), true)
    | [] => ((600 : Int), true)   -- unreachable: firstIsIntercity is false for []
  else if allArrivals ≠ [] then
    match allArrivals with
    | e :: _ =>
      match e.arrivals with
      | a :: _ => ((a.arrivalTime : Int), false)
      | [] => ((0 : Int), false)
    | [] => ((0 : Int), false)    -- unreachable under the guard
  else
    -- headway fallback from the first transit leg's type
    let waitTime :=
      match transitLegs with
      | firstLeg :: _ => (AVERAGE_HEADWAY firstLeg.type).getD 600
      | [] => 600
    ((waitTime : Int), true)

/-- Pure core of the ETA computation (TS `ETACalculator.buildETAResult`):
derive the result from already-fetched city arrivals and intercity
timetables. -/
def buildETAResult (route : SavedRoute) (nowMs : Nat)
    (allArrivals : List CityArrivalEntry)
    (intercityResults : List (RouteLeg × List IntercityDeparture)) : ETAResult :=
  let transitLegs := transitLegsOf route
  let legArrivals := buildLegArrivals route.routeSource allArrivals intercityResults transitLegs
  let wi := determineWait route.routeSource allArrivals intercityResults transitLegs
  let travelTime := route.totalTime
  let estimatedArrival :=
    toISOStringModel ((nowMs : Int) + wi.1 * 1000 + (travelTime : Int) * 60 * 1000)
  { estimatedArrival := estimatedArrival
    waitTime := wi.1
    travelTime := travelTime
    isEstimate := wi.2
    routeId := route.id
    routeAlias := route.aliasName
    routeType := route.routeType
    routeSource := route.routeSource
    legArrivals := legArrivals }

/-- The off-hours short-circuit result (TS `ETACalculator.offHoursETA`). -/
def offHoursETA (route : SavedRoute) : ETAResult :=
  { estimatedArrival := ""
    waitTime := 0
    travelTime := route.totalTime
    isEstimate := true
    routeId := route.id
    routeAlias := route.aliasName
    routeType := route.routeType
    routeSource := route.routeSource
    legArrivals := [] }

/-- The upstream services the ETA calculator queries, as oracles: the realtime
aggregator (`RealtimeTransitService.getAllTransitArrivals`) and the intercity
timetable service (`IntercityBusService.getUpcomingDepartures`). -/
structure UpstreamOracles where
  getAllTransitArrivals : List RouteLeg → List CityArrivalEntry
  getUpcomingDepartures : String → String → Nat → List IntercityDeparture

/-- A record of one upstream query issued during an ETA computation. -/
inductive UpstreamQuery where
  | realtime (legs : List RouteLeg)
  | timetable (startStation endStation : String) (count : Nat)
deriving Repr, DecidableEq

/-- The city (non-intercity) transit legs of a route. -/
def cityLegsOf (route : SavedRoute) : List RouteLeg :=
  (transitLegsOf route).filter (fun leg => !isIntercityBusLeg leg route.routeSource)

/-- The intercity transit legs of a route. -/
def intercityLegsOf (route : SavedRoute) : List RouteLeg :=
  (transitLegsOf route).filter (fun leg => isIntercityBusLeg leg route.routeSource)

/-- City arrivals fetched by `calculateETA`: the aggregator is only invoked
when there is at least one city leg. -/
def allArrivalsOf (o : UpstreamOracles) (route : SavedRoute) : List CityArrivalEntry :=
  if cityLegsOf route ≠ [] then o.getAllTransitArrivals (cityLegsOf route) else []

/-- Intercity timetables fetched by `calculateETA`: one
`getUpcomingDepartures(start, end, 2)` query per intercity leg. -/
def intercityResultsOf (o : UpstreamOracles) (route : SavedRoute) :
    List (RouteLeg × List IntercityDeparture) :=
  (intercityLegsOf route).map (fun leg =>
    (leg, o.getUpcomingDepartures (leg.startStation.getD "") (leg.endStation.getD "") 2))

/-- The upstream queries issued by `calculateETA` in the active state. -/
def activeQueriesOf (route : SavedRoute) : List UpstreamQuery :=
  (if cityLegsOf route ≠ [] then [UpstreamQuery.realtime (cityLegsOf route)] else []) ++
    (intercityLegsOf route).map (fun leg =>
      UpstreamQuery.timetable (leg.startStation.getD "") (leg.endStation.getD "") 2)

/-- `ETACalculator.calculateETA` with the upstream services passed as oracles;
returns the result together with the log of upstream queries issued. -/
def calculateETAModel (o : UpstreamOracles) (nowMs : Nat) (route : SavedRoute) :
    ETAResult × List UpstreamQuery :=
  if isOffHours nowMs then
    (offHoursETA route, [])
  else
    (buildETAResult route nowMs (allArrivalsOf o route) (intercityResultsOf o route),
     activeQueriesOf route)

/-! ## Realtime transit service (`src/services/realtime-transit.ts`) -/

/-- ASCII lowercasing of a character, modelling JS `toLowerCase` on the
line-name strings compared by the service (digits and Korean are unaffected). -/
def jsCharToLower (c : Char) : Char :=
  if 'A' ≤ c ∧ c ≤ 'Z' then Char.ofNat (c.toNat + 32) else c

/-- String lowercasing on the underlying character list. -/
def jsToLower (s : String) : String :=
  ⟨s.data.map jsCharToLower⟩

/-- Case-insensitive exact line-name match
(`arrival.lineName.toLowerCase() === name.toLowerCase()`). -/
def lineNameMatches (lineName name : String) : Bool :=
  decide (jsToLower lineName = jsToLower name)

/-- The arrival-sort comparator of `getAllTransitArrivals`
("도착 시간 기준 오름차순 정렬", zero-or-unknown first). -/
def arrivalCmp (a b : ArrivalInfo) : Int :=
  if a.arrivalTime = 0 ∧ b.arrivalTime = 0 then 0
  else if a.arrivalTime = 0 then -1
  else if b.arrivalTime = 0 then 1
  else (a.arrivalTime : Int) - (b.arrivalTime : Int)

/-- Stable insertion of an element into a list sorted by `le`: the element
goes before the first entry it is not strictly greater than, so elements
comparing equal keep their original relative order. -/
def insertSorted (le : ArrivalInfo → ArrivalInfo → Bool) (a : ArrivalInfo) :
    List ArrivalInfo → List ArrivalInfo
  | [] => [a]
  | b :: t => if le a b then a :: b :: t else b :: insertSorted le a t

/-- `Array.prototype.sort` with the arrival comparator, as a stable sort on
the "comparator ≤ 0" relation (V8's sort is stable, and a stable sort is
determined by the comparator, so insertion sort models it exactly). -/
def sortArrivals (l : List ArrivalInfo) : List ArrivalInfo :=
  l.foldr (insertSorted (fun a b => decide (arrivalCmp a b ≤ 0))) []

/-- Insertion-ordered update of the per-line counter map (JS `Map.set`). -/
def setCount (counts : List (String × Nat)) (key : String) (v : Nat) :
    List (String × Nat) :=
  if (counts.lookup key).isSome then
    counts.map (fun p => if p.1 = key then (p.1, v) else p)
  else
    counts ++ [(key, v)]

/-- The per-line cap filter of `getAllTransitArrivals` ("노선별 최대 2대"):
keep an arrival only while fewer than 2 with its `lineName` were kept. -/
def capPerLineAux (counts : List (String × Nat)) : List ArrivalInfo → List ArrivalInfo
  | [] => []
  | a :: rest =>
    let c := (counts.lookup a.lineName).getD 0
    if c ≥ 2 then capPerLineAux counts rest
    else a :: capPerLineAux (setCount counts a.lineName (c + 1)) rest

/-- Cap to at most 2 kept arrivals per distinct line name. -/
def capPerLine (l : List ArrivalInfo) : List ArrivalInfo :=
  capPerLineAux [] l

/-- The `lineNames` post-filter of `getAllTransitArrivals`: keep only
arrivals whose line name matches one of the leg's configured names
(case-insensitively); applied only when the leg lists line names. -/
def legLineFilter (leg : RouteLeg) (fetched : List ArrivalInfo) : List ArrivalInfo :=
  if leg.lineNames ≠ [] then
    fetched.filter (fun arrival =>
      leg.lineNames.any (fun name => lineNameMatches arrival.lineName name))
  else fetched

/-- The per-leg post-processing tail of `getAllTransitArrivals` (lines
770-807): given the arrivals fetched for a leg, return the leg's result, or
`null` when nothing (relevant) was found. -/
def processLegArrivals (leg : RouteLeg) (fetched : List ArrivalInfo) :
    Option CityArrivalEntry :=
  if fetched = [] then none
  else
    let filtered := legLineFilter leg fetched
    if filtered = [] then none
    else
      let sorted := sortArrivals filtered
      let capped := capPerLine sorted
      some { type := leg.type, arrivals := capped,
             startStation := leg.startStation, endStation := leg.endStation }

/-! ### Bus-arrival cache (`getBusArrival`, `_busArrivalCache`)

The module-level TTL cache is passed in and returned explicitly; the Seoul
and Gyeonggi feeds are oracles, and issued upstream queries are logged. -/

/-- Cache TTL in milliseconds (TS `ARRIVAL_CACHE_TTL_MS`). -/
def ARRIVAL_CACHE_TTL_MS : Nat := 20000

/-- The bus-arrival cache: key to (data, expiresAt). -/
abbrev BusCache : Type := List (String × (List ArrivalInfo × Nat))

/-- Cache read: an entry is served only while `expiresAt > now`. -/
def busCacheGet (cache : BusCache) (key : String) (now : Nat) :
    Option (List ArrivalInfo) :=
  match cache.lookup key with
  | some e => if now < e.2 then some e.1 else none
  | none => none

/-- Cache write (JS `Map.set`: replace in place or append). -/
def busCacheSet (cache : BusCache) (key : String) (v : List ArrivalInfo × Nat) :
    BusCache :=
  if (cache.lookup key).isSome then
    cache.map (fun p => if p.1 = key then (p.1, v) else p)
  else
    cache ++ [(key, v)]

/-- Upstream feeds used by `getBusArrival`, as oracles:
`seoul` models `getSeoulBusArrival(stationId)` and `gyeonggi` models
`getGyeonggiBusArrival(mobileNo, stationName?, preResolvedStationId?)`
(both already collapse HTTP/parsing failures to `[]`, as the source does). -/
structure BusOracles where
  seoul : String → List ArrivalInfo
  gyeonggi : String → Option String → Option String → List ArrivalInfo

/-- A record of one upstream bus-feed query. -/
inductive BusQuery where
  | seoulApi (stationId : String)
  | gyeonggiApi (mobileNo : String)
deriving Repr, DecidableEq

/-- `RealtimeTransitService.getBusArrival`: check the station-keyed TTL cache,
otherwise query Seoul (for dash-formatted stop codes) with line-name matching
and fall through to the Gyeonggi feed, then cache the result under
`"bus:" ++ stationId` for 20 seconds.  `apiKey` is `this.dataGoKrKey`. -/
def getBusArrival (o : BusOracles) (apiKey : String) (cache : BusCache) (now : Nat)
    (stationId : String) (lineNames : Option (List String))
    (stationName preResolvedGyeonggiId : Option String) :
    List ArrivalInfo × BusCache × List BusQuery :=
  if apiKey = "" then ([], cache, [])
  else
    let cacheKey := "bus:" ++ stationId
    match busCacheGet cache cacheKey now with
    | some data => (data, cache, [])
    | none =>
      let isSeoulFormat := stationId.data.contains '-'
      let seoulStep : List ArrivalInfo × List BusQuery :=
        if isSeoulFormat then
          let seoulArrivals := o.seoul stationId
          if seoulArrivals ≠ [] then
            match lineNames with
            | some lns =>
              if lns ≠ [] then
                if seoulArrivals.any (fun arrival =>
                    lns.any (fun name => lineNameMatches arrival.lineName name)) then
                  (seoulArrivals, [BusQuery.seoulApi stationId])
                else
                  ([], [BusQuery.seoulApi stationId])
              else (seoulArrivals, [BusQuery.seoulApi stationId])
            | none => (seoulArrivals, [BusQuery.seoulApi stationId])
          else ([], [BusQuery.seoulApi stationId])
        else ([], [])
      let final : List ArrivalInfo × List BusQuery :=
        if seoulStep.1 = [] then
          (o.gyeonggi stationId stationName preResolvedGyeonggiId,
           seoulStep.2 ++ [BusQuery.gyeonggiApi stationId])
        else seoulStep
      (final.1, busCacheSet cache cacheKey (final.1, now + ARRIVAL_CACHE_TTL_MS), final.2)

/-! ## Intercity bus service (`src/services/intercity-bus-service.ts`) -/

/-- JS whitespace test for the characters occurring in terminal/station
names (`\s`). -/
def isJsWhitespace (c : Char) : Bool :=
  c = ' ' ∨ c = '\t' ∨ c = '\n' ∨ c = '\r'

/-- Remove all whitespace (`.replace(/\s+/g, "")`). -/
def removeWhitespace (s : String) : String :=
  ⟨s.data.filter (fun c => !isJsWhitespace c)⟩

/-- Suffixes stripped by terminal-name normalization (TS `TERMINAL_SUFFIXES`). -/
def TERMINAL_SUFFIXES : List String :=
  ["종합버스터미널", "종합터미널", "시외버스터미널", "고속버스터미널", "버스터미널",
   "시외터미널", "고속터미널", "터미널", "공용버스정류장", "시외", "고속"]

/-- List-level suffix test (avoids `String.endsWith`, which does not reduce
in the kernel). -/
def charSuffixOf (suffix s : List Char) : Bool :=
  suffix.isSuffixOf s

/-- Strip the first matching suffix, when the rest would be non-empty
(the `for ... break` loop of `normalizeTerminalName`). -/
def stripOneSuffix : List String → List Char → List Char
  | [], s => s
  | suffix :: rest, s =>
    if charSuffixOf suffix.data s ∧ s.length > suffix.data.length then
      s.take (s.length - suffix.data.length)
    else stripOneSuffix rest s

/-- TS `normalizeTerminalName`: drop whitespace, then strip one known
terminal suffix. -/
def normalizeTerminalName (name : String) : String :=
  ⟨stripOneSuffix TERMINAL_SUFFIXES (removeWhitespace name).data⟩

/-- Substring containment (JS `String.prototype.includes`). -/
def strContains (s sub : String) : Bool :=
  (List.range (s.data.length + 1)).any (fun i => sub.data.isPrefixOf (s.data.drop i))

/-- One entry of the in-memory terminal directory (TS `TerminalData`). -/
structure TerminalData where
  terminalId : String
  terminalNm : String
  normalizedNm : String
deriving Repr, DecidableEq

/-- TS `IntercityBusService.findTerminalByName`: the five-tier fuzzy match
cascade over the in-memory terminal directory.  The per-name memo cache and
the lazy directory synchronization are identity-transparent and are not
modelled; the loaded directory is the `terminals` argument. -/
def findTerminalByName (terminals : List TerminalData) (name : String) :
    Option String :=
  if name = "" then none
  else
    let cleanName := normalizeTerminalName name
    let found :=
      (terminals.find? (fun t => decide (t.terminalNm = name))).orElse (fun _ =>
      (terminals.find? (fun t => strContains t.terminalNm name)).orElse (fun _ =>
      (terminals.find? (fun t => strContains name t.terminalNm)).orElse (fun _ =>
      (terminals.find? (fun t => decide (t.normalizedNm = cleanName))).orElse (fun _ =>
      terminals.find? (fun t =>
        strContains t.normalizedNm cleanName || strContains cleanName t.normalizedNm)))))
    found.map (fun t => t.terminalId)

/-- A parsed timetable row (TS `ParsedSchedule`; `depTimeRaw` is `"HHmm"`). -/
structure ParsedSchedule where
  depPlaceNm : String := ""
  arrPlaceNm : String := ""
  depTime : String
  arrTime : String
  depTimeRaw : String
  charge : Int := 0
  gradeNm : String := ""
deriving Repr, DecidableEq

/-- Lexicographic comparison of character lists by code point, modelling the
JS `<` operator on the (BMP) strings compared here. -/
def charListLt : List Char → List Char → Bool
  | [], [] => false
  | [], _ :: _ => true
  | _ :: _, [] => false
  | a :: as, b :: bs =>
    if a.toNat < b.toNat then true
    else if b.toNat < a.toNat then false
    else charListLt as bs

/-- JS string `<`. -/
def jsStrLt (a b : String) : Bool :=
  charListLt a.data b.data

/-- Value of a digit-character list (models `parseInt` on the all-digit
slices of a well-formed `"HHmm"` string). -/
def natOfDigits (cs : List Char) : Nat :=
  cs.foldl (fun n c => n * 10 + (c.toNat - 48)) 0

/-- `parseInt(s.slice(0, 2), 10)` on a `"HHmm"` string. -/
def depHourOf (depTimeRaw : String) : Nat :=
  natOfDigits (depTimeRaw.data.take 2)

/-- `parseInt(s.slice(2, 4), 10)` on a `"HHmm"` string. -/
def depMinOf (depTimeRaw : String) : Nat :=
  natOfDigits ((depTimeRaw.data.drop 2).take 2)

/-- Minutes past midnight of a schedule's departure time. -/
def depMinutesOf (s : ParsedSchedule) : Nat :=
  depHourOf s.depTimeRaw * 60 + depMinOf s.depTimeRaw

/-- Two-digit zero padding (`String(n).padStart(2, "0")` for `n < 100`),
written out as the two decimal digit characters. -/
def pad2 (n : Nat) : String :=
  ⟨[Char.ofNat (48 + n / 10), Char.ofNat (48 + n % 10)]⟩

/-- Whether a character is a decimal digit. -/
def isDigitChar (c : Char) : Bool :=
  decide (48 ≤ c.toNat ∧ c.toNat ≤ 57)

/-- A well-formed `"HHmm"` clock string: four digits with a minute part below
60. -/
def validHHmm (s : String) : Bool :=
  decide (s.data.length = 4) && s.data.all isDigitChar &&
    decide (natOfDigits ((s.data.drop 2).take 2) < 60)

/-- Minutes past midnight denoted by a well-formed `"HHmm"` string. -/
def hhmmVal (s : String) : Nat :=
  natOfDigits (s.data.take 2) * 60 + natOfDigits ((s.data.drop 2).take 2)

/-- The departure built for one kept schedule row. -/
def mkDeparture (currentMinutes : Nat) (s : ParsedSchedule) : IntercityDeparture :=
  { departureTime := s.depTime, arrivalTime := s.arrTime,
    waitMinutes := (depMinutesOf s : Int) - (currentMinutes : Int),
    gradeNm := s.gradeNm, charge := s.charge }

/-- The `for (const schedule of schedules)` loop of `getUpcomingDepartures`:
skip rows at or before the current time, push the rest, and break once the
accumulated list's length reaches `count`.  `acc` is the length pushed so
far. -/
def upcomingLoop (currentTimeStr : String) (currentMinutes : Nat) (count : Nat)
    (acc : Nat) : List ParsedSchedule → List IntercityDeparture
  | [] => []
  | s :: rest =>
    if jsStrLt currentTimeStr s.depTimeRaw then
      let dep := mkDeparture currentMinutes s
      if acc + 1 ≥ count then [dep]
      else dep :: upcomingLoop currentTimeStr currentMinutes count (acc + 1) rest
    else
      upcomingLoop currentTimeStr currentMinutes count acc rest

/-- TS `IntercityBusService.getUpcomingDepartures`: resolve both terminal
names (fail closed to `[]`), take the (cached) day's schedules for the pair,
and keep the first `count` departures strictly after the current KST time.
The current KST time is passed as hour/minute; `schedulesFor` models
`getSchedules` for today's date. -/
def getUpcomingDepartures (terminals : List TerminalData)
    (schedulesFor : String → String → List ParsedSchedule)
    (nowHour nowMin : Nat) (startStation endStation : String) (count : Nat) :
    List IntercityDeparture :=
  match findTerminalByName terminals startStation,
        findTerminalByName terminals endStation with
  | some depTerminalId, some arrTerminalId =>
    let schedules := schedulesFor depTerminalId arrTerminalId
    if schedules = [] then []
    else
      let currentTimeStr := pad2 nowHour ++ pad2 nowMin
      let currentMinutes := nowHour * 60 + nowMin
      upcomingLoop currentTimeStr currentMinutes count 0 schedules
  | _, _ => []

/-! ## Subway station data (`src/data/subway-stations.ts`) -/

/-- Line shape (TS `SubwayLineData.type`). -/
inductive LineType where
  | linear
  | circular
deriving Repr, DecidableEq

/-- Direction labels matched against the API `updnLine` value. -/
structure LineDirections where
  forward : String
  backward : String
deriving Repr, DecidableEq

/-- A branch of a line: the branch point on the already-known part of the
line and the branch's own stations in order. -/
structure BranchData where
  branchPoint : String
  stations : List String
deriving Repr, DecidableEq

/-- Static per-line station-order data (TS `SubwayLineData`). -/
structure SubwayLineData where
  type : LineType
  directions : LineDirections
  stations : List String
  branches : List BranchData := []
deriving Repr, DecidableEq

/-- The static line table (TS `SUBWAY_LINES`), as a keyed association list. -/
def SUBWAY_LINES : List (String × SubwayLineData) :=
  [ ("1001",
     { type := .linear,
       directions := { forward := "하행", backward := "상행" },
       stations :=
         ["연천", "전곡",
          "소요산", "동두천", "보산", "동두천중앙", "지행", "덕정", "덕계",
          "양주", "녹양", "가능", "의정부", "회룡", "망월사", "도봉산",
          "도봉", "방학", "창동", "녹천", "월계", "광운대", "석계",
          "신이문", "외대앞", "회기", "청량리", "제기동", "신설동", "동묘앞",
          "동대문", "종로5가", "종로3가", "종각", "시청", "서울역",
          "남영", "용산", "노량진", "대방", "신길", "영등포", "신도림", "구로"],
       branches :=
         [{ branchPoint := "구로",
            stations :=
              ["구일", "개봉", "오류동", "온수", "역곡", "소사", "부천",
               "중동", "송내", "부개", "부평", "백운", "동암", "간석",
               "주안", "도화", "제물포", "도원", "동인천", "인천"] },
          { branchPoint := "구로",
            stations :=
              ["가산디지털단지", "독산", "금천구청", "석수", "관악", "안양",
               "명학", "금정", "군포", "당정", "의왕", "성균관대", "화서",
               "수원", "세류", "병점", "세마", "오산대", "오산", "진위",
               "송탄", "서정리", "평택지제", "평택", "성환", "직산", "두정",
               "천안", "봉명", "쌍용", "아산", "배방", "온양온천", "신창"] },
          { branchPoint := "병점", stations := ["서동탄"] },
          { branchPoint := "금천구청", stations := ["광명"] }] }),
    ("1002",
     { type := .circular,
       directions := { forward := "외선", backward := "내선" },
       stations :=
         ["시청", "을지로입구", "을지로3가", "을지로4가", "동대문역사문화공원",
          "신당", "상왕십리", "왕십리", "한양대", "뚝섬", "성수",
          "건대입구", "구의", "강변", "잠실나루", "잠실", "잠실새내",
          "종합운동장", "삼성", "선릉", "역삼", "강남", "교대", "서초",
          "방배", "사당", "낙성대", "서울대입구", "봉천", "신림", "신대방",
          "구로디지털단지", "대림", "신도림", "문래", "영등포구청", "당산",
          "합정", "홍대입구", "신촌", "이대", "아현", "충정로"],
       branches :=
         [{ branchPoint := "성수", stations := ["용답", "신답", "용두", "신설동"] },
          { branchPoint := "신도림",
            stations := ["도림천", "양천구청", "신정네거리", "까치산"] }] }),
    ("1003",
     { type := .linear,
       directions := { forward := "하행", backward := "상행" },
       stations :=
         ["대화", "주엽", "정발산", "마두", "백석", "대곡", "화정", "원당",
          "원흥", "삼송", "지축", "구파발", "연신내", "불광", "녹번", "홍제",
          "무악재", "독립문", "경복궁", "안국", "종로3가", "을지로3가",
          "충무로", "동대입구", "약수", "금호", "옥수", "압구정", "신사",
          "잠원", "고속터미널", "교대", "남부터미널", "양재", "매봉", "도곡",
          "대치", "학여울", "대청", "일원", "수서", "가락시장", "경찰병원", "오금"] }),
    ("1004",
     { type := .linear,
       directions := { forward := "하행", backward := "상행" },
       stations :=
         ["진접", "오남", "별내별가람",
          "당고개", "상계", "노원", "창동", "쌍문", "수유", "미아",
          "미아사거리", "길음", "성신여대입구", "한성대입구", "혜화",
          "동대문", "동대문역사문화공원", "충무로", "명동", "회현", "서울역",
          "숙대입구", "삼각지", "신용산", "이촌", "동작", "총신대입구(이수)", "사당",
          "남태령", "선바위", "경마공원", "대공원", "과천", "정부과천청사",
          "인덕원", "평촌", "범계", "금정", "산본", "수리산", "대야미",
          "반월", "상록수", "한대앞", "중앙", "고잔", "초지", "안산",
          "신길온천", "정왕", "오이도"] }),
    ("1005",
     { type := .linear,
       directions := { forward := "하행", backward := "상행" },
       stations :=
         ["방화", "개화산", "김포공항", "송정", "마곡", "발산", "우장산",
          "화곡", "까치산", "신정", "목동", "오목교", "양평", "영등포구청",
          "영등포시장", "신길", "여의도", "여의나루", "마포", "공덕", "애오개",
          "충정로", "서대문", "광화문", "종로3가", "을지로4가",
          "동대문역사문화공원", "청구", "신금호", "행당", "왕십리", "마장",
          "답십리", "장한평", "군자", "아차산", "광나루", "천호", "강동",
          "길동", "굽은다리", "명일", "고덕", "상일동", "강일", "미사",
          "하남풍산", "하남시청", "하남검단산"],
       branches :=
         [{ branchPoint := "강동",
            stations := ["둔촌동", "올림픽공원", "방이", "오금", "개롱", "거여", "마천"] }] }),
    ("1006",
     { type := .linear,
       directions := { forward := "하행", backward := "상행" },
       stations :=
         ["역촌", "불광", "독바위", "연신내", "구산",
          "응암", "새절", "증산", "디지털미디어시티", "월드컵경기장",
          "마포구청", "망원", "합정", "상수", "광흥창", "대흥", "공덕",
          "효창공원앞", "삼각지", "녹사평", "이태원", "한강진", "버티고개",
          "약수", "청구", "신당", "동묘앞", "창신", "보문", "안암", "고려대",
          "월곡", "상월곡", "돌곶이", "석계", "태릉입구", "화랑대", "봉화산", "신내"] }),
    ("1007",
     { type := .linear,
       directions := { forward := "하행", backward := "상행" },
       stations :=
         ["장암", "도봉산", "수락산", "마들", "노원", "중계", "하계",
          "공릉", "태릉입구", "먹골", "중화", "상봉", "면목", "사가정",
          "용마산", "중곡", "군자", "어린이대공원", "건대입구", "뚝섬유원지",
          "청담", "강남구청", "학동", "논현", "반포", "고속터미널", "내방",
          "이수", "남성", "숭실대입구", "상도", "장승배기", "신대방삼거리",
          "보라매", "신풍", "대림", "남구로", "가산디지털단지", "철산",
          "광명사거리", "천왕", "온수", "까치울", "부천종합운동장", "춘의",
          "신중동", "부천시청", "상동", "삼산체육관", "굴포천", "부평구청",
          "산곡", "석남"] }),
    ("1008",
     { type := .linear,
       directions := { forward := "하행", backward := "상행" },
       stations :=
         ["암사", "천호", "강동구청", "몽촌토성", "잠실", "석촌",
          "송파", "가락시장", "문정", "장지", "복정", "산성", "남한산성입구",
          "단대오거리", "신흥", "수진", "모란"] }),
    ("1009",
     { type := .linear,
       directions := { forward := "하행", backward := "상행" },
       stations :=
         ["개화", "김포공항", "공항시장", "신방화", "마곡나루", "양천향교",
          "가양", "증미", "등촌", "염창", "신목동", "선유도", "당산",
          "국회의사당", "여의도", "샛강", "노량진", "노들", "흑석", "동작",
          "구반포", "신반포", "고속터미널", "사평", "신논현", "언주",
          "선정릉", "삼성중앙", "봉은사", "종합운동장", "삼전", "석촌고분",
          "석촌", "송파나루", "한성백제", "올림픽공원", "둔촌오륜", "중앙보훈병원"] }),
    ("1063",
     { type := .linear,
       directions := { forward := "하행", backward := "상행" },
       stations :=
         ["문산", "파주", "월롱", "금촌", "금릉", "운정", "야당", "탄현",
          "일산", "풍산", "백마", "곡산", "대곡", "능곡", "행신", "강매",
          "화전", "수색", "디지털미디어시티", "가좌", "홍대입구", "서강대",
          "공덕", "효창공원앞", "용산", "이촌", "서빙고", "한남", "옥수",
          "응봉", "왕십리", "청량리", "회기", "중랑", "상봉", "망우",
          "양원", "구리", "도농", "양정", "덕소", "도심", "팔당",
          "운길산", "양수", "신원", "국수", "아신", "오빈", "양평",
          "원덕", "용문", "지평"] }),
    ("1065",
     { type := .linear,
       directions := { forward := "하행", backward := "상행" },
       stations :=
         ["서울역", "공덕", "홍대입구", "디지털미디어시티", "마곡나루",
          "김포공항", "계양", "검암", "청라국제도시", "영종", "운서",
          "공항화물청사", "인천공항1터미널", "인천공항2터미널"] }),
    ("1067",
     { type := .linear,
       directions := { forward := "하행", backward := "상행" },
       stations :=
         ["청량리", "회기", "중랑", "상봉", "망우", "신내", "갈매", "별내",
          "퇴계원", "사릉", "금곡", "평내호평", "천마산", "마석", "대성리",
          "청평", "상천", "가평", "굴봉산", "백양리", "강촌", "김유정",
          "남춘천", "춘천"] }),
    ("1075",
     { type := .linear,
       directions := { forward := "하행", backward := "상행" },
       stations :=
         ["청량리", "왕십리", "서울숲", "압구정로데오", "강남구청", "선정릉",
          "선릉", "한티", "도곡", "구룡", "개포동", "대모산입구", "수서",
          "복정", "가천대", "태평", "모란", "야탑", "이매", "서현", "수내",
          "정자", "미금", "오리", "죽전", "보정", "구성", "신갈", "기흥",
          "상갈", "청명", "영통", "망포", "매탄권선", "수원시청", "매교",
          "수원", "고색", "오목천", "어천", "야목", "사리", "한대앞",
          "중앙", "고잔", "초지", "원인재", "연수", "송도", "인하대",
          "숭의", "신포", "인천"] }),
    ("1077",
     { type := .linear,
       directions := { forward := "하행", backward := "상행" },
       stations :=
         ["신사", "논현", "신논현", "강남", "양재", "양재시민의숲",
          "청계산입구", "판교", "정자", "미금", "동천", "수지구청",
          "성복", "상현", "광교중앙", "광교"] }),
    ("1092",
     { type := .linear,
       directions := { forward := "하행", backward := "상행" },
       stations :=
         ["북한산우이", "솔밭공원", "4.19민주묘지", "가오리", "화계",
          "삼양", "삼양사거리", "솔샘", "북한산보국문", "정릉",
          "성신여대입구", "보문", "신설동"] }),
    ("1093",
     { type := .linear,
       directions := { forward := "하행", backward := "상행" },
       stations :=
         ["소사", "소새울", "시흥대야", "신천", "신현", "시흥시청",
          "시흥능곡", "달미", "선부", "초지", "원곡", "원시"] }),
    ("1081",
     { type := .linear,
       directions := { forward := "하행", backward := "상행" },
       stations :=
         ["판교", "이매", "삼동", "경기광주", "초월", "곤지암",
          "신둔도예촌", "이천", "부발", "세종대왕릉", "여주"] }),
    ("1094",
     { type := .linear,
       directions := { forward := "하행", backward := "상행" },
       stations :=
         ["샛강", "대방", "서울지방병무청", "보라매", "보라매공원",
          "보라매병원", "당곡", "신림", "서원", "서울대벤처타운", "관악산"] }),
    ("1032",
     { type := .linear,
       directions := { forward := "하행", backward := "상행" },
       stations :=
         ["운정중앙", "킨텍스", "대곡", "연신내", "서울역",
          "삼성", "수서", "성남", "용인", "동탄"] }) ]

/-- TS `normalizeStationName`: strip a trailing "역", then remove all
whitespace (`.trim()` afterwards is then a no-op). -/
def normalizeStationName (s : String) : String :=
  let stripped :=
    if s.data ≠ [] ∧ s.data.getLast? = some '역' then s.data.dropLast else s.data
  ⟨stripped.filter (fun c => !isJsWhitespace c)⟩

/-! ## Subway line graph and BFS reachability (`src/data/subway-graph.ts`)

The JS `Map`/`Set` adjacency structure is modelled as association lists with
insertion-order append; `Set.add` keeps the first insertion position. -/

/-- Per-line adjacency graph (TS `SubwayGraph`): normalized station name to
neighbour list, plus the set of known stations. -/
structure SubwayGraph where
  adjacency : List (String × List String)
  stations : List String
deriving Repr, DecidableEq

/-- The initial graph with no nodes. -/
def initialGraph : SubwayGraph := { adjacency := [], stations := [] }

/-- Neighbour list of a node (empty when the node is unknown). -/
def adjLookup (g : SubwayGraph) (v : String) : List String :=
  (g.adjacency.lookup v).getD []

/-- Whether the adjacency map has the node (`graph.adjacency.has`). -/
def hasAdjKey (g : SubwayGraph) (v : String) : Bool :=
  (g.adjacency.lookup v).isSome

/-- `ensureNode`: record the normalized name in the station set and give it an
(empty) adjacency entry if absent.  The argument is already normalized. -/
def ensureNode (g : SubwayGraph) (n : String) : SubwayGraph :=
  { adjacency :=
      if (g.adjacency.lookup n).isSome then g.adjacency else g.adjacency ++ [(n, [])]
    stations := if n ∈ g.stations then g.stations else g.stations ++ [n] }

/-- Append a neighbour to one node's adjacency set (JS `Set.add`: no
duplicates, first position kept). -/
def addNeighbor (g : SubwayGraph) (a b : String) : SubwayGraph :=
  { g with adjacency :=
      g.adjacency.map (fun p =>
        if p.1 = a then (p.1, if b ∈ p.2 then p.2 else p.2 ++ [b]) else p) }

/-- The normalized core of `addEdge`: ensure both (already normalized)
endpoints exist, then link them in both directions. -/
def addEdgeN (g : SubwayGraph) (na nb : String) : SubwayGraph :=
  addNeighbor (addNeighbor (ensureNode (ensureNode g na) nb) na nb) nb na

/-- `addEdge`: normalize both endpoints, ensure they exist, and link them in
both directions. -/
def addEdge (g : SubwayGraph) (a b : String) : SubwayGraph :=
  addEdgeN g (normalizeStationName a) (normalizeStationName b)

/-- Consecutive pairs of a list (the `for (i; i < len - 1; i++)` edge loops). -/
def consecutivePairs : List String → List (String × String)
  | a :: b :: rest => (a, b) :: consecutivePairs (b :: rest)
  | _ => []

/-- The sequence of `addEdge` calls made by `buildLineGraph`, in order:
main-line consecutive edges, the circular closing edge, then for each branch
the branch-point edge followed by the branch's consecutive edges. -/
def lineEdgeList (line : SubwayLineData) : List (String × String) :=
  consecutivePairs line.stations ++
    (if line.type = .circular ∧ line.stations.length > 1 then
       match line.stations.getLast?, line.stations.head? with
       | some last, some first => [(last, first)]
       | _, _ => []
     else []) ++
    (line.branches.map (fun branch =>
       match branch.stations.head? with
       | some b0 => (branch.branchPoint, b0) :: consecutivePairs branch.stations
       | none => consecutivePairs branch.stations)).flatten

/-- TS `buildLineGraph`: fold the line's edges over an empty graph. -/
def buildLineGraph (line : SubwayLineData) : SubwayGraph :=
  (lineEdgeList line).foldl (fun g e => addEdge g e.1 e.2) initialGraph

/-- TS `getLineGraph` (the lazily built singleton cache is
identity-transparent): the graph for a line id, if the line is configured. -/
def getLineGraph (lineId : String) : Option SubwayGraph :=
  (SUBWAY_LINES.lookup lineId).map buildLineGraph

/-! ### BFS path search (`findPath`) -/

/-- BFS traversal state: visitation-ordered visited set, parent map (in
insertion order), and FIFO queue. -/
structure BFSState where
  visited : List String
  parent : List (String × String)
  queue : List String
deriving Repr, DecidableEq

/-- Path reconstruction (`경로 역추적`): repeatedly `unshift` the node and
follow the parent map until no parent exists.  Fuel bounds the loop; it is
always called with fuel larger than the parent-chain length. -/
def backtrack (parent : List (String × String)) : Nat → String → List String → List String
  | 0, node, acc => node :: acc
  | fuel + 1, node, acc =>
    match parent.lookup node with
    | none => node :: acc
    | some par => backtrack parent fuel par (node :: acc)

/-- The `for (const neighbor of graph.adjacency.get(current))` loop body:
skip visited neighbours, otherwise record visit and parent, return the
reconstructed path when the target is reached, else enqueue. -/
def processNeighbors (tgt current : String) :
    List String → BFSState → BFSState ⊕ List String
  | [], st => Sum.inl st
  | n :: ns, st =>
    if n ∈ st.visited then processNeighbors tgt current ns st
    else
      let st' : BFSState :=
        { visited := st.visited ++ [n]
          parent := st.parent ++ [(n, current)]
          queue := st.queue ++ [n] }
      if n = tgt then Sum.inr (backtrack st'.parent (st'.parent.length + 1) tgt [])
      else processNeighbors tgt current ns st'

/-- The `while (queue.length > 0)` BFS loop.  Fuel bounds the iterations; the
initial fuel (number of adjacency entries + 1) always suffices, as each
iteration pops one queue entry and entries are enqueued at most once per
node. -/
def bfsLoop (g : SubwayGraph) (tgt : String) : Nat → BFSState → Option (List String)
  | 0, _ => none
  | fuel + 1, st =>
    match st.queue with
    | [] => none
    | current :: rest =>
      match processNeighbors tgt current (adjLookup g current) { st with queue := rest } with
      | Sum.inl st' => bfsLoop g tgt fuel st'
      | Sum.inr path => some path

/-- TS `findPath`: BFS from `frm` to `tgt` over the line graph, returning the
discovered path (TS `from`/`to` are Lean keywords). -/
def findPath (g : SubwayGraph) (frm tgt : String) : Option (List String) :=
  if frm = tgt then some [frm]
  else if ¬ (hasAdjKey g frm = true) ∨ ¬ (hasAdjKey g tgt = true) then none
  else
    bfsLoop g tgt (g.adjacency.length + 1)
      { visited := [frm], parent := [], queue := [frm] }

/-! ### Directed circular path (`getDirectedCircularPath`) -/

/-- JS `Array.prototype.indexOf` returning `-1` as `none`. -/
def jsIndexOf (l : List String) (x : String) : Option Nat :=
  l.findIdx? (fun y => decide (y = x))

/-- Branch location of a station (TS `findBranchInfo`): index of the first
branch containing it, the index within that branch, and the normalized
branch point. -/
def findBranchInfo (branches : List BranchData) (station : String) :
    Option (Nat × Nat × String) :=
  ((branches.zip (List.range branches.length)).findSome? (fun bi =>
    match jsIndexOf (bi.1.stations.map normalizeStationName) station with
    | some idx => some (bi.2, idx, normalizeStationName bi.1.branchPoint)
    | none => none))

/-- The `walkMainLine` loop: walk the circular main line from `idx` in the
given rotational direction, stopping after revisiting `toIdx` with a
non-trivial path; `while (steps <= maxSteps)` bounds the loop. -/
def walkMainLineAux (normalizedMain : List String) (isForward : Bool)
    (toIdx mainLen : Nat) : Nat → Nat → List String → List String
  | 0, _, path => path
  | fuel + 1, idx, path =>
    let path' := path ++ [normalizedMain.getD idx ""]
    if idx = toIdx ∧ path'.length > 1 then path'
    else
      let idx' := if isForward then (idx + 1) % mainLen
                  else (idx + mainLen - 1) % mainLen
      walkMainLineAux normalizedMain isForward toIdx mainLen fuel idx' path'

/-- `walkMainLine(fromIdx, toIdx)`: the loop runs while `steps <= mainLen+1`,
i.e. at most `mainLen + 2` iterations. -/
def walkMainLine (normalizedMain : List String) (isForward : Bool)
    (fromIdx toIdx : Nat) : List String :=
  walkMainLineAux normalizedMain isForward toIdx normalizedMain.length
    (normalizedMain.length + 2) fromIdx []

/-- `getBranchPath(branchIdx, upToStationIdx)`: normalized branch stations up
to and including the given index. -/
def getBranchPath (branches : List BranchData) (branchIdx upToStationIdx : Nat) :
    List String :=
  match branches.get? branchIdx with
  | some branch => (branch.stations.take (upToStationIdx + 1)).map normalizeStationName
  | none => []

/-- TS `getDirectedCircularPath`: the ordered station sequence a circular-line
train actually traverses from `start` to `terminal` in the reported rotational
direction, splicing through branch points when either endpoint is on a
branch. -/
def getDirectedCircularPath (line : SubwayLineData) (start terminal direction : String) :
    Option (List String) :=
  let normalizedMain := line.stations.map normalizeStationName
  let isForward := direction = line.directions.forward
  let startMainIdx := jsIndexOf normalizedMain start
  let terminalMainIdx := jsIndexOf normalizedMain terminal
  let startBranch := if startMainIdx.isNone then findBranchInfo line.branches start else none
  let terminalBranch := if terminalMainIdx.isNone then findBranchInfo line.branches terminal else none
  match startMainIdx, terminalMainIdx with
  | some si, some ti =>
    -- Case 1: both on the main loop
    some (walkMainLine normalizedMain isForward si ti)
  | some si, none =>
    -- Case 2: start on the main loop, terminal on a branch
    match terminalBranch with
    | some (tBranchIdx, tStationIdx, tBranchPoint) =>
      match jsIndexOf normalizedMain tBranchPoint with
      | some bpMainIdx =>
        some (walkMainLine normalizedMain isForward si bpMainIdx ++
          getBranchPath line.branches tBranchIdx tStationIdx)
      | none => none
    | none => none
  | none, some ti =>
    -- Case 3: start on a branch, terminal on the main loop
    match startBranch with
    | some (sBranchIdx, sStationIdx, sBranchPoint) =>
      match jsIndexOf normalizedMain sBranchPoint with
      | some bpMainIdx =>
        some ((getBranchPath line.branches sBranchIdx sStationIdx).reverse ++
          walkMainLine normalizedMain isForward bpMainIdx ti)
      | none => none
    | none => none
  | none, none =>
    -- Case 4: both on branches
    match startBranch, terminalBranch with
    | some (sBranchIdx, sStationIdx, _), some (tBranchIdx, tStationIdx, tBranchPoint) =>
      if sBranchIdx = tBranchIdx then
        match line.branches.get? sBranchIdx with
        | some branch =>
          let stations := branch.stations.map normalizeStationName
          if sStationIdx ≤ tStationIdx then
            some ((stations.drop sStationIdx).take (tStationIdx + 1 - sStationIdx))
          else
            some (((stations.drop tStationIdx).take (sStationIdx + 1 - tStationIdx)).reverse)
        | none => none
      else
        match startBranch with
        | some (_, _, sBranchPoint) =>
          match jsIndexOf normalizedMain sBranchPoint,
                jsIndexOf normalizedMain tBranchPoint with
          | some startBp, some terminalBp =>
            some ((getBranchPath line.branches sBranchIdx sStationIdx).reverse ++
              walkMainLine normalizedMain isForward startBp terminalBp ++
              getBranchPath line.branches tBranchIdx tStationIdx)
          | _, _ => none
        | none => none
    | _, _ => none

/-- JS truthiness of the optional `direction` argument (an empty string is
falsy). -/
def dirTruthy : Option String → Bool
  | none => false
  | some s => decide (s ≠ "")

/-- The body of TS `willTrainReachStation` after the graph/line lookups:
whether a train reported with the given terminal (and `updnLine` direction,
used on circular lines) passes the desired destination when boarded at
`startStation`.  The graph cache and the `SUBWAY_LINES[lineId]` lookup use
the same key and are modelled by a single lookup in the wrapper below. -/
def willTrainReachLine (line : SubwayLineData)
    (startStation destStation trainTerminal : String)
    (direction : Option String) : Bool :=
  let graph := buildLineGraph line
  let start := normalizeStationName startStation
  let dest := normalizeStationName destStation
  let terminal := normalizeStationName trainTerminal
  if ¬ (start ∈ graph.stations) ∨ ¬ (dest ∈ graph.stations) then false
  else if ¬ (terminal ∈ graph.stations) then false
  else if start = dest then true
  else if dest = terminal then (findPath graph start dest).isSome
  else if line.type = .circular ∧ dirTruthy direction = true then
    match direction with
    | some dir =>
      match getDirectedCircularPath line start terminal dir with
      | some trainPath => decide (dest ∈ trainPath)
      | none => false
    | none => false
  else
    match findPath graph start terminal with
    | some pathToTerminal => decide (dest ∈ pathToTerminal)
    | none => false

/-- TS `willTrainReachStation` (see `willTrainReachLine` for the body after
the line lookup). -/
def willTrainReachStation (lineId startStation destStation trainTerminal : String)
    (direction : Option String) : Bool :=
  match SUBWAY_LINES.lookup lineId with
  | none => false
  | some line => willTrainReachLine line startStation destStation trainTerminal direction

/-! ### Notions used to verify `findPath` and `willTrainReachStation` on
linear lines -/

/-- Undirected membership of an edge in an edge list. -/
def EdgeMem (es : List (String × String)) (a b : String) : Prop :=
  (a, b) ∈ es ∨ (b, a) ∈ es

/-- Adjacency in a built graph. -/
def AdjIn (g : SubwayGraph) (a b : String) : Prop :=
  b ∈ adjLookup g a

/-- A correct BFS answer: a duplicate-free path from `frm` to `tgt` along
graph edges. -/
def PathOK (g : SubwayGraph) (frm tgt : String) (p : List String) : Prop :=
  p.head? = some frm ∧ p.getLast? = some tgt ∧
    List.Chain' (AdjIn g) p ∧ p.Nodup

/-- The normalized main-line station list of a line. -/
def normMain (line : SubwayLineData) : List String :=
  line.stations.map normalizeStationName

/-- The edge list of a line with both endpoints normalized (the edges
`buildLineGraph` actually inserts). -/
def normEdges (line : SubwayLineData) : List (String × String) :=
  (lineEdgeList line).map
    (fun e => (normalizeStationName e.1, normalizeStationName e.2))

/-- The normalized main-line consecutive edges of a line. -/
def mainEdges (line : SubwayLineData) : List (String × String) :=
  consecutivePairs (normMain line)

/-- The normalized edges contributed by one branch: the branch-point edge
followed by the branch's consecutive edges. -/
def branchNormEdges (br : BranchData) : List (String × String) :=
  match (br.stations.map normalizeStationName).head? with
  | some b0 =>
    (normalizeStationName br.branchPoint, b0) ::
      consecutivePairs (br.stations.map normalizeStationName)
  | none => consecutivePairs (br.stations.map normalizeStationName)

/-- The normalized edges contributed by a list of branches. -/
def allBranchEdges (branches : List BranchData) : List (String × String) :=
  (branches.map branchNormEdges).flatten

/-- The vertex set accumulated after attaching a list of branches to an
initial vertex set. -/
def builtAfter (built : List String) : List BranchData → List String
  | [] => built
  | br :: rest => builtAfter (built ++ br.stations.map normalizeStationName) rest

/-- One branch is wellformed over the already-built vertex set: it attaches
at a known vertex, is nonempty and duplicate-free, and introduces only fresh
vertices. -/
def branchOK (built : List String) (br : BranchData) : Bool :=
  let ns := br.stations.map normalizeStationName
  decide (normalizeStationName br.branchPoint ∈ built) &&
    !ns.isEmpty && decide ns.Nodup && decide (∀ x ∈ ns, x ∉ built)

/-- All branches are wellformed, each over the vertex set built so far. -/
def branchesWFb (built : List String) : List BranchData → Bool
  | [] => true
  | br :: rest =>
    branchOK built br &&
      branchesWFb (built ++ br.stations.map normalizeStationName) rest

/-- Decidable wellformedness of a line's static data: at least two main
stations, duplicate-free normalized main-line names, wellformed branches. -/
def lineWFb (line : SubwayLineData) : Bool :=
  decide (2 ≤ line.stations.length) &&
    decide (normMain line).Nodup &&
    branchesWFb (normMain line) line.branches

/-- First index of an element in a list (the list length when absent). -/
def posIn (l : List String) (x : String) : Nat :=
  l.findIdx (fun y => y == x)

/-- Structural invariant of graphs produced by `addEdge` folds: the station
list equals the adjacency key list, keys are unique, and every recorded
neighbour is a known station. -/
structure GInv (g : SubwayGraph) : Prop where
  stationsEq : g.stations = g.adjacency.map Prod.fst
  keysNodup : (g.adjacency.map Prod.fst).Nodup
  valuesSub : ∀ p ∈ g.adjacency, ∀ n ∈ p.2, n ∈ g.stations

/-- Invariant of the BFS state: the visited list starts at the source and is
duplicate-free, all visited nodes are adjacency keys, the parent map lists
exactly the non-source visited nodes in visitation order, each parent was
visited strictly earlier and is adjacent to its child, the queue holds only
visited nodes, and the target is unvisited. -/
structure LoopInv (g : SubwayGraph) (frm tgt : String) (st : BFSState) : Prop where
  vhead : st.visited.head? = some frm
  vnodup : st.visited.Nodup
  vkeys : ∀ v ∈ st.visited, hasAdjKey g v = true
  pkeys : st.parent.map Prod.fst = st.visited.tail
  ppar : ∀ i (h : i < st.parent.length),
    ∃ k, ∃ (hk : k < st.visited.length), k ≤ i ∧
      st.visited.get ⟨k, hk⟩ = (st.parent.get ⟨i, h⟩).2
  padj : ∀ pr ∈ st.parent, pr.1 ∈ adjLookup g pr.2
  qsub : ∀ v ∈ st.queue, v ∈ st.visited
  tnotv : tgt ∉ st.visited

/-! ## Concrete instances used by witnesses and counterexamples -/

/-- An upstream oracle returning nothing (total upstream failure). -/
def emptyOracles : UpstreamOracles :=
  { getAllTransitArrivals := fun _ => []
    getUpcomingDepartures := fun _ _ _ => [] }

/-- A single city bus leg at station "S1" on lines "A" and "B". -/
def legS1 : RouteLeg :=
  { type := "bus", startStation := some "S1", endStation := some "E1",
    startStationId := some "11-111", lineNames := ["A", "B"] }

/-- A second city bus leg at station "S2" on line "C". -/
def legS2 : RouteLeg :=
  { type := "bus", startStation := some "S2", endStation := some "E2",
    startStationId := some "22-222", lineNames := ["C"] }

/-- A two-leg city route used by the C1 counterexample. -/
def routeTwoLegs : SavedRoute :=
  { id := "r1", aliasName := "two legs", routeType := "commute",
    routeSource := some "in_local", totalTime := 30, legs := [legS1, legS2] }

/-- A one-leg city route used by the C5 counterexample and witnesses. -/
def routeOneLeg : SavedRoute :=
  { id := "r2", aliasName := "one leg", routeType := "commute",
    routeSource := some "in_local", totalTime := 20, legs := [legS1] }

/-- An arrival on line "A" in `t` seconds. -/
def mkArrivalA (t : Nat) : ArrivalInfo :=
  { stationName := "S1", lineName := "A", direction := "", arrivalTime := t,
    arrivalMessage := "" }

/-- Oracle for the C1 counterexample: the first leg's entry lists an arrival
in 300 s, the second leg's entry one in 100 s. -/
def cexOraclesC1 : UpstreamOracles :=
  { getAllTransitArrivals := fun _ =>
      [{ type := "bus", arrivals := [mkArrivalA 300], startStation := some "S1",
         endStation := some "E1" },
       { type := "bus",
         arrivals := [{ stationName := "S2", lineName := "C", direction := "",
                        arrivalTime := 100, arrivalMessage := "" }],
         startStation := some "S2", endStation := some "E2" }]
    getUpcomingDepartures := fun _ _ _ => [] }

/-- Oracle for the C5 counterexample: the single leg produced one live
arrival, on line "A" only. -/
def cexOraclesC5 : UpstreamOracles :=
  { getAllTransitArrivals := fun _ =>
      [{ type := "bus", arrivals := [mkArrivalA 180], startStation := some "S1",
         endStation := some "E1" }]
    getUpcomingDepartures := fun _ _ _ => [] }

/-- Whether a city leg obtained no realtime data in the fetched entries:
its lookup by start station fails or the found entry has no arrivals. -/
def noRealtimeFor (allArrivals : List CityArrivalEntry) (leg : RouteLeg) : Bool :=
  match allArrivals.find? (fun a => decide (a.startStation = leg.startStation)) with
  | some e => e.arrivals.isEmpty
  | none => true

/-- The placeholder floor of claim C5 (amended): total number of
(leg, lineName) pairs over city transit legs that obtained no realtime
data. -/
def placeholderFloor (route : SavedRoute) (allArrivals : List CityArrivalEntry) : Nat :=
  (((transitLegsOf route).filter (fun leg =>
      !isIntercityBusLeg leg route.routeSource && noRealtimeFor allArrivals leg)).map
    (fun leg => leg.lineNames.length)).sum

/-- The number of (leg, lineName) pairs over all transit legs of a route
(the floor asserted by claim C5 as frozen). -/
def lineNamePairs (route : SavedRoute) : Nat :=
  ((transitLegsOf route).map (fun leg => leg.lineNames.length)).sum

/-- The headway fallback taken from the first transit leg's type (the final
`else` branch of the wait determination). -/
def firstLegHeadway (transitLegs : List RouteLeg) : Nat :=
  match transitLegs with
  | firstLeg :: _ => (AVERAGE_HEADWAY firstLeg.type).getD 600
  | [] => 600

/-- An intercity bus leg (동서울 to 인천) with two configured line names,
used by the C5 counterexample. -/
def legIC : RouteLeg :=
  { type := "bus", legSubType := some "intercity_bus",
    startStation := some "동서울", endStation := some "인천",
    lineNames := ["X", "Y"] }

/-- A route consisting of the single intercity leg. -/
def routeIC : SavedRoute :=
  { id := "r3", aliasName := "intercity", routeType := "other",
    routeSource := some "inter_local", totalTime := 60, legs := [legIC] }

/-- Concrete bus oracles for the C10 witness: the Seoul feed reports one
arrival on line "A". -/
def wBusOracles : BusOracles :=
  { seoul := fun _ => [mkArrivalA 120]
    gyeonggi := fun _ _ _ => [] }

/-- A subway leg used by the C8 witness. -/
def wLegC8 : RouteLeg :=
  { type := "subway", startStation := some "강남", endStation := some "잠실새내",
    lineNames := ["2호선"] }

/-- An arrival on the given line in `t` seconds, used by the C8 witness. -/
def wArr (n : String) (t : Nat) : ArrivalInfo :=
  { stationName := "강남", lineName := n, direction := "", arrivalTime := t,
    arrivalMessage := "" }

/-- A two-terminal directory used by the C9 witness and counterexample. -/
def cexTerminals : List TerminalData :=
  [{ terminalId := "T1", terminalNm := "동서울종합터미널", normalizedNm := "동서울" },
   { terminalId := "T2", terminalNm := "인천종합터미널", normalizedNm := "인천" }]

/-- A fixed three-row daily timetable (one departure already past noon). -/
def cexSchedulesFor : String → String → List ParsedSchedule :=
  fun _ _ =>
    [{ depTime := "11:00", arrTime := "13:00", depTimeRaw := "1100" },
     { depTime := "13:00", arrTime := "15:00", depTimeRaw := "1300" },
     { depTime := "14:30", arrTime := "16:30", depTimeRaw := "1430" }]

/-! ## Helper lemmas -/

/-- Folding append over a list is the flattening of the per-element lists. -/
theorem foldl_append_eq_flatten {α β : Type} (f : α → List β) (l : List α)
    (acc : List β) :
    l.foldl (fun acc x => acc ++ f x) acc = acc ++ (l.map f).flatten := by
  induction l generalizing acc with
  | nil => simp
  | cons a l ih => simp [ih, List.append_assoc]

/-- `buildLegArrivals` is the in-order concatenation of each leg's entries. -/
theorem buildLegArrivals_eq_flatten (routeSource : Option String)
    (allArrivals : List CityArrivalEntry)
    (intercityResults : List (RouteLeg × List IntercityDeparture))
    (transitLegs : List RouteLeg) :
    buildLegArrivals routeSource allArrivals intercityResults transitLegs
      = (transitLegs.map (legEntries routeSource allArrivals intercityResults)).flatten := by
  simpa using foldl_append_eq_flatten
    (legEntries routeSource allArrivals intercityResults) transitLegs []

/-- Lower bound on the flattened length from a filtered sub-sum, when the
per-element length is known on the filtered elements. -/
theorem sum_filter_le_flatten_length {α β : Type} (l : List α) (f : α → List β)
    (p : α → Bool) (g : α → Nat)
    (h : ∀ x ∈ l, p x = true → (f x).length = g x) :
    ((l.filter p).map g).sum ≤ ((l.map f).flatten).length := by
  induction l with
  | nil => simp
  | cons a l ih =>
    have ih' := ih (fun x hx hp => h x (List.mem_cons_of_mem a hx) hp)
    by_cases hp : p a = true
    · have hlen := h a (List.mem_cons_self a l) hp
      simp only [List.filter_cons, hp, if_true, List.map_cons, List.sum_cons,
        List.flatten_cons, List.length_append, hlen]
      omega
    · have hp' : p a = false := by simpa using hp
      simp only [List.filter_cons, hp', Bool.false_eq_true, if_false, List.map_cons,
        List.flatten_cons, List.length_append]
      omega

/-- In active hours, `calculateETAModel` returns `buildETAResult` on the
fetched data together with the active query log. -/
theorem calculateETAModel_active (o : UpstreamOracles) (nowMs : Nat)
    (route : SavedRoute) (hoff : isOffHours nowMs = false) :
    calculateETAModel o nowMs route
      = (buildETAResult route nowMs (allArrivalsOf o route) (intercityResultsOf o route),
         activeQueriesOf route) := by
  simp [calculateETAModel, hoff]

/-- Wait determination when the first transit leg is an intercity bus leg. -/
theorem determineWait_first_intercity (rs : Option String)
    (A : List CityArrivalEntry) (I : List (RouteLeg × List IntercityDeparture))
    (l : RouteLeg) (ls : List RouteLeg)
    (hic : isIntercityBusLeg l rs = true) :
    determineWait rs A I (l :: ls)
      = (match I.find? (fun r => decide (r.1 = l)) with
         | some r =>
           match r.2 with
           | dep :: _ => (dep.waitMinutes * 60, false)
           | [] => ((600 : Int), true)
         | none => ((600 : Int), true)) := by
  simp [determineWait, hic]

/-- Wait determination for a city-first route with some fetched entry. -/
theorem determineWait_city_cons (rs : Option String)
    (e : CityArrivalEntry) (es : List CityArrivalEntry)
    (I : List (RouteLeg × List IntercityDeparture))
    (l : RouteLeg) (ls : List RouteLeg)
    (hic : isIntercityBusLeg l rs = false) :
    determineWait rs (e :: es) I (l :: ls)
      = (match e.arrivals with
         | a :: _ => ((a.arrivalTime : Int), false)
         | [] => ((0 : Int), false)) := by
  simp [determineWait, hic]

/-- Wait determination with no transit legs but fetched entries. -/
theorem determineWait_nil_legs (rs : Option String)
    (e : CityArrivalEntry) (es : List CityArrivalEntry)
    (I : List (RouteLeg × List IntercityDeparture)) :
    determineWait rs (e :: es) I []
      = (match e.arrivals with
         | a :: _ => ((a.arrivalTime : Int), false)
         | [] => ((0 : Int), false)) := by
  simp [determineWait]

/-- Headway fallback when no realtime entry exists, city-first route. -/
theorem determineWait_empty_cons (rs : Option String)
    (I : List (RouteLeg × List IntercityDeparture))
    (l : RouteLeg) (ls : List RouteLeg)
    (hic : isIntercityBusLeg l rs = false) :
    determineWait rs [] I (l :: ls)
      = ((((AVERAGE_HEADWAY l.type).getD 600 : Nat) : Int), true) := by
  simp [determineWait, hic]

/-- Headway fallback with no transit legs and no realtime entries. -/
theorem determineWait_empty_nil (rs : Option String)
    (I : List (RouteLeg × List IntercityDeparture)) :
    determineWait rs [] I [] = ((600 : Int), true) := by
  simp [determineWait]

/-- The wait time of a built result is the wait determination's first
component. -/
theorem buildETAResult_waitTime (route : SavedRoute) (nowMs : Nat)
    (A : List CityArrivalEntry) (I : List (RouteLeg × List IntercityDeparture)) :
    (buildETAResult route nowMs A I).waitTime
      = (determineWait route.routeSource A I (transitLegsOf route)).1 := rfl

/-- The estimate flag of a built result is the wait determination's second
component. -/
theorem buildETAResult_isEstimate (route : SavedRoute) (nowMs : Nat)
    (A : List CityArrivalEntry) (I : List (RouteLeg × List IntercityDeparture)) :
    (buildETAResult route nowMs A I).isEstimate
      = (determineWait route.routeSource A I (transitLegsOf route)).2 := rfl

/-- The leg arrivals of a built result come from the accumulation loop. -/
theorem buildETAResult_legArrivals (route : SavedRoute) (nowMs : Nat)
    (A : List CityArrivalEntry) (I : List (RouteLeg × List IntercityDeparture)) :
    (buildETAResult route nowMs A I).legArrivals
      = buildLegArrivals route.routeSource A I (transitLegsOf route) := rfl

/-- In active hours, the computed `legArrivals` list is the concatenation of
the per-leg entry lists in transit-leg order. -/
theorem legArrivals_flatten_active (o : UpstreamOracles) (nowMs : Nat)
    (route : SavedRoute) (hoff : isOffHours nowMs = false) :
    (calculateETAModel o nowMs route).1.legArrivals
      = ((transitLegsOf route).map
          (legEntries route.routeSource (allArrivalsOf o route)
            (intercityResultsOf o route))).flatten := by
  rw [calculateETAModel_active o nowMs route hoff]
  rw [show (buildETAResult route nowMs (allArrivalsOf o route) (intercityResultsOf o route),
        activeQueriesOf route).1
      = buildETAResult route nowMs (allArrivalsOf o route) (intercityResultsOf o route) from rfl]
  rw [buildETAResult_legArrivals, buildLegArrivals_eq_flatten]

/-! ## Claim C4: off-hours short circuit -/

/-- C4: for every route and every upstream oracle, when the current KST hour
is in the off-hours window [01:00, 05:00), `calculateETA` returns the
off-hours sentinel result — empty `estimatedArrival`, zero `waitTime`,
`isEstimate = true`, empty `legArrivals` — and issues no upstream realtime or
timetable query. -/
theorem offHours_shortCircuit (o : UpstreamOracles) (nowMs : Nat)
    (route : SavedRoute)
    (h1 : 1 ≤ getKoreaHour nowMs) (h2 : getKoreaHour nowMs < 5) :
    (calculateETAModel o nowMs route).1.estimatedArrival = ""
    ∧ (calculateETAModel o nowMs route).1.waitTime = 0
    ∧ (calculateETAModel o nowMs route).1.isEstimate = true
    ∧ (calculateETAModel o nowMs route).1.legArrivals = []
    ∧ (calculateETAModel o nowMs route).2 = [] := by
  have hoff : isOffHours nowMs = true := by
    simp only [isOffHours, decide_eq_true_eq]
    exact ⟨h1, h2⟩
  simp [calculateETAModel, hoff, offHoursETA]

/-- Witness for C4 at 02:00 KST (epoch instant 61200000 ms = 17:00 UTC). -/
theorem offHours_shortCircuit_witness :
    (1 ≤ getKoreaHour 61200000 ∧ getKoreaHour 61200000 < 5)
    ∧ ((calculateETAModel emptyOracles 61200000 routeOneLeg).1.estimatedArrival = ""
       ∧ (calculateETAModel emptyOracles 61200000 routeOneLeg).1.waitTime = 0
       ∧ (calculateETAModel emptyOracles 61200000 routeOneLeg).1.isEstimate = true
       ∧ (calculateETAModel emptyOracles 61200000 routeOneLeg).1.legArrivals = []
       ∧ (calculateETAModel emptyOracles 61200000 routeOneLeg).2 = []) :=
  ⟨by decide,
   offHours_shortCircuit emptyOracles 61200000 routeOneLeg (by decide) (by decide)⟩

/-! ## Claim C6: leg arrivals preserve leg order -/

/-- C6: for every route and every combination of upstream outcomes (any
oracle), the `legArrivals` list computed during active hours is exactly the
concatenation, in the saved route's transit-leg order, of the entries derived
for each leg — so all entries of an earlier leg precede all entries of a
later leg, regardless of which upstream queries returned data. -/
theorem legArrivals_leg_order (o : UpstreamOracles) (nowMs : Nat)
    (route : SavedRoute) (hoff : isOffHours nowMs = false) :
    (calculateETAModel o nowMs route).1.legArrivals
      = ((transitLegsOf route).map
          (legEntries route.routeSource (allArrivalsOf o route)
            (intercityResultsOf o route))).flatten :=
  legArrivals_flatten_active o nowMs route hoff

/-- Witness for C6 on a concrete two-leg route during active hours. -/
theorem legArrivals_leg_order_witness :
    (calculateETAModel cexOraclesC1 0 routeTwoLegs).1.legArrivals
      = ((transitLegsOf routeTwoLegs).map
          (legEntries routeTwoLegs.routeSource (allArrivalsOf cexOraclesC1 routeTwoLegs)
            (intercityResultsOf cexOraclesC1 routeTwoLegs))).flatten :=
  legArrivals_leg_order cexOraclesC1 0 routeTwoLegs (by decide)

/-! ## Claim C5 (amended): placeholder floor -/

/-- C5 (amended): during active hours, every city transit leg that obtained
no realtime data contributes exactly one "실시간 정보 없음" placeholder per
configured line name at the mode's average headway, and consequently the
length of `legArrivals` is at least the number of (leg, lineName) pairs over
the city transit legs that obtained no realtime data.  (An intercity leg with
no departures contributes a single placeholder, and a city leg with partial
realtime data can contribute fewer entries than its line-name count, so the
floor cannot range over all transit legs.) -/
theorem placeholder_floor_bound (o : UpstreamOracles) (nowMs : Nat)
    (route : SavedRoute) (hoff : isOffHours nowMs = false) :
    (∀ leg ∈ transitLegsOf route,
       isIntercityBusLeg leg route.routeSource = false →
       noRealtimeFor (allArrivalsOf o route) leg = true →
       legEntries route.routeSource (allArrivalsOf o route)
           (intercityResultsOf o route) leg
         = leg.lineNames.map (fun name =>
             { type := leg.type, lineName := name,
               arrivalMessage := "실시간 정보 없음",
               arrivalTime := (((AVERAGE_HEADWAY leg.type).getD 600 : Nat) : Int),
               startStation := leg.startStation, endStation := leg.endStation }))
    ∧ placeholderFloor route (allArrivalsOf o route)
        ≤ (calculateETAModel o nowMs route).1.legArrivals.length := by
  have hph : ∀ leg ∈ transitLegsOf route,
      isIntercityBusLeg leg route.routeSource = false →
      noRealtimeFor (allArrivalsOf o route) leg = true →
      legEntries route.routeSource (allArrivalsOf o route)
          (intercityResultsOf o route) leg
        = leg.lineNames.map (fun name =>
            { type := leg.type, lineName := name,
              arrivalMessage := "실시간 정보 없음",
              arrivalTime := (((AVERAGE_HEADWAY leg.type).getD 600 : Nat) : Int),
              startStation := leg.startStation, endStation := leg.endStation }) := by
    intro leg _ hic hnr
    unfold legEntries
    rw [hic]
    unfold noRealtimeFor at hnr
    cases hfind : (allArrivalsOf o route).find?
        (fun a => decide (a.startStation = leg.startStation)) with
    | none => simp [hfind]
    | some e =>
      rw [hfind] at hnr
      have he : e.arrivals = [] := by simpa using hnr
      simp [hfind, he]
  refine ⟨hph, ?_⟩
  rw [legArrivals_flatten_active o nowMs route hoff]
  unfold placeholderFloor
  refine sum_filter_le_flatten_length (transitLegsOf route) _ _ _ ?_
  intro leg hmem hp
  have hic : isIntercityBusLeg leg route.routeSource = false := by
    rcases Bool.and_eq_true_iff.mp hp with ⟨h1, _⟩
    simpa using h1
  have hnr : noRealtimeFor (allArrivalsOf o route) leg = true :=
    (Bool.and_eq_true_iff.mp hp).2
  rw [hph leg hmem hic hnr, List.length_map]

/-- Counterexample to C5 as frozen: a city leg with two configured line
names but live data on only one of them yields a single entry (1 < 2
line-name pairs), and an intercity leg with two line names and no departures
yields a single placeholder (1 < 2). -/
theorem placeholder_floor_counterexample :
    ((calculateETAModel cexOraclesC5 0 routeOneLeg).1.legArrivals.length = 1
     ∧ lineNamePairs routeOneLeg = 2
     ∧ (calculateETAModel cexOraclesC5 0 routeOneLeg).1.legArrivals.length
         < lineNamePairs routeOneLeg)
    ∧ ((calculateETAModel emptyOracles 0 routeIC).1.legArrivals.length = 1
       ∧ lineNamePairs routeIC = 2
       ∧ (calculateETAModel emptyOracles 0 routeIC).1.legArrivals.length
           < lineNamePairs routeIC) := by
  decide

/-- Witness for the amended C5 on a route whose only (city) leg got no
realtime data: the floor is 2 and is attained. -/
theorem placeholder_floor_bound_witness :
    (∀ leg ∈ transitLegsOf routeOneLeg,
       isIntercityBusLeg leg routeOneLeg.routeSource = false →
       noRealtimeFor (allArrivalsOf emptyOracles routeOneLeg) leg = true →
       legEntries routeOneLeg.routeSource (allArrivalsOf emptyOracles routeOneLeg)
           (intercityResultsOf emptyOracles routeOneLeg) leg
         = leg.lineNames.map (fun name =>
             { type := leg.type, lineName := name,
               arrivalMessage := "실시간 정보 없음",
               arrivalTime := (((AVERAGE_HEADWAY leg.type).getD 600 : Nat) : Int),
               startStation := leg.startStation, endStation := leg.endStation }))
    ∧ placeholderFloor routeOneLeg (allArrivalsOf emptyOracles routeOneLeg)
        ≤ (calculateETAModel emptyOracles 0 routeOneLeg).1.legArrivals.length :=
  placeholder_floor_bound emptyOracles 0 routeOneLeg (by decide)

/-! ## Claim C1 (amended): wait time from the first transit leg -/

/-- C1 (amended): during active hours the overall wait time is decided from
the first transit leg.  When that leg is an intercity bus leg, the wait is
its first upcoming departure's wait in seconds (`isEstimate = false`), or the
bus headway 600 s (`isEstimate = true`) when no departure was found.  When it
is a city leg (or there is no transit leg), the wait is the first listed
arrival time of the *first fetched city-leg entry* — i.e. the earliest
arrival of the first city leg that produced realtime data, not the earliest
among all returned realtime arrivals — with `isEstimate = false`; with no
realtime data at all, the wait falls back to the first leg's mode headway
(bus 600 s, subway 300 s) with `isEstimate = true`. -/
theorem first_leg_wait (o : UpstreamOracles) (nowMs : Nat) (route : SavedRoute)
    (hoff : isOffHours nowMs = false) :
    (∀ l p d, (transitLegsOf route).head? = some l →
       isIntercityBusLeg l route.routeSource = true →
       (intercityResultsOf o route).find? (fun r => decide (r.1 = l)) = some p →
       p.2.head? = some d →
       (calculateETAModel o nowMs route).1.waitTime = d.waitMinutes * 60
       ∧ (calculateETAModel o nowMs route).1.isEstimate = false)
    ∧ (∀ l p, (transitLegsOf route).head? = some l →
       isIntercityBusLeg l route.routeSource = true →
       (intercityResultsOf o route).find? (fun r => decide (r.1 = l)) = some p →
       p.2 = [] →
       (calculateETAModel o nowMs route).1.waitTime = 600
       ∧ (calculateETAModel o nowMs route).1.isEstimate = true)
    ∧ ((∀ l, (transitLegsOf route).head? = some l →
          isIntercityBusLeg l route.routeSource = false) →
       ∀ e a, (allArrivalsOf o route).head? = some e → e.arrivals.head? = some a →
       (calculateETAModel o nowMs route).1.waitTime = (a.arrivalTime : Int)
       ∧ (calculateETAModel o nowMs route).1.isEstimate = false)
    ∧ ((∀ l, (transitLegsOf route).head? = some l →
          isIntercityBusLeg l route.routeSource = false) →
       allArrivalsOf o route = [] →
       (calculateETAModel o nowMs route).1.waitTime
           = ((firstLegHeadway (transitLegsOf route) : Nat) : Int)
       ∧ (calculateETAModel o nowMs route).1.isEstimate = true) := by
  rw [calculateETAModel_active o nowMs route hoff]
  simp only [buildETAResult_waitTime, buildETAResult_isEstimate]
  refine ⟨?_, ?_, ?_, ?_⟩
  · intro l p d hhead hic hfind hd
    obtain ⟨ls, htl⟩ : ∃ ls, transitLegsOf route = l :: ls := by
      cases htl : transitLegsOf route with
      | nil => rw [htl] at hhead; simp at hhead
      | cons x xs =>
        rw [htl] at hhead
        simp at hhead
        exact ⟨xs, by rw [hhead]⟩
    rw [htl, determineWait_first_intercity _ _ _ _ _ hic, hfind]
    cases hp2 : p.2 with
    | nil => rw [hp2] at hd; simp at hd
    | cons d0 ds =>
      rw [hp2] at hd
      simp at hd
      simp [hp2, hd]
  · intro l p hhead hic hfind hp2
    obtain ⟨ls, htl⟩ : ∃ ls, transitLegsOf route = l :: ls := by
      cases htl : transitLegsOf route with
      | nil => rw [htl] at hhead; simp at hhead
      | cons x xs =>
        rw [htl] at hhead
        simp at hhead
        exact ⟨xs, by rw [hhead]⟩
    rw [htl, determineWait_first_intercity _ _ _ _ _ hic, hfind]
    simp [hp2]
  · intro hcity e a hA ha
    obtain ⟨es, hAeq⟩ : ∃ es, allArrivalsOf o route = e :: es := by
      cases hAeq : allArrivalsOf o route with
      | nil => rw [hAeq] at hA; simp at hA
      | cons x xs =>
        rw [hAeq] at hA
        simp at hA
        exact ⟨xs, by rw [hA]⟩
    obtain ⟨as2, haeq⟩ : ∃ as2, e.arrivals = a :: as2 := by
      cases haeq : e.arrivals with
      | nil => rw [haeq] at ha; simp at ha
      | cons x xs =>
        rw [haeq] at ha
        simp at ha
        exact ⟨xs, by rw [ha]⟩
    cases htl : transitLegsOf route with
    | nil =>
      rw [hAeq, determineWait_nil_legs, haeq]
      exact ⟨rfl, rfl⟩
    | cons l ls =>
      have hic : isIntercityBusLeg l route.routeSource = false := by
        apply hcity
        rw [htl]
        rfl
      rw [hAeq, determineWait_city_cons _ _ _ _ _ _ hic, haeq]
      exact ⟨rfl, rfl⟩
  · intro hcity hA
    cases htl : transitLegsOf route with
    | nil =>
      rw [hA, determineWait_empty_nil]
      exact ⟨rfl, rfl⟩
    | cons l ls =>
      have hic : isIntercityBusLeg l route.routeSource = false := by
        apply hcity
        rw [htl]
        rfl
      rw [hA, determineWait_empty_cons _ _ _ _ hic]
      simp [firstLegHeadway]

/-- Counterexample to C1 as frozen: with two city legs whose entries list
arrivals 300 s (first leg) and 100 s (second leg), the computed wait time is
300 s — the first leg's arrival — although the earliest among all returned
realtime arrivals is 100 s. -/
theorem first_leg_wait_counterexample :
    (calculateETAModel cexOraclesC1 0 routeTwoLegs).1.isEstimate = false
    ∧ (calculateETAModel cexOraclesC1 0 routeTwoLegs).1.waitTime = 300
    ∧ (100 : Int) ∈ ((allArrivalsOf cexOraclesC1 routeTwoLegs).map
        (fun e => e.arrivals.map (fun a => (a.arrivalTime : Int)))).flatten
    ∧ ¬ ((calculateETAModel cexOraclesC1 0 routeTwoLegs).1.waitTime ≤ (100 : Int)) := by
  decide

/-- Witness for the amended C1 (city case at a concrete input). -/
theorem first_leg_wait_witness :
    (calculateETAModel cexOraclesC1 0 routeTwoLegs).1.waitTime = ((300 : Nat) : Int)
    ∧ (calculateETAModel cexOraclesC1 0 routeTwoLegs).1.isEstimate = false := by
  have h := (first_leg_wait cexOraclesC1 0 routeTwoLegs (by decide)).2.2.1
  have hcity : ∀ l, (transitLegsOf routeTwoLegs).head? = some l →
      isIntercityBusLeg l routeTwoLegs.routeSource = false := by
    intro l hl
    injection (show some legS1 = some l from hl) with h2
    rw [← h2]
    decide
  exact h hcity _ (mkArrivalA 300) rfl rfl

/-! ## Claim C7: estimate flag provenance -/

/-- Intercity-first wait when the lookup finds a non-empty departure list. -/
theorem determineWait_fi_some_cons (rs : Option String)
    (A : List CityArrivalEntry) (I : List (RouteLeg × List IntercityDeparture))
    (l : RouteLeg) (ls : List RouteLeg) (p : RouteLeg × List IntercityDeparture)
    (d : IntercityDeparture) (ds : List IntercityDeparture)
    (hic : isIntercityBusLeg l rs = true)
    (hfind : I.find? (fun r => decide (r.1 = l)) = some p)
    (hp2 : p.2 = d :: ds) :
    determineWait rs A I (l :: ls) = (d.waitMinutes * 60, false) := by
  rw [determineWait_first_intercity _ _ _ _ _ hic, hfind]
  simp [hp2]

/-- Intercity-first wait when the lookup finds an empty departure list. -/
theorem determineWait_fi_some_nil (rs : Option String)
    (A : List CityArrivalEntry) (I : List (RouteLeg × List IntercityDeparture))
    (l : RouteLeg) (ls : List RouteLeg) (p : RouteLeg × List IntercityDeparture)
    (hic : isIntercityBusLeg l rs = true)
    (hfind : I.find? (fun r => decide (r.1 = l)) = some p)
    (hp2 : p.2 = []) :
    determineWait rs A I (l :: ls) = ((600 : Int), true) := by
  rw [determineWait_first_intercity _ _ _ _ _ hic, hfind]
  simp [hp2]

/-- Intercity-first wait when the lookup finds nothing. -/
theorem determineWait_fi_none (rs : Option String)
    (A : List CityArrivalEntry) (I : List (RouteLeg × List IntercityDeparture))
    (l : RouteLeg) (ls : List RouteLeg)
    (hic : isIntercityBusLeg l rs = true)
    (hfind : I.find? (fun r => decide (r.1 = l)) = none) :
    determineWait rs A I (l :: ls) = ((600 : Int), true) := by
  rw [determineWait_first_intercity _ _ _ _ _ hic, hfind]

/-- A non-estimate wait determination always carries a wait time obtained
from one of the fetched sources, provided every fetched city entry lists at
least one arrival. -/
theorem determineWait_false_sources (rs : Option String)
    (A : List CityArrivalEntry) (I : List (RouteLeg × List IntercityDeparture))
    (tl : List RouteLeg) (hne : ∀ e ∈ A, e.arrivals ≠ [])
    (hest : (determineWait rs A I tl).2 = false) :
    (∃ e ∈ A, ∃ a ∈ e.arrivals, (determineWait rs A I tl).1 = (a.arrivalTime : Int))
    ∨ (∃ p ∈ I, ∃ d ∈ p.2, (determineWait rs A I tl).1 = d.waitMinutes * 60) := by
  cases tl with
  | nil =>
    cases A with
    | nil =>
      rw [determineWait_empty_nil] at hest
      simp at hest
    | cons e es =>
      rw [determineWait_nil_legs] at hest ⊢
      cases ha : e.arrivals with
      | nil => exact absurd ha (hne e (List.mem_cons_self e es))
      | cons a as2 =>
        left
        refine ⟨e, List.mem_cons_self e es, a, ?_, rfl⟩
        rw [ha]
        exact List.mem_cons_self a as2
  | cons l ls =>
    cases hic : isIntercityBusLeg l rs with
    | true =>
      cases hfind : I.find? (fun r => decide (r.1 = l)) with
      | none =>
        rw [determineWait_fi_none _ _ _ _ _ hic hfind] at hest
        simp at hest
      | some p =>
        cases hp2 : p.2 with
        | nil =>
          rw [determineWait_fi_some_nil _ _ _ _ _ _ hic hfind hp2] at hest
          simp at hest
        | cons d ds =>
          rw [determineWait_fi_some_cons _ _ _ _ _ _ _ _ hic hfind hp2] at hest ⊢
          right
          refine ⟨p, List.mem_of_find?_eq_some hfind, d, ?_, rfl⟩
          rw [hp2]
          exact List.mem_cons_self d ds
    | false =>
      cases A with
      | nil =>
        rw [determineWait_empty_cons _ _ _ _ hic] at hest
        simp at hest
      | cons e es =>
        rw [determineWait_city_cons _ _ _ _ _ _ hic] at hest ⊢
        cases ha : e.arrivals with
        | nil => exact absurd ha (hne e (List.mem_cons_self e es))
        | cons a as2 =>
          left
          refine ⟨e, List.mem_cons_self e es, a, ?_, rfl⟩
          rw [ha]
          exact List.mem_cons_self a as2

/-- C7: under the aggregator's guarantee that every fetched city entry lists
at least one arrival, `isEstimate = false` only when the returned wait time
was actually obtained from a live reading — either a realtime arrival time of
a fetched city entry or a scheduled intercity departure wait; in all other
situations (off-hours, no matching arrivals, all sources failed or empty) the
result carries `isEstimate = true`. -/
theorem wait_provenance (o : UpstreamOracles) (nowMs : Nat) (route : SavedRoute)
    (hne : ∀ e ∈ allArrivalsOf o route, e.arrivals ≠ []) :
    (calculateETAModel o nowMs route).1.isEstimate = false →
    (∃ e ∈ allArrivalsOf o route, ∃ a ∈ e.arrivals,
       (calculateETAModel o nowMs route).1.waitTime = (a.arrivalTime : Int))
    ∨ (∃ p ∈ intercityResultsOf o route, ∃ d ∈ p.2,
       (calculateETAModel o nowMs route).1.waitTime = d.waitMinutes * 60) := by
  intro hest
  by_cases hoff : isOffHours nowMs = true
  · exfalso
    rw [show calculateETAModel o nowMs route = (offHoursETA route, []) from by
      simp [calculateETAModel, hoff]] at hest
    simp [offHoursETA] at hest
  · have hoff' : isOffHours nowMs = false := by simpa using hoff
    rw [calculateETAModel_active o nowMs route hoff'] at hest ⊢
    simp only [buildETAResult_waitTime, buildETAResult_isEstimate] at hest ⊢
    exact determineWait_false_sources route.routeSource _ _ _ hne hest

/-- Witness for C7 at a concrete input with one live city arrival (the
estimate flag is false there, so a live source for the wait time exists). -/
theorem wait_provenance_witness :
    (∃ e ∈ allArrivalsOf cexOraclesC5 routeOneLeg, ∃ a ∈ e.arrivals,
       (calculateETAModel cexOraclesC5 0 routeOneLeg).1.waitTime = (a.arrivalTime : Int))
    ∨ (∃ p ∈ intercityResultsOf cexOraclesC5 routeOneLeg, ∃ d ∈ p.2,
       (calculateETAModel cexOraclesC5 0 routeOneLeg).1.waitTime = d.waitMinutes * 60) :=
  wait_provenance cexOraclesC5 0 routeOneLeg (by decide) (by decide)

/-! ## Claim C10: bus-arrival cache keyed by station id alone -/

/-- Setting a cache key makes it the lookup result. -/
theorem busCacheSet_lookup (c : BusCache) (k : String) (v : List ArrivalInfo × Nat) :
    (busCacheSet c k v).lookup k = some v := by
  unfold busCacheSet
  by_cases hs : (List.lookup k c).isSome = true
  · rw [if_pos hs]
    induction c with
    | nil => simp [List.lookup] at hs
    | cons hd tl ih =>
      obtain ⟨pk, pv⟩ := hd
      by_cases hp : pk = k
      · subst hp
        simp only [List.map_cons, if_pos rfl]
        rw [List.lookup_cons]
        simp
      · have hbk : (k == pk) = false := beq_eq_false_iff_ne.mpr (Ne.symm hp)
        have hs' : (List.lookup k tl).isSome = true := by
          rw [List.lookup_cons, hbk] at hs
          exact hs
        simp only [List.map_cons, if_neg hp]
        rw [List.lookup_cons, hbk]
        exact ih hs'
  · rw [if_neg hs]
    have hnone : List.lookup k c = none := by
      cases hc : List.lookup k c with
      | none => rfl
      | some w => rw [hc] at hs; simp at hs
    induction c with
    | nil =>
      simp only [List.nil_append]
      rw [List.lookup_cons]
      simp
    | cons hd tl ih =>
      obtain ⟨pk, pv⟩ := hd
      have hbk : (k == pk) = false := by
        by_cases hp : (k == pk) = true
        · exfalso
          rw [List.lookup_cons, hp] at hnone
          simp at hnone
        · simpa using hp
      have htl : List.lookup k tl = none := by
        rw [List.lookup_cons, hbk] at hnone
        exact hnone
      have ihtl := ih (by simp [htl]) htl
      simp only [List.cons_append]
      rw [List.lookup_cons, hbk]
      exact ihtl

/-- A freshly set cache entry is served while unexpired. -/
theorem busCacheGet_set_fresh (c : BusCache) (k : String) (data : List ArrivalInfo)
    (exp now : Nat) (h : now < exp) :
    busCacheGet (busCacheSet c k (data, exp)) k now = some data := by
  unfold busCacheGet
  rw [busCacheSet_lookup]
  simp [h]

/-- A missed `getBusArrival` call stores its own result under
`"bus:" ++ stationId` with a 20 s TTL. -/
theorem getBusArrival_miss_sets_cache (o : BusOracles) (apiKey : String)
    (cache : BusCache) (now : Nat) (stationId : String)
    (ln : Option (List String)) (sn pr : Option String)
    (hkey : ¬ apiKey = "")
    (hmiss : busCacheGet cache ("bus:" ++ stationId) now = none) :
    (getBusArrival o apiKey cache now stationId ln sn pr).2.1
      = busCacheSet cache ("bus:" ++ stationId)
          ((getBusArrival o apiKey cache now stationId ln sn pr).1,
           now + ARRIVAL_CACHE_TTL_MS) := by
  simp only [getBusArrival, if_neg hkey, hmiss]

/-- A hit `getBusArrival` call returns the cached data, leaves the cache
unchanged, and issues no upstream query. -/
theorem getBusArrival_hit (o : BusOracles) (apiKey : String) (cache : BusCache)
    (now : Nat) (stationId : String) (ln : Option (List String)) (sn pr : Option String)
    (data : List ArrivalInfo)
    (hkey : ¬ apiKey = "")
    (hhit : busCacheGet cache ("bus:" ++ stationId) now = some data) :
    getBusArrival o apiKey cache now stationId ln sn pr = (data, cache, []) := by
  simp only [getBusArrival, if_neg hkey, hhit]

/-- C10: the bus-arrival cache key is the station id alone.  After a call on
`stationId` that missed the cache, any second call on the same station within
the 20-second TTL returns exactly the first call's result and issues no
upstream query, even with different `lineNames`, `stationName` or
`preResolvedGyeonggiId` arguments — the first call's line-matching and
Seoul-vs-regional decision is reused. -/
theorem busCache_station_keyed (o : BusOracles) (apiKey : String) (cache : BusCache)
    (t0 t1 : Nat) (stationId : String)
    (ln1 ln2 : Option (List String)) (sn1 sn2 pr1 pr2 : Option String)
    (hkey : ¬ apiKey = "")
    (hmiss : busCacheGet cache ("bus:" ++ stationId) t0 = none)
    (ht : t1 < t0 + ARRIVAL_CACHE_TTL_MS) :
    getBusArrival o apiKey ((getBusArrival o apiKey cache t0 stationId ln1 sn1 pr1).2.1)
        t1 stationId ln2 sn2 pr2
      = ((getBusArrival o apiKey cache t0 stationId ln1 sn1 pr1).1,
         (getBusArrival o apiKey cache t0 stationId ln1 sn1 pr1).2.1, []) := by
  have hset := getBusArrival_miss_sets_cache o apiKey cache t0 stationId ln1 sn1 pr1 hkey hmiss
  have hhit : busCacheGet ((getBusArrival o apiKey cache t0 stationId ln1 sn1 pr1).2.1)
      ("bus:" ++ stationId) t1
      = some (getBusArrival o apiKey cache t0 stationId ln1 sn1 pr1).1 := by
    rw [hset]
    exact busCacheGet_set_fresh _ _ _ _ _ ht
  exact getBusArrival_hit o apiKey _ t1 stationId ln2 sn2 pr2 _ hkey hhit

/-- Witness for C10: a Seoul-format stop queried twice within the TTL with
different line names and resolution hints. -/
theorem busCache_station_keyed_witness :
    getBusArrival wBusOracles "key" ((getBusArrival wBusOracles "key" [] 1000 "11-111"
        (some ["A"]) none none).2.1) 5000 "11-111" (some ["ZZZ"]) (some "X") (some "g9")
      = ((getBusArrival wBusOracles "key" [] 1000 "11-111" (some ["A"]) none none).1,
         (getBusArrival wBusOracles "key" [] 1000 "11-111" (some ["A"]) none none).2.1, []) :=
  busCache_station_keyed wBusOracles "key" [] 1000 5000 "11-111"
    (some ["A"]) (some ["ZZZ"]) none (some "X") none (some "g9")
    (by decide) (by decide) (by decide)

/-! ## Claim C8: per-leg arrivals sorted and capped -/

/-- The arrival comparator accepts exactly the `≤` order on arrival seconds
(`0`, "at platform or unknown", is the minimum of `Nat`). -/
theorem arrivalCmp_le_iff (a b : ArrivalInfo) :
    decide (arrivalCmp a b ≤ 0) = true ↔ a.arrivalTime ≤ b.arrivalTime := by
  unfold arrivalCmp
  rcases Nat.eq_zero_or_pos a.arrivalTime with ha | ha <;>
    rcases Nat.eq_zero_or_pos b.arrivalTime with hb | hb <;>
      simp [ha, hb] <;> omega

/-- Membership in a stable insertion. -/
theorem mem_insertSorted (le : ArrivalInfo → ArrivalInfo → Bool) (a x : ArrivalInfo)
    (l : List ArrivalInfo) :
    x ∈ insertSorted le a l ↔ x = a ∨ x ∈ l := by
  induction l with
  | nil => simp [insertSorted]
  | cons b t ih =>
    unfold insertSorted
    by_cases hab : le a b = true
    · rw [if_pos hab]
      simp
    · rw [if_neg hab]
      simp [ih]
      tauto

/-- Stable insertion preserves ascending order of arrival seconds. -/
theorem insertSorted_pairwise (a : ArrivalInfo) (l : List ArrivalInfo)
    (hl : l.Pairwise (fun x y => x.arrivalTime ≤ y.arrivalTime)) :
    (insertSorted (fun x y => decide (arrivalCmp x y ≤ 0)) a l).Pairwise
      (fun x y => x.arrivalTime ≤ y.arrivalTime) := by
  induction l with
  | nil => simp [insertSorted]
  | cons b t ih =>
    rcases List.pairwise_cons.mp hl with ⟨hbt, htp⟩
    unfold insertSorted
    by_cases hab : (fun x y => decide (arrivalCmp x y ≤ 0)) a b = true
    · rw [if_pos hab]
      have hab' : a.arrivalTime ≤ b.arrivalTime := (arrivalCmp_le_iff a b).mp hab
      refine List.pairwise_cons.mpr ⟨?_, hl⟩
      intro x hx
      rcases List.mem_cons.mp hx with hx | hx
      · rw [hx]
        exact hab'
      · exact le_trans hab' (hbt x hx)
    · rw [if_neg hab]
      have hba : b.arrivalTime ≤ a.arrivalTime := by
        have : ¬ a.arrivalTime ≤ b.arrivalTime := fun hle =>
          hab ((arrivalCmp_le_iff a b).mpr hle)
        omega
      refine List.pairwise_cons.mpr ⟨?_, ih htp⟩
      intro x hx
      rcases (mem_insertSorted _ a x t).mp hx with hx | hx
      · rw [hx]
        exact hba
      · exact hbt x hx

/-- The sorted arrival list is ascending in arrival seconds. -/
theorem sortArrivals_sorted (l : List ArrivalInfo) :
    (sortArrivals l).Pairwise (fun a b => a.arrivalTime ≤ b.arrivalTime) := by
  unfold sortArrivals
  induction l with
  | nil => simp
  | cons a t ih => exact insertSorted_pairwise a _ ih

/-- The cap filter yields a sublist of its input. -/
theorem capPerLineAux_sublist (counts : List (String × Nat)) (l : List ArrivalInfo) :
    (capPerLineAux counts l).Sublist l := by
  induction l generalizing counts with
  | nil => simp [capPerLineAux]
  | cons a rest ih =>
    unfold capPerLineAux
    by_cases hc : ((counts.lookup a.lineName).getD 0) ≥ 2
    · rw [if_pos hc]
      exact (ih counts).trans (List.sublist_cons_self a rest)
    · rw [if_neg hc]
      exact (ih _).cons₂ a

/-- Mapping a value replacement at key `k` preserves lookups at other keys. -/
theorem lookup_map_replace_ne (m : List (String × Nat)) (k k2 : String) (v : Nat)
    (hne : k2 ≠ k) :
    (m.map (fun p => if p.1 = k then (p.1, v) else p)).lookup k2 = m.lookup k2 := by
  induction m with
  | nil => simp
  | cons hd tl ih =>
    obtain ⟨pk, pv⟩ := hd
    by_cases hp : pk = k
    · subst hp
      have hbk : (k2 == pk) = false := beq_eq_false_iff_ne.mpr hne
      simp only [List.map_cons, if_true]
      rw [List.lookup_cons, List.lookup_cons, hbk]
      exact ih
    · simp only [List.map_cons, if_neg hp]
      rw [List.lookup_cons, List.lookup_cons]
      cases hbk : (k2 == pk) with
      | true => rfl
      | false => exact ih

/-- `setCount` updates the looked-up key. -/
theorem setCount_lookup_self (m : List (String × Nat)) (k : String) (v : Nat) :
    (setCount m k v).lookup k = some v := by
  unfold setCount
  by_cases hs : (List.lookup k m).isSome = true
  · rw [if_pos hs]
    induction m with
    | nil => simp [List.lookup] at hs
    | cons hd tl ih =>
      obtain ⟨pk, pv⟩ := hd
      by_cases hp : pk = k
      · subst hp
        simp only [List.map_cons, if_pos rfl]
        rw [List.lookup_cons]
        simp
      · have hbk : (k == pk) = false := beq_eq_false_iff_ne.mpr (Ne.symm hp)
        have hs' : (List.lookup k tl).isSome = true := by
          rw [List.lookup_cons, hbk] at hs
          exact hs
        simp only [List.map_cons, if_neg hp]
        rw [List.lookup_cons, hbk]
        exact ih hs'
  · rw [if_neg hs]
    have hnone : List.lookup k m = none := by
      cases hc : List.lookup k m with
      | none => rfl
      | some w => rw [hc] at hs; simp at hs
    rw [List.lookup_append, hnone]
    rw [List.lookup_cons]
    simp

/-- `setCount` leaves other keys unchanged. -/
theorem setCount_lookup_other (m : List (String × Nat)) (k k2 : String) (v : Nat)
    (hne : k2 ≠ k) : (setCount m k v).lookup k2 = m.lookup k2 := by
  unfold setCount
  by_cases hs : (List.lookup k m).isSome = true
  · rw [if_pos hs]
    exact lookup_map_replace_ne m k k2 v hne
  · rw [if_neg hs]
    rw [List.lookup_append]
    have hbk : (k2 == k) = false := beq_eq_false_iff_ne.mpr hne
    rw [List.lookup_cons, hbk]
    simp

/-- The cap filter keeps at most `2 - c` entries of a line already counted
`c` times. -/
theorem capPerLineAux_count (l : List ArrivalInfo) (counts : List (String × Nat))
    (name : String) :
    ((capPerLineAux counts l).filter (fun a => decide (a.lineName = name))).length
      ≤ 2 - ((counts.lookup name).getD 0) := by
  induction l generalizing counts with
  | nil => simp [capPerLineAux]
  | cons a rest ih =>
    unfold capPerLineAux
    by_cases hc : ((counts.lookup a.lineName).getD 0) ≥ 2
    · rw [if_pos hc]
      by_cases hn : a.lineName = name
      · subst hn
        exact le_trans (ih counts) (by omega)
      · exact ih counts
    · rw [if_neg hc]
      by_cases hn : a.lineName = name
      · subst hn
        have hupd := setCount_lookup_self counts a.lineName
          (((counts.lookup a.lineName).getD 0) + 1)
        have ihr := ih (setCount counts a.lineName (((counts.lookup a.lineName).getD 0) + 1))
        rw [hupd] at ihr
        simp only [Option.getD_some] at ihr
        have hfc : (a :: capPerLineAux
              (setCount counts a.lineName (((counts.lookup a.lineName).getD 0) + 1)) rest).filter
              (fun x => decide (x.lineName = a.lineName))
            = a :: (capPerLineAux
              (setCount counts a.lineName (((counts.lookup a.lineName).getD 0) + 1)) rest).filter
              (fun x => decide (x.lineName = a.lineName)) := by
          simp
        rw [hfc, List.length_cons]
        omega
      · have hupd := setCount_lookup_other counts a.lineName name
          (((counts.lookup a.lineName).getD 0) + 1) (Ne.symm hn)
        have ihr := ih (setCount counts a.lineName (((counts.lookup a.lineName).getD 0) + 1))
        rw [hupd] at ihr
        have hfc : (a :: capPerLineAux
              (setCount counts a.lineName (((counts.lookup a.lineName).getD 0) + 1)) rest).filter
              (fun x => decide (x.lineName = name))
            = (capPerLineAux
              (setCount counts a.lineName (((counts.lookup a.lineName).getD 0) + 1)) rest).filter
              (fun x => decide (x.lineName = name)) := by
          simp [hn]
        rw [hfc]
        exact ihr

/-- The sorted-then-capped list is ascending with zeros first and keeps at
most 2 entries per line name. -/
theorem capPerLine_sortArrivals_spec (F : List ArrivalInfo) :
    (capPerLine (sortArrivals F)).Pairwise (fun a b =>
        a.arrivalTime = 0 ∨ (b.arrivalTime ≠ 0 ∧ a.arrivalTime ≤ b.arrivalTime))
    ∧ ∀ name, ((capPerLine (sortArrivals F)).filter
        (fun a => decide (a.lineName = name))).length ≤ 2 := by
  constructor
  · have hsorted := sortArrivals_sorted F
    have hsub := capPerLineAux_sublist [] (sortArrivals F)
    have hp : (capPerLine (sortArrivals F)).Pairwise
        (fun a b => a.arrivalTime ≤ b.arrivalTime) :=
      List.Pairwise.sublist hsub hsorted
    exact hp.imp (fun {a b} hab => by
      rcases Nat.eq_zero_or_pos a.arrivalTime with ha | ha
      · exact Or.inl ha
      · exact Or.inr ⟨by omega, hab⟩)
  · intro name
    have := capPerLineAux_count (sortArrivals F) [] name
    simpa [capPerLine] using this

/-- C8: every per-leg arrivals list returned by `getAllTransitArrivals` is
sorted ascending by `arrivalTime` with zero ("at platform or unknown")
entries first, and contains at most 2 entries per distinct line name. -/
theorem per_leg_sorted_capped (leg : RouteLeg) (fetched : List ArrivalInfo)
    (entry : CityArrivalEntry)
    (h : processLegArrivals leg fetched = some entry) :
    entry.arrivals.Pairwise (fun a b =>
        a.arrivalTime = 0 ∨ (b.arrivalTime ≠ 0 ∧ a.arrivalTime ≤ b.arrivalTime))
    ∧ ∀ name, ((entry.arrivals.filter
        (fun a => decide (a.lineName = name))).length ≤ 2) := by
  have hF : ∃ F, entry.arrivals = capPerLine (sortArrivals F) := by
    unfold processLegArrivals at h
    by_cases h0 : fetched = []
    · rw [if_pos h0] at h
      simp at h
    · rw [if_neg h0] at h
      have h' : (if legLineFilter leg fetched = [] then none
          else some ({ type := leg.type,
                       arrivals := capPerLine (sortArrivals (legLineFilter leg fetched)),
                       startStation := leg.startStation,
                       endStation := leg.endStation } : CityArrivalEntry)) = some entry := h
      by_cases h1 : legLineFilter leg fetched = []
      · rw [if_pos h1] at h'
        simp at h'
      · rw [if_neg h1] at h'
        refine ⟨legLineFilter leg fetched, ?_⟩
        rw [← Option.some.inj h']
  rcases hF with ⟨F, hFeq⟩
  rw [hFeq]
  exact capPerLine_sortArrivals_spec F

/-- Witness for C8: four raw arrivals (one on another line, one at the
platform) yield a sorted, capped two-entry result. -/
theorem per_leg_sorted_capped_witness :
    processLegArrivals wLegC8
        [wArr "2호선" 200, wArr "9호선" 50, wArr "2호선" 0, wArr "2호선" 100]
      = some { type := "subway", arrivals := [wArr "2호선" 0, wArr "2호선" 100],
               startStation := some "강남", endStation := some "잠실새내" }
    ∧ (({ type := "subway", arrivals := [wArr "2호선" 0, wArr "2호선" 100],
          startStation := some "강남",
          endStation := some "잠실새내" } : CityArrivalEntry).arrivals.Pairwise
        (fun a b => a.arrivalTime = 0 ∨ (b.arrivalTime ≠ 0 ∧ a.arrivalTime ≤ b.arrivalTime))
       ∧ ∀ name, ((({ type := "subway", arrivals := [wArr "2호선" 0, wArr "2호선" 100],
                      startStation := some "강남",
                      endStation := some "잠실새내" } : CityArrivalEntry).arrivals.filter
           (fun a => decide (a.lineName = name))).length ≤ 2)) :=
  ⟨rfl, per_leg_sorted_capped wLegC8
    [wArr "2호선" 200, wArr "9호선" 50, wArr "2호선" 0, wArr "2호선" 100] _ rfl⟩

/-! ## Claim C9: upcoming intercity departures -/

/-- Digit folding with an initial accumulator. -/
theorem natOfDigits_from (n : Nat) (cs : List Char) :
    cs.foldl (fun m c => m * 10 + (c.toNat - 48)) n
      = n * 10 ^ cs.length + natOfDigits cs := by
  induction cs generalizing n with
  | nil => simp [natOfDigits]
  | cons c cs ih =>
    simp only [List.foldl_cons, List.length_cons, natOfDigits]
    rw [ih (n * 10 + (c.toNat - 48)), ih (0 * 10 + (c.toNat - 48))]
    ring

/-- The head digit dominates. -/
theorem natOfDigits_cons (c : Char) (cs : List Char) :
    natOfDigits (c :: cs) = (c.toNat - 48) * 10 ^ cs.length + natOfDigits cs := by
  unfold natOfDigits
  simp only [List.foldl_cons]
  rw [natOfDigits_from]
  simp [natOfDigits]

/-- Digit strings are bounded by the corresponding power of ten. -/
theorem natOfDigits_lt_pow (cs : List Char) (h : ∀ c ∈ cs, isDigitChar c = true) :
    natOfDigits cs < 10 ^ cs.length := by
  induction cs with
  | nil => simp [natOfDigits]
  | cons c cs ih =>
    have hc := h c (List.mem_cons_self c cs)
    have hd : c.toNat - 48 ≤ 9 := by
      unfold isDigitChar at hc
      simp at hc
      omega
    have ih' := ih (fun x hx => h x (List.mem_cons_of_mem c hx))
    rw [natOfDigits_cons]
    have : (c.toNat - 48) * 10 ^ cs.length + natOfDigits cs
        < (c.toNat - 48 + 1) * 10 ^ cs.length := by
      rw [Nat.succ_mul]
      omega
    calc (c.toNat - 48) * 10 ^ cs.length + natOfDigits cs
        < (c.toNat - 48 + 1) * 10 ^ cs.length := this
      _ ≤ 10 * 10 ^ cs.length := Nat.mul_le_mul_right _ (by omega)
      _ = 10 ^ (cs.length + 1) := by ring
      _ = 10 ^ (c :: cs).length := by simp

/-- Position-wise comparison of two place-value numbers with equal-width
tails. -/
theorem mul_add_lt_iff (a b x y P : Nat) (hx : x < P) (hy : y < P) :
    a * P + x < b * P + y ↔ (a < b ∨ (a = b ∧ x < y)) := by
  constructor
  · intro h
    rcases Nat.lt_trichotomy a b with hab | hab | hab
    · exact Or.inl hab
    · subst hab
      exact Or.inr ⟨rfl, by omega⟩
    · exfalso
      have : b * P + y < a * P := by
        calc b * P + y < b * P + P := by omega
          _ = (b + 1) * P := by ring
          _ ≤ a * P := Nat.mul_le_mul_right _ (by omega)
      omega
  · intro h
    rcases h with hab | ⟨hab, hxy⟩
    · calc a * P + x < a * P + P := by omega
        _ = (a + 1) * P := by ring
        _ ≤ b * P := Nat.mul_le_mul_right _ (by omega)
        _ ≤ b * P + y := by omega
    · subst hab
      omega

/-- On equal-length digit strings, code-point lexicographic order is numeric
order. -/
theorem charListLt_iff_natOfDigits (cs ds : List Char) (hlen : cs.length = ds.length)
    (hcs : ∀ c ∈ cs, isDigitChar c = true) (hds : ∀ c ∈ ds, isDigitChar c = true) :
    charListLt cs ds = true ↔ natOfDigits cs < natOfDigits ds := by
  induction cs generalizing ds with
  | nil =>
    cases ds with
    | nil => simp [charListLt, natOfDigits]
    | cons d ds => simp at hlen
  | cons c cs ih =>
    cases ds with
    | nil => simp at hlen
    | cons d ds =>
      have hlen' : cs.length = ds.length := by simpa using hlen
      have hc := hcs c (List.mem_cons_self c cs)
      have hd := hds d (List.mem_cons_self d ds)
      have hcb : 48 ≤ c.toNat ∧ c.toNat ≤ 57 := by
        unfold isDigitChar at hc; simpa using hc
      have hdb : 48 ≤ d.toNat ∧ d.toNat ≤ 57 := by
        unfold isDigitChar at hd; simpa using hd
      have ih' := ih ds hlen' (fun x hx => hcs x (List.mem_cons_of_mem c hx))
        (fun x hx => hds x (List.mem_cons_of_mem d hx))
      have hbound_cs := natOfDigits_lt_pow cs (fun x hx => hcs x (List.mem_cons_of_mem c hx))
      have hbound_ds := natOfDigits_lt_pow ds (fun x hx => hds x (List.mem_cons_of_mem d hx))
      rw [natOfDigits_cons, natOfDigits_cons, hlen']
      rw [mul_add_lt_iff _ _ _ _ _ (hlen' ▸ hbound_cs) hbound_ds]
      unfold charListLt
      by_cases h1 : c.toNat < d.toNat
      · rw [if_pos h1]
        constructor
        · intro _
          exact Or.inl (by omega)
        · intro _
          rfl
      · rw [if_neg h1]
        by_cases h2 : d.toNat < c.toNat
        · rw [if_pos h2]
          constructor
          · intro hfalse
            exact absurd hfalse (by simp)
          · intro hcon
            exfalso
            rcases hcon with hlt | ⟨heq, _⟩ <;> omega
        · rw [if_neg h2]
          rw [ih']
          have heq : c.toNat - 48 = d.toNat - 48 := by omega
          constructor
          · intro hlt
            exact Or.inr ⟨heq, hlt⟩
          · intro hcon
            rcases hcon with hlt | ⟨_, hlt⟩ <;> omega

/-- Splitting a digit string at a position. -/
theorem natOfDigits_append (xs ys : List Char) :
    natOfDigits (xs ++ ys) = natOfDigits xs * 10 ^ ys.length + natOfDigits ys := by
  unfold natOfDigits
  rw [List.foldl_append, natOfDigits_from]
  rfl

/-- `Char.ofNat` on a small scalar value keeps the value. -/
theorem char_toNat_ofNat (n : Nat) (h : n < 55296) : (Char.ofNat n).toNat = n := by
  have hv : n.isValidChar := Or.inl h
  rw [Char.ofNat, dif_pos hv]
  simp [Char.ofNatAux, Char.toNat, UInt32.toNat, BitVec.toNat_ofNatLt]

/-- The padded clock string is well formed and denotes the clock value. -/
theorem pad2_pair_spec (h m : Nat) (hh : h < 24) (hm : m < 60) :
    validHHmm (pad2 h ++ pad2 m) = true
    ∧ hhmmVal (pad2 h ++ pad2 m) = h * 60 + m := by
  have hdata : (pad2 h ++ pad2 m).data
      = [Char.ofNat (48 + h / 10), Char.ofNat (48 + h % 10),
         Char.ofNat (48 + m / 10), Char.ofNat (48 + m % 10)] := by
    show (pad2 h).data ++ (pad2 m).data = _
    rfl
  have t1 : (Char.ofNat (48 + h / 10)).toNat = 48 + h / 10 :=
    char_toNat_ofNat _ (by omega)
  have t2 : (Char.ofNat (48 + h % 10)).toNat = 48 + h % 10 :=
    char_toNat_ofNat _ (by have := Nat.mod_lt h (show 0 < 10 by omega); omega)
  have t3 : (Char.ofNat (48 + m / 10)).toNat = 48 + m / 10 :=
    char_toNat_ofNat _ (by omega)
  have t4 : (Char.ofNat (48 + m % 10)).toNat = 48 + m % 10 :=
    char_toNat_ofNat _ (by have := Nat.mod_lt m (show 0 < 10 by omega); omega)
  have hh10 : h / 10 ≤ 9 := by omega
  have hm10 : m / 10 ≤ 9 := by omega
  have hh10b : h % 10 ≤ 9 := by omega
  have hm10b : m % 10 ≤ 9 := by omega
  constructor
  · unfold validHHmm
    rw [hdata]
    simp only [Bool.and_eq_true, decide_eq_true_eq, List.all_eq_true]
    refine ⟨⟨by simp, ?_⟩, ?_⟩
    · intro c hc
      unfold isDigitChar
      simp only [List.mem_cons, List.not_mem_nil, or_false] at hc
      rcases hc with hc | hc | hc | hc <;> (subst hc; simp only [decide_eq_true_eq]) <;> omega
    · show natOfDigits [Char.ofNat (48 + m / 10), Char.ofNat (48 + m % 10)] < 60
      rw [natOfDigits_cons, natOfDigits_cons]
      unfold natOfDigits
      simp only [List.foldl_nil, List.length_cons, List.length_nil]
      rw [t3, t4]
      have : m / 10 * 10 + m % 10 = m := by omega
      simp only [pow_one, pow_zero]
      omega
  · unfold hhmmVal
    rw [hdata]
    show natOfDigits [Char.ofNat (48 + h / 10), Char.ofNat (48 + h % 10)] * 60
        + natOfDigits [Char.ofNat (48 + m / 10), Char.ofNat (48 + m % 10)] = h * 60 + m
    rw [natOfDigits_cons, natOfDigits_cons, natOfDigits_cons, natOfDigits_cons]
    unfold natOfDigits
    simp only [List.foldl_nil, List.length_cons, List.length_nil, pow_one, pow_zero]
    rw [t1, t2, t3, t4]
    have e1 : h / 10 * 10 + h % 10 = h := by omega
    have e2 : m / 10 * 10 + m % 10 = m := by omega
    omega

/-- On well-formed `"HHmm"` strings, the JS string comparison agrees with the
clock-minute comparison. -/
theorem jsStrLt_iff_hhmm (a b : String) (ha : validHHmm a = true)
    (hb : validHHmm b = true) :
    (jsStrLt a b = true) ↔ hhmmVal a < hhmmVal b := by
  unfold validHHmm at ha hb
  simp only [Bool.and_eq_true, decide_eq_true_eq, List.all_eq_true] at ha hb
  obtain ⟨⟨ha4, hadig⟩, haM⟩ := ha
  obtain ⟨⟨hb4, hbdig⟩, hbM⟩ := hb
  have haDT : (a.data.drop 2).take 2 = a.data.drop 2 :=
    List.take_of_length_le (by simp [ha4])
  have hbDT : (b.data.drop 2).take 2 = b.data.drop 2 :=
    List.take_of_length_le (by simp [hb4])
  have haval : natOfDigits a.data
      = natOfDigits (a.data.take 2) * 10 ^ 2 + natOfDigits (a.data.drop 2) := by
    conv_lhs => rw [← List.take_append_drop 2 a.data]
    rw [natOfDigits_append]
    have : (a.data.drop 2).length = 2 := by simp [ha4]
    rw [this]
  have hbval : natOfDigits b.data
      = natOfDigits (b.data.take 2) * 10 ^ 2 + natOfDigits (b.data.drop 2) := by
    conv_lhs => rw [← List.take_append_drop 2 b.data]
    rw [natOfDigits_append]
    have : (b.data.drop 2).length = 2 := by simp [hb4]
    rw [this]
  have hMa : natOfDigits (a.data.drop 2) < 60 := by rw [← haDT]; exact haM
  have hMb : natOfDigits (b.data.drop 2) < 60 := by rw [← hbDT]; exact hbM
  unfold jsStrLt hhmmVal
  rw [charListLt_iff_natOfDigits a.data b.data (by rw [ha4, hb4])
    (fun c hc => hadig c hc) (fun c hc => hbdig c hc)]
  rw [haval, hbval, haDT, hbDT]
  rw [mul_add_lt_iff _ _ _ _ (10 ^ 2) (by norm_num; omega) (by norm_num; omega)]
  rw [mul_add_lt_iff _ _ _ _ 60 hMa hMb]

/-- The push-then-break loop of `getUpcomingDepartures` collects the first
`max 1 (count - acc)` future departures. -/
theorem upcomingLoop_eq (cur : String) (curMin count acc : Nat)
    (l : List ParsedSchedule) :
    upcomingLoop cur curMin count acc l
      = (((l.filter (fun s => jsStrLt cur s.depTimeRaw)).map
          (mkDeparture curMin)).take (max 1 (count - acc))) := by
  induction l generalizing acc with
  | nil => simp [upcomingLoop]
  | cons s rest ih =>
    unfold upcomingLoop
    by_cases hf : jsStrLt cur s.depTimeRaw = true
    · have hfc : (s :: rest).filter (fun s2 => jsStrLt cur s2.depTimeRaw)
          = s :: rest.filter (fun s2 => jsStrLt cur s2.depTimeRaw) := by
        simp [hf]
      rw [if_pos hf, hfc, List.map_cons]
      by_cases hbreak : acc + 1 ≥ count
      · rw [if_pos hbreak]
        have hmax : max 1 (count - acc) = 1 := by omega
        rw [hmax]
        simp
      · rw [if_neg hbreak]
        rw [ih (acc + 1)]
        have hmax : max 1 (count - (acc + 1)) = count - acc - 1 := by omega
        have hsucc : max 1 (count - acc) = (count - acc - 1) + 1 := by omega
        rw [hmax, hsucc, List.take_succ_cons]
    · have hfc : (s :: rest).filter (fun s2 => jsStrLt cur s2.depTimeRaw)
          = rest.filter (fun s2 => jsStrLt cur s2.depTimeRaw) := by
        simp [hf]
      rw [if_neg hf, hfc]
      exact ih acc

/-- C9 (amended): `getUpcomingDepartures` returns the empty list when either
terminal name fails to resolve; otherwise it returns the first
`max 1 count` departures, in the day's schedule order, whose departure time
is strictly after the current KST time (a departure at exactly the current
minute is excluded), each with `waitMinutes` equal to its departure time
minus the current time in minutes.  For `count ≥ 1` this is the first
`count`; for `count = 0` the push-then-check loop still returns the first
future departure. -/
theorem getUpcomingDepartures_spec (terminals : List TerminalData)
    (schedulesFor : String → String → List ParsedSchedule)
    (nowHour nowMin : Nat) (startStation endStation : String) (count : Nat)
    (hh : nowHour < 24) (hm : nowMin < 60)
    (hwf : ∀ dep arr : String, ∀ s ∈ schedulesFor dep arr,
      validHHmm s.depTimeRaw = true) :
    getUpcomingDepartures terminals schedulesFor nowHour nowMin
        startStation endStation count
      = match findTerminalByName terminals startStation,
              findTerminalByName terminals endStation with
        | some depTerminalId, some arrTerminalId =>
          (((schedulesFor depTerminalId arrTerminalId).filter
              (fun s => decide (nowHour * 60 + nowMin < depMinutesOf s))).map
            (mkDeparture (nowHour * 60 + nowMin))).take (max 1 count)
        | _, _ => [] := by
  unfold getUpcomingDepartures
  cases hfs : findTerminalByName terminals startStation with
  | none => rfl
  | some depTerminalId =>
    cases hfe : findTerminalByName terminals endStation with
    | none => rfl
    | some arrTerminalId =>
      show (if schedulesFor depTerminalId arrTerminalId = [] then []
            else upcomingLoop (pad2 nowHour ++ pad2 nowMin) (nowHour * 60 + nowMin)
              count 0 (schedulesFor depTerminalId arrTerminalId))
          = (((schedulesFor depTerminalId arrTerminalId).filter
              (fun s => decide (nowHour * 60 + nowMin < depMinutesOf s))).map
            (mkDeparture (nowHour * 60 + nowMin))).take (max 1 count)
      by_cases hsch : schedulesFor depTerminalId arrTerminalId = []
      · rw [if_pos hsch, hsch]
        simp
      · rw [if_neg hsch]
        rw [upcomingLoop_eq]
        have hfil : (schedulesFor depTerminalId arrTerminalId).filter
              (fun s => jsStrLt (pad2 nowHour ++ pad2 nowMin) s.depTimeRaw)
            = (schedulesFor depTerminalId arrTerminalId).filter
              (fun s => decide (nowHour * 60 + nowMin < depMinutesOf s)) := by
          apply List.filter_congr
          intro s hs
          have hv := hwf depTerminalId arrTerminalId s hs
          have hps := pad2_pair_spec nowHour nowMin hh hm
          have hiff := jsStrLt_iff_hhmm _ _ hps.1 hv
          rw [hps.2] at hiff
          have hdm : hhmmVal s.depTimeRaw = depMinutesOf s := rfl
          rw [hdm] at hiff
          rw [Bool.eq_iff_iff]
          simp only [decide_eq_true_eq]
          exact hiff
        rw [hfil]
        norm_num

/-- Counterexample to C9 as frozen: with `count = 0` and a future departure
on the timetable, the loop still pushes one departure before checking the
bound, so the result is not "the first 0 departures". -/
theorem getUpcomingDepartures_counterexample :
    (getUpcomingDepartures cexTerminals cexSchedulesFor 12 0
        "동서울종합터미널" "인천종합터미널" 0).length = 1 := by
  decide

/-- Witness for the amended C9 at noon with `count = 2`. -/
theorem getUpcomingDepartures_spec_witness :
    getUpcomingDepartures cexTerminals cexSchedulesFor 12 0
        "동서울종합터미널" "인천종합터미널" 2
      = match findTerminalByName cexTerminals "동서울종합터미널",
              findTerminalByName cexTerminals "인천종합터미널" with
        | some depTerminalId, some arrTerminalId =>
          (((cexSchedulesFor depTerminalId arrTerminalId).filter
              (fun s => decide (12 * 60 + 0 < depMinutesOf s))).map
            (mkDeparture (12 * 60 + 0))).take (max 1 2)
        | _, _ => [] :=
  getUpcomingDepartures_spec cexTerminals cexSchedulesFor 12 0
    "동서울종합터미널" "인천종합터미널" 2 (by decide) (by decide)
    (fun dep arr s hs => by
      simp only [cexSchedulesFor, List.mem_cons, List.not_mem_nil, or_false] at hs
      rcases hs with h | h | h <;> (subst h; decide))

/-! ## Association-lookup lemmas for the graph development -/

theorem alookup_eq_none {β : Type} (k : String) :
    ∀ (m : List (String × β)), k ∉ m.map Prod.fst → m.lookup k = none
  | [], _ => rfl
  | (a, b) :: m, h => by
    simp only [List.map_cons, List.mem_cons, not_or] at h
    rw [List.lookup_cons, beq_eq_false_iff_ne.mpr h.1]
    exact alookup_eq_none k m h.2

theorem alookup_isSome_keys {β : Type} (k : String) :
    ∀ (m : List (String × β)), (m.lookup k).isSome = true ↔ k ∈ m.map Prod.fst
  | [] => by simp [List.lookup]
  | (a, b) :: m => by
    rw [List.lookup_cons]
    by_cases h : k = a
    · subst h
      rw [beq_self_eq_true]
      simp
    · rw [beq_eq_false_iff_ne.mpr h]
      simp only [List.map_cons, List.mem_cons]
      rw [alookup_isSome_keys k m]
      exact ⟨Or.inr, fun hm => hm.elim (fun he => absurd he h) id⟩

theorem alookup_some_mem {β : Type} (k : String) (v : β) :
    ∀ (m : List (String × β)), m.lookup k = some v → (k, v) ∈ m
  | [], h => by cases h
  | (a, b) :: m, h => by
    rw [List.lookup_cons] at h
    by_cases hk : k = a
    · rw [beq_iff_eq.mpr hk] at h
      have hb : b = v := Option.some.inj h
      subst hk; subst hb
      exact List.mem_cons_self _ _
    · rw [beq_eq_false_iff_ne.mpr hk] at h
      exact List.mem_cons_of_mem _ (alookup_some_mem k v m h)

theorem alookup_get_nodup {β : Type} :
    ∀ (m : List (String × β)), (m.map Prod.fst).Nodup →
      ∀ (i : Nat) (h : i < m.length),
        m.lookup (m.get ⟨i, h⟩).1 = some (m.get ⟨i, h⟩).2
  | (a, b) :: m, _, 0, _ => by
    show ((a, b) :: m).lookup a = some b
    rw [List.lookup_cons, beq_self_eq_true]
  | (a, b) :: m, hn, i + 1, h => by
    simp only [List.map_cons, List.nodup_cons] at hn
    have hi : i < m.length := Nat.lt_of_succ_lt_succ h
    have hkm : (m.get ⟨i, hi⟩).1 ∈ m.map Prod.fst :=
      List.mem_map_of_mem Prod.fst (List.get_mem m i hi)
    have hne : (m.get ⟨i, hi⟩).1 ≠ a := fun he => hn.1 (he ▸ hkm)
    show ((a, b) :: m).lookup (m.get ⟨i, hi⟩).1 = some (m.get ⟨i, hi⟩).2
    rw [List.lookup_cons, beq_eq_false_iff_ne.mpr hne]
    exact alookup_get_nodup m hn.2 i hi

theorem alookup_append {β : Type} (k : String) :
    ∀ (m₁ m₂ : List (String × β)),
      (m₁ ++ m₂).lookup k =
        match m₁.lookup k with
        | some v => some v
        | none => m₂.lookup k
  | [], _ => rfl
  | (a, b) :: m₁, m₂ => by
    show ((a, b) :: (m₁ ++ m₂)).lookup k = _
    rw [List.lookup_cons]
    by_cases hk : k = a
    · rw [beq_iff_eq.mpr hk]
      show some b = _
      rw [List.lookup_cons, beq_iff_eq.mpr hk]
    · rw [beq_eq_false_iff_ne.mpr hk]
      show (m₁ ++ m₂).lookup k = _
      rw [alookup_append k m₁ m₂, List.lookup_cons, beq_eq_false_iff_ne.mpr hk]

theorem alookup_map_update {β : Type} (k0 : String) (f : β → β) (k : String) :
    ∀ (m : List (String × β)),
      (m.map (fun p => if p.1 = k0 then (p.1, f p.2) else p)).lookup k =
        if k = k0 then (m.lookup k).map f else m.lookup k
  | [] => by by_cases h : k = k0 <;> simp [h, List.lookup]
  | (a, b) :: m => by
    simp only [List.map_cons]
    by_cases ha : a = k0
    · rw [if_pos ha]
      by_cases hk : k = a
      · subst hk
        rw [List.lookup_cons, List.lookup_cons, beq_self_eq_true, if_pos ha]
        rfl
      · show ((a, f b) :: _).lookup k = _
        rw [List.lookup_cons, beq_eq_false_iff_ne.mpr hk,
          alookup_map_update k0 f k m, List.lookup_cons,
          beq_eq_false_iff_ne.mpr hk]
    · rw [if_neg ha]
      by_cases hk : k = a
      · subst hk
        rw [List.lookup_cons, List.lookup_cons, beq_self_eq_true, if_neg ha]
      · show ((a, b) :: _).lookup k = _
        rw [List.lookup_cons, beq_eq_false_iff_ne.mpr hk,
          alookup_map_update k0 f k m, List.lookup_cons,
          beq_eq_false_iff_ne.mpr hk]

theorem keys_map_update {β : Type} (k0 : String) (f : β → β)
    (m : List (String × β)) :
    (m.map (fun p => if p.1 = k0 then (p.1, f p.2) else p)).map Prod.fst =
      m.map Prod.fst := by
  induction m with
  | nil => rfl
  | cons p m ih =>
    simp only [List.map_cons, ih]
    by_cases h : p.1 = k0
    · rw [if_pos h]
    · rw [if_neg h]

/-! ## `ensureNode`, `addNeighbor`, `addEdgeN` characterizations -/

theorem hasAdjKey_iff_keys (g : SubwayGraph) (k : String) :
    hasAdjKey g k = true ↔ k ∈ g.adjacency.map Prod.fst :=
  alookup_isSome_keys k g.adjacency

theorem adjLookup_ensureNode (g : SubwayGraph) (n a : String) :
    adjLookup (ensureNode g n) a = adjLookup g a := by
  unfold ensureNode adjLookup
  by_cases h : (g.adjacency.lookup n).isSome = true
  · rw [if_pos h]
  · rw [if_neg h]
    show ((g.adjacency ++ [(n, [])]).lookup a).getD [] = _
    rw [alookup_append]
    cases hl : g.adjacency.lookup a with
    | some v => rfl
    | none =>
      by_cases han : a = n
      · subst han
        show (List.lookup a [(a, [])]).getD [] = _
        rw [List.lookup_cons, beq_self_eq_true]
        rfl
      · show (List.lookup a [(n, [])]).getD [] = _
        rw [List.lookup_cons, beq_eq_false_iff_ne.mpr han]
        rfl

theorem ensureNode_keys (g : SubwayGraph) (n : String) :
    (ensureNode g n).adjacency.map Prod.fst =
      if (g.adjacency.lookup n).isSome = true then g.adjacency.map Prod.fst
      else g.adjacency.map Prod.fst ++ [n] := by
  unfold ensureNode
  by_cases h : (g.adjacency.lookup n).isSome = true
  · rw [if_pos h, if_pos h]
  · rw [if_neg h, if_neg h, List.map_append]
    rfl

theorem ensureNode_keys_mem (g : SubwayGraph) (n k : String) :
    k ∈ (ensureNode g n).adjacency.map Prod.fst ↔
      k ∈ g.adjacency.map Prod.fst ∨ k = n := by
  rw [ensureNode_keys]
  by_cases h : (g.adjacency.lookup n).isSome = true
  · rw [if_pos h]
    refine ⟨Or.inl, fun hk => hk.elim id (fun he => ?_)⟩
    subst he
    exact (alookup_isSome_keys _ _).mp h
  · rw [if_neg h]
    simp [List.mem_append]

theorem ensureNode_stations (g : SubwayGraph) (n v : String) :
    v ∈ (ensureNode g n).stations ↔ v ∈ g.stations ∨ v = n := by
  unfold ensureNode
  by_cases h : n ∈ g.stations
  · rw [if_pos h]
    show v ∈ g.stations ↔ _
    refine ⟨Or.inl, fun hv => hv.elim id (fun he => he ▸ h)⟩
  · rw [if_neg h]
    show v ∈ g.stations ++ [n] ↔ _
    simp [List.mem_append]

theorem ensureNode_ginv (g : SubwayGraph) (n : String) (hg : GInv g) :
    GInv (ensureNode g n) := by
  have hkey : (g.adjacency.lookup n).isSome = true ↔ n ∈ g.stations := by
    rw [alookup_isSome_keys, ← hg.stationsEq]
  by_cases h : (g.adjacency.lookup n).isSome = true
  · have hst : n ∈ g.stations := hkey.mp h
    have he : ensureNode g n = g := by
      unfold ensureNode
      rw [if_pos h, if_pos hst]
    rw [he]
    exact hg
  · have hst : n ∉ g.stations := fun hc => h (hkey.mpr hc)
    have he : ensureNode g n =
        { adjacency := g.adjacency ++ [(n, [])], stations := g.stations ++ [n] } := by
      unfold ensureNode
      rw [if_neg h, if_neg hst]
    rw [he]
    refine ⟨?_, ?_, ?_⟩
    · show g.stations ++ [n] = (g.adjacency ++ [(n, [])]).map Prod.fst
      rw [List.map_append, hg.stationsEq]
      rfl
    · show ((g.adjacency ++ [(n, [])]).map Prod.fst).Nodup
      rw [List.map_append]
      have hnk : n ∉ g.adjacency.map Prod.fst := by
        intro hc
        exact h ((alookup_isSome_keys _ _).mpr hc)
      simp [List.nodup_append, hg.keysNodup, hnk]
    · intro p hp m hm
      show m ∈ g.stations ++ [n]
      rcases List.mem_append.mp hp with hp | hp
      · exact List.mem_append.mpr (Or.inl (hg.valuesSub p hp m hm))
      · have hpn : p = (n, ([] : List String)) := by
          cases List.mem_singleton.mp hp
          rfl
        subst hpn
        cases hm

theorem addNeighbor_stations (g : SubwayGraph) (a b : String) :
    (addNeighbor g a b).stations = g.stations := rfl

theorem addNeighbor_keys (g : SubwayGraph) (a b : String) :
    (addNeighbor g a b).adjacency.map Prod.fst = g.adjacency.map Prod.fst :=
  keys_map_update a (fun ns => if b ∈ ns then ns else ns ++ [b]) g.adjacency

theorem adjLookup_addNeighbor (g : SubwayGraph) (a b k c : String) :
    c ∈ adjLookup (addNeighbor g a b) k ↔
      c ∈ adjLookup g k ∨ (k = a ∧ hasAdjKey g a = true ∧ c = b) := by
  unfold adjLookup addNeighbor hasAdjKey
  show c ∈ ((g.adjacency.map _).lookup k).getD [] ↔ _
  rw [alookup_map_update a (fun ns => if b ∈ ns then ns else ns ++ [b]) k]
  by_cases hk : k = a
  · rw [if_pos hk]
    subst hk
    cases hl : g.adjacency.lookup k with
    | none => simp
    | some ns =>
      simp only [Option.map_some', Option.getD_some, Option.isSome_some,
        true_and]
      by_cases hb : b ∈ ns
      · rw [if_pos hb]
        refine ⟨Or.inl, fun h => h.elim id (fun hc => ?_)⟩
        exact hc ▸ hb
      · rw [if_neg hb]
        simp [List.mem_append]
  · rw [if_neg hk]
    simp [hk]

theorem addNeighbor_ginv (g : SubwayGraph) (a b : String)
    (hb : b ∈ g.stations) (hg : GInv g) : GInv (addNeighbor g a b) := by
  refine ⟨?_, ?_, ?_⟩
  · rw [addNeighbor_stations, addNeighbor_keys]
    exact hg.stationsEq
  · rw [addNeighbor_keys]
    exact hg.keysNodup
  · intro p hp m hm
    rw [addNeighbor_stations]
    unfold addNeighbor at hp
    simp only [List.mem_map] at hp
    obtain ⟨q, hq, hpq⟩ := hp
    by_cases hqa : q.1 = a
    · rw [if_pos hqa] at hpq
      subst hpq
      simp only at hm
      by_cases hbq : b ∈ q.2
      · rw [if_pos hbq] at hm
        exact hg.valuesSub q hq m hm
      · rw [if_neg hbq] at hm
        rcases List.mem_append.mp hm with hm | hm
        · exact hg.valuesSub q hq m hm
        · rw [List.mem_singleton.mp hm]
          exact hb
    · rw [if_neg hqa] at hpq
      subst hpq
      exact hg.valuesSub q hq m hm

theorem adjIn_addEdgeN (g : SubwayGraph) (x y k c : String) :
    c ∈ adjLookup (addEdgeN g x y) k ↔
      c ∈ adjLookup g k ∨ (k = x ∧ c = y) ∨ (k = y ∧ c = x) := by
  unfold addEdgeN
  have hx2 : hasAdjKey (ensureNode (ensureNode g x) y) x = true := by
    rw [hasAdjKey_iff_keys, ensureNode_keys_mem, ensureNode_keys_mem]
    exact Or.inl (Or.inr rfl)
  have hy3 : hasAdjKey (addNeighbor (ensureNode (ensureNode g x) y) x y) y = true := by
    rw [hasAdjKey_iff_keys, addNeighbor_keys, ensureNode_keys_mem]
    exact Or.inr rfl
  rw [adjLookup_addNeighbor, adjLookup_addNeighbor, hy3, hx2,
    adjLookup_ensureNode, adjLookup_ensureNode]
  tauto

theorem addEdgeN_stations (g : SubwayGraph) (x y v : String) :
    v ∈ (addEdgeN g x y).stations ↔ v ∈ g.stations ∨ v = x ∨ v = y := by
  unfold addEdgeN
  rw [addNeighbor_stations, addNeighbor_stations, ensureNode_stations,
    ensureNode_stations]
  tauto

theorem addEdgeN_ginv (g : SubwayGraph) (x y : String) (hg : GInv g) :
    GInv (addEdgeN g x y) := by
  unfold addEdgeN
  have h1 : GInv (ensureNode g x) := ensureNode_ginv g x hg
  have h2 : GInv (ensureNode (ensureNode g x) y) := ensureNode_ginv _ y h1
  have hyst : y ∈ (ensureNode (ensureNode g x) y).stations :=
    (ensureNode_stations _ _ _).mpr (Or.inr rfl)
  have h3 : GInv (addNeighbor (ensureNode (ensureNode g x) y) x y) :=
    addNeighbor_ginv _ x y hyst h2
  have hxst : x ∈ (addNeighbor (ensureNode (ensureNode g x) y) x y).stations := by
    rw [addNeighbor_stations]
    exact (ensureNode_stations _ _ _).mpr
      (Or.inl ((ensureNode_stations _ _ _).mpr (Or.inr rfl)))
  exact addNeighbor_ginv _ y x hxst h3

/-! ## Graph-build characterization -/

theorem foldl_addEdgeN_spec :
    ∀ (es : List (String × String)) (g : SubwayGraph), GInv g →
      GInv (es.foldl (fun h e => addEdgeN h e.1 e.2) g) ∧
      (∀ k c, c ∈ adjLookup (es.foldl (fun h e => addEdgeN h e.1 e.2) g) k ↔
        c ∈ adjLookup g k ∨ EdgeMem es k c) ∧
      (∀ v, v ∈ (es.foldl (fun h e => addEdgeN h e.1 e.2) g).stations ↔
        v ∈ g.stations ∨ ∃ e ∈ es, v = e.1 ∨ v = e.2)
  | [], _, hg => by
    refine ⟨hg, fun k c => ?_, fun v => ?_⟩
    · simp [EdgeMem]
    · simp
  | (x, y) :: es, g, hg => by
    have hg' := addEdgeN_ginv g x y hg
    obtain ⟨h1, h2, h3⟩ := foldl_addEdgeN_spec es (addEdgeN g x y) hg'
    refine ⟨h1, fun k c => ?_, fun v => ?_⟩
    · show c ∈ adjLookup (es.foldl _ (addEdgeN g x y)) k ↔ _
      rw [h2 k c, adjIn_addEdgeN]
      unfold EdgeMem
      simp only [List.mem_cons, Prod.mk.injEq]
      tauto
    · show v ∈ (es.foldl _ (addEdgeN g x y)).stations ↔ _
      rw [h3 v, addEdgeN_stations]
      constructor
      · rintro ((hv | hv | hv) | ⟨e, he, hv⟩)
        · exact Or.inl hv
        · exact Or.inr ⟨(x, y), List.mem_cons_self _ _, Or.inl hv⟩
        · exact Or.inr ⟨(x, y), List.mem_cons_self _ _, Or.inr hv⟩
        · exact Or.inr ⟨e, List.mem_cons_of_mem _ he, hv⟩
      · rintro (hv | ⟨e, he, hv⟩)
        · exact Or.inl (Or.inl hv)
        · rcases List.mem_cons.mp he with he | he
          · subst he
            rcases hv with hv | hv
            · exact Or.inl (Or.inr (Or.inl hv))
            · exact Or.inl (Or.inr (Or.inr hv))
          · exact Or.inr ⟨e, he, hv⟩

theorem ginv_initial : GInv initialGraph :=
  ⟨rfl, List.nodup_nil, by intro p hp; cases hp⟩

theorem buildLineGraph_eq (line : SubwayLineData) :
    buildLineGraph line =
      (normEdges line).foldl (fun h e => addEdgeN h e.1 e.2) initialGraph := by
  unfold buildLineGraph normEdges
  rw [List.foldl_map]
  rfl

theorem buildLineGraph_ginv (line : SubwayLineData) :
    GInv (buildLineGraph line) := by
  rw [buildLineGraph_eq]
  exact (foldl_addEdgeN_spec (normEdges line) initialGraph ginv_initial).1

theorem adjIn_buildLineGraph (line : SubwayLineData) (k c : String) :
    c ∈ adjLookup (buildLineGraph line) k ↔ EdgeMem (normEdges line) k c := by
  rw [buildLineGraph_eq,
    (foldl_addEdgeN_spec (normEdges line) initialGraph ginv_initial).2.1 k c]
  have hempty : adjLookup initialGraph k = [] := rfl
  rw [hempty]
  simp

theorem stations_buildLineGraph (line : SubwayLineData) (v : String) :
    v ∈ (buildLineGraph line).stations ↔
      ∃ e ∈ normEdges line, v = e.1 ∨ v = e.2 := by
  rw [buildLineGraph_eq,
    (foldl_addEdgeN_spec (normEdges line) initialGraph ginv_initial).2.2 v]
  have hempty : initialGraph.stations = [] := rfl
  rw [hempty]
  simp

/-! ## Chain-walk helper lemmas -/

theorem edgeMem_append (es₁ es₂ : List (String × String)) (a b : String) :
    EdgeMem (es₁ ++ es₂) a b ↔ EdgeMem es₁ a b ∨ EdgeMem es₂ a b := by
  unfold EdgeMem
  simp only [List.mem_append]
  tauto

theorem chain_all_mem {α : Type} {R : α → α → Prop} {P : α → Prop}
    (hR : ∀ a b, R a b → P a ∧ P b) :
    ∀ w, List.Chain' R w → (∀ x ∈ w.head?, P x) → ∀ x ∈ w, P x
  | [], _, _, x, hx => absurd hx (List.not_mem_nil x)
  | [a], _, hh, x, hx => by
    rw [List.mem_singleton.mp hx]
    exact hh a rfl
  | a :: b :: t, hch, hh, x, hx => by
    rw [List.chain'_cons] at hch
    rcases List.mem_cons.mp hx with hxa | hxbt
    · rw [hxa]
      exact hh a rfl
    · refine chain_all_mem hR (b :: t) hch.2 (fun z hz => ?_) x hxbt
      have hzb : b = z := Option.some.inj (Option.mem_def.mp hz)
      exact hzb ▸ (hR a b hch.1).2

theorem chain_imp_mem {α : Type} {R S : α → α → Prop} :
    ∀ w, List.Chain' R w → (∀ a b, a ∈ w → b ∈ w → R a b → S a b) →
      List.Chain' S w
  | [], _, _ => List.chain'_nil
  | [_], _, _ => List.chain'_singleton _
  | a :: b :: t, hch, himp => by
    rw [List.chain'_cons] at hch ⊢
    refine ⟨himp a b (List.mem_cons_self a _) (List.mem_cons_of_mem _
      (List.mem_cons_self b t)) hch.1, ?_⟩
    exact chain_imp_mem (b :: t) hch.2
      (fun u v hu hv => himp u v (List.mem_cons_of_mem _ hu)
        (List.mem_cons_of_mem _ hv))

theorem cross_out_port (es : List (String × String)) (N : List String)
    (p0 : String)
    (hcross : ∀ a b, EdgeMem es a b → a ∈ N → b ∉ N → b = p0) :
    ∀ w h, w.head? = some h → h ∈ N → List.Chain' (EdgeMem es) w →
      (∀ x ∈ w.getLast?, x ∉ N) → p0 ∈ w
  | [], _, hh, _, _, _ => by cases hh
  | [a], _, hh, hN, _, hl => by
    have ha : a = _ := Option.some.inj hh
    exact absurd (ha ▸ hN) (hl a (by simp))
  | a :: b :: t, h, hh, hN, hch, hl => by
    have hah : a = h := Option.some.inj hh
    rw [List.chain'_cons] at hch
    by_cases hbN : b ∈ N
    · exact List.mem_cons_of_mem _
        (cross_out_port es N p0 hcross (b :: t) b rfl hbN hch.2
          (fun z hz => hl z (by rw [List.getLast?_cons_cons]; exact hz)))
    · have hbp : b = p0 := hcross a b hch.1 (hah ▸ hN) hbN
      exact hbp ▸ List.mem_cons_of_mem _ (List.mem_cons_self b t)

theorem chain_restrict_port (es : List (String × String)) (N : List String)
    (p0 : String)
    (hout : ∀ a b, EdgeMem es a b → a ∈ N → b ∉ N → b = p0)
    (hin : ∀ a b, EdgeMem es a b → a ∉ N → b ∈ N → a = p0) :
    ∀ w, List.Chain' (EdgeMem es) w → w.Nodup →
      (∀ x ∈ w.head?, x ∉ N) → (∀ x ∈ w.getLast?, x ∉ N) →
      ∀ x ∈ w, x ∉ N
  | [], _, _, _, _, x, hx => absurd hx (List.not_mem_nil x)
  | [a], _, _, hh, _, x, hx => by
    rw [List.mem_singleton.mp hx]
    exact hh a rfl
  | a :: b :: t, hch, hnd, hh, hl, x, hx => by
    have haN : a ∉ N := hh a rfl
    rw [List.chain'_cons] at hch
    rw [List.nodup_cons] at hnd
    by_cases hbN : b ∈ N
    · exfalso
      have hap0 : a = p0 := hin a b hch.1 haN hbN
      have hp0mem : p0 ∈ b :: t :=
        cross_out_port es N p0 hout (b :: t) b rfl hbN hch.2
          (fun z hz => hl z (by rw [List.getLast?_cons_cons]; exact hz))
      exact hnd.1 (hap0 ▸ hp0mem)
    · rcases List.mem_cons.mp hx with hxa | hxbt
      · rw [hxa]
        exact haN
      · refine chain_restrict_port es N p0 hout hin (b :: t) hch.2 hnd.2
          (fun z hz => ?_)
          (fun z hz => hl z (by rw [List.getLast?_cons_cons]; exact hz)) x hxbt
        have hzb : b = z := Option.some.inj (Option.mem_def.mp hz)
        exact hzb ▸ hbN

/-! ## `consecutivePairs` lemmas -/

theorem consecutivePairs_mem :
    ∀ (l : List String) (a b : String), (a, b) ∈ consecutivePairs l →
      ∃ i, ∃ (h : i + 1 < l.length),
        l.get ⟨i, Nat.lt_of_succ_lt h⟩ = a ∧ l.get ⟨i + 1, h⟩ = b
  | [], _, _, hm => absurd hm (List.not_mem_nil _)
  | [_], _, _, hm => absurd hm (List.not_mem_nil _)
  | x :: y :: t, a, b, hm => by
    rcases List.mem_cons.mp hm with he | hm'
    · have hx : x = a := congrArg Prod.fst he.symm
      have hy : y = b := congrArg Prod.snd he.symm
      exact ⟨0, by simp, hx, hy⟩
    · obtain ⟨i, h, h1, h2⟩ := consecutivePairs_mem (y :: t) a b hm'
      exact ⟨i + 1, Nat.succ_lt_succ h, h1, h2⟩

theorem consecutivePairs_get :
    ∀ (l : List String) (i : Nat) (h : i + 1 < l.length),
      (l.get ⟨i, Nat.lt_of_succ_lt h⟩, l.get ⟨i + 1, h⟩) ∈ consecutivePairs l
  | [], _, h => absurd h (by simp)
  | [_], _, h => by simp at h
  | x :: y :: _, 0, _ => List.mem_cons_self _ _
  | x :: y :: t, i + 1, h => by
    have hi : i + 1 < (y :: t).length := Nat.lt_of_succ_lt_succ h
    exact List.mem_cons_of_mem _ (consecutivePairs_get (y :: t) i hi)

theorem consecutivePairs_mem_both (l : List String) (a b : String)
    (h : (a, b) ∈ consecutivePairs l) : a ∈ l ∧ b ∈ l := by
  obtain ⟨i, hi, h1, h2⟩ := consecutivePairs_mem l a b h
  exact ⟨h1 ▸ List.get_mem l _ _, h2 ▸ List.get_mem l _ _⟩

theorem consecutivePairs_map (f : String → String) :
    ∀ (l : List String),
      consecutivePairs (l.map f) =
        (consecutivePairs l).map (fun e => (f e.1, f e.2))
  | [] => rfl
  | [_] => rfl
  | x :: y :: t => by
    show (f x, f y) :: consecutivePairs ((y :: t).map f) = (f x, f y) :: _
    rw [consecutivePairs_map f (y :: t)]

/-! ## `normEdges` decomposition for linear lines -/

theorem branchNormEdges_eq (bp : String) :
    ∀ (sts : List String),
      (match sts.head? with
        | some b0 => (bp, b0) :: consecutivePairs sts
        | none => consecutivePairs sts).map
          (fun e : String × String =>
            (normalizeStationName e.1, normalizeStationName e.2)) =
        branchNormEdges ⟨bp, sts⟩
  | [] => rfl
  | s :: ss => by
    show (normalizeStationName bp, normalizeStationName s) ::
        (consecutivePairs (s :: ss)).map
          (fun e : String × String =>
            (normalizeStationName e.1, normalizeStationName e.2)) =
      (normalizeStationName bp, normalizeStationName s) ::
        consecutivePairs ((s :: ss).map normalizeStationName)
    rw [consecutivePairs_map]

theorem normEdges_linear (line : SubwayLineData)
    (hlin : line.type = LineType.linear) :
    normEdges line = mainEdges line ++ allBranchEdges line.branches := by
  unfold normEdges lineEdgeList
  have hcirc : ¬ (line.type = LineType.circular ∧ line.stations.length > 1) := by
    rw [hlin]
    rintro ⟨h, -⟩
    cases h
  rw [if_neg hcirc, List.append_nil, List.map_append]
  congr 1
  · unfold mainEdges normMain
    rw [consecutivePairs_map]
  · unfold allBranchEdges
    rw [List.map_flatten, List.map_map]
    congr 1
    refine List.map_congr_left (fun br _ => ?_)
    obtain ⟨bp, sts⟩ := br
    exact branchNormEdges_eq bp sts

/-! ## BFS path reconstruction (`backtrack`) -/

theorem backtrack_spec (g : SubwayGraph) (frm : String)
    (visited : List String) (parent : List (String × String))
    (hvh : visited.head? = some frm) (hvn : visited.Nodup)
    (hpk : parent.map Prod.fst = visited.tail)
    (hpp : ∀ i (h : i < parent.length), ∃ k, ∃ (hk : k < visited.length),
      k ≤ i ∧ visited.get ⟨k, hk⟩ = (parent.get ⟨i, h⟩).2)
    (hpa : ∀ pr ∈ parent, pr.1 ∈ adjLookup g pr.2) :
    ∀ j (hj : j < visited.length) (fuel : Nat), j < fuel → ∀ acc,
      ∃ q, backtrack parent fuel (visited.get ⟨j, hj⟩) acc = q ++ acc ∧
        q.head? = some frm ∧ q.getLast? = some (visited.get ⟨j, hj⟩) ∧
        List.Chain' (AdjIn g) q ∧ q.Nodup ∧
        ∀ x ∈ q, ∃ k, ∃ (hk : k < visited.length), k ≤ j ∧
          visited.get ⟨k, hk⟩ = x := by
  have hplen : parent.length = visited.length - 1 := by
    have hlen := congrArg List.length hpk
    rw [List.length_map, List.length_tail] at hlen
    exact hlen
  intro j
  induction j using Nat.strong_induction_on with
  | _ j IH =>
    intro hj fuel hfuel acc
    obtain ⟨f, rfl⟩ : ∃ f, fuel = f + 1 := ⟨fuel - 1, by omega⟩
    have hred : ∀ node acc2, backtrack parent (f + 1) node acc2 =
        match parent.lookup node with
        | none => node :: acc2
        | some par => backtrack parent f par (node :: acc2) :=
      fun _ _ => rfl
    by_cases hj0 : j = 0
    · subst hj0
      have hnode : visited.get ⟨0, hj⟩ = frm := by
        cases visited with
        | nil => cases hj
        | cons v vt => exact Option.some.inj hvh
      have hlk : parent.lookup (visited.get ⟨0, hj⟩) = none := by
        rw [hnode]
        apply alookup_eq_none
        rw [hpk]
        cases visited with
        | nil => cases hj
        | cons v vt =>
          have hv : v = frm := Option.some.inj hvh
          have hvn2 := List.nodup_cons.mp hvn
          exact hv ▸ hvn2.1
      refine ⟨[visited.get ⟨0, hj⟩], ?_, ?_, ?_, ?_, ?_, ?_⟩
      · rw [hred, hlk]
        rfl
      · rw [hnode]
        rfl
      · rfl
      · exact List.chain'_singleton _
      · exact List.nodup_singleton _
      · intro x hx
        rw [List.mem_singleton.mp hx]
        exact ⟨0, hj, le_refl 0, rfl⟩
    · obtain ⟨j', rfl⟩ : ∃ j', j = j' + 1 := ⟨j - 1, by omega⟩
      have hj' : j' < parent.length := by omega
      have hkey : (parent.get ⟨j', hj'⟩).1 = visited.get ⟨j' + 1, hj⟩ := by
        have hjm : j' < (parent.map Prod.fst).length := by
          rw [List.length_map]
          exact hj'
        have hjt : j' < visited.tail.length := by
          rw [List.length_tail]
          omega
        have h1 : (parent.map Prod.fst).get ⟨j', hjm⟩ =
            (parent.get ⟨j', hj'⟩).1 := by
          simp
        have h2 : (parent.map Prod.fst).get ⟨j', hjm⟩ =
            visited.tail.get ⟨j', hjt⟩ := List.get_of_eq hpk ⟨j', hjm⟩
        have h3 : visited.tail.get ⟨j', hjt⟩ = visited.get ⟨j' + 1, hj⟩ :=
          List.get_tail visited j' hjt hj
        rw [← h1, h2, h3]
      have htnd : (parent.map Prod.fst).Nodup := by
        rw [hpk]
        exact (List.tail_sublist visited).nodup hvn
      have hlk2 : parent.lookup (visited.get ⟨j' + 1, hj⟩) =
          some (parent.get ⟨j', hj'⟩).2 := by
        rw [← hkey]
        exact alookup_get_nodup parent htnd j' hj'
      obtain ⟨k, hk, hkj, hkval⟩ := hpp j' hj'
      obtain ⟨q1, heq, hh1, hl1, hch1, hnd1, hmem1⟩ :=
        IH k (by omega) hk f (by omega) (visited.get ⟨j' + 1, hj⟩ :: acc)
      refine ⟨q1 ++ [visited.get ⟨j' + 1, hj⟩], ?_, ?_, ?_, ?_, ?_, ?_⟩
      · rw [hred, hlk2, ← hkval]
        show backtrack parent f (visited.get ⟨k, hk⟩)
          (visited.get ⟨j' + 1, hj⟩ :: acc) = _
        rw [heq]
        simp
      · have hq1ne : q1 ≠ [] := by
          intro h
          rw [h] at hh1
          cases hh1
        rw [List.head?_append_of_ne_nil q1 hq1ne]
        exact hh1
      · exact List.getLast?_concat q1
      · rw [List.chain'_append]
        refine ⟨hch1, List.chain'_singleton _, fun x hx y hy => ?_⟩
        have hxk : x = visited.get ⟨k, hk⟩ := by
          rw [hl1] at hx
          exact (Option.some.inj (Option.mem_def.mp hx)).symm
        have hyn : y = visited.get ⟨j' + 1, hj⟩ :=
          (Option.some.inj (Option.mem_def.mp hy)).symm
        have hprm : parent.get ⟨j', hj'⟩ ∈ parent := List.get_mem parent j' hj'
        have hadj := hpa _ hprm
        rw [hkey, ← hkval] at hadj
        show AdjIn g x y
        rw [hxk, hyn]
        exact hadj
      · rw [List.nodup_append]
        refine ⟨hnd1, List.nodup_singleton _, fun x hxq1 hxn => ?_⟩
        obtain ⟨k2, hk2, hk2le, hk2val⟩ := hmem1 x hxq1
        have hxe : x = visited.get ⟨j' + 1, hj⟩ := List.mem_singleton.mp hxn
        have hfin : (⟨k2, hk2⟩ : Fin visited.length) = ⟨j' + 1, hj⟩ :=
          hvn.get_inj_iff.mp (by rw [hk2val, hxe])
        have : k2 = j' + 1 := congrArg Fin.val hfin
        omega
      · intro x hx
        rcases List.mem_append.mp hx with hx | hx
        · obtain ⟨k2, hk2, hle, hval⟩ := hmem1 x hx
          exact ⟨k2, hk2, by omega, hval⟩
        · rw [List.mem_singleton.mp hx]
          exact ⟨j' + 1, hj, le_refl _, rfl⟩

/-! ## BFS neighbour processing -/

theorem bfs_extend_inv (g : SubwayGraph) (frm tgt current n : String)
    (hGI : GInv g) (st : BFSState) (hinv : LoopInv g frm tgt st)
    (hcur : current ∈ st.visited) (hadj : n ∈ adjLookup g current)
    (hnv : n ∉ st.visited) :
    (st.visited ++ [n]).head? = some frm ∧
    (st.visited ++ [n]).Nodup ∧
    (∀ v ∈ st.visited ++ [n], hasAdjKey g v = true) ∧
    ((st.parent ++ [(n, current)]).map Prod.fst = (st.visited ++ [n]).tail) ∧
    (∀ i (h : i < (st.parent ++ [(n, current)]).length),
      ∃ k, ∃ (hk : k < (st.visited ++ [n]).length), k ≤ i ∧
        (st.visited ++ [n]).get ⟨k, hk⟩ =
          ((st.parent ++ [(n, current)]).get ⟨i, h⟩).2) ∧
    (∀ pr ∈ st.parent ++ [(n, current)], pr.1 ∈ adjLookup g pr.2) := by
  obtain ⟨v0, vt, hv⟩ : ∃ v0 vt, st.visited = v0 :: vt := by
    cases hvv : st.visited with
    | nil =>
      have hh := hinv.vhead
      rw [hvv] at hh
      cases hh
    | cons a t => exact ⟨a, t, rfl⟩
  have hplen : st.parent.length = st.visited.length - 1 := by
    have hlen := congrArg List.length hinv.pkeys
    rw [List.length_map, List.length_tail] at hlen
    exact hlen
  have hvpos : 1 ≤ st.visited.length := by
    rw [hv]
    simp
  refine ⟨?_, ?_, ?_, ?_, ?_, ?_⟩
  · rw [List.head?_append_of_ne_nil _ (by rw [hv]; simp)]
    exact hinv.vhead
  · rw [List.nodup_append]
    exact ⟨hinv.vnodup, List.nodup_singleton n,
      fun x hx hxn => hnv ((List.mem_singleton.mp hxn) ▸ hx)⟩
  · intro v hvm
    rcases List.mem_append.mp hvm with hvm | hvm
    · exact hinv.vkeys v hvm
    · rw [List.mem_singleton.mp hvm]
      have hck : hasAdjKey g current = true := hinv.vkeys current hcur
      obtain ⟨l, hl⟩ : ∃ l, g.adjacency.lookup current = some l :=
        Option.isSome_iff_exists.mp hck
      have hentry : (current, l) ∈ g.adjacency :=
        alookup_some_mem current l g.adjacency hl
      have hnl : n ∈ l := by
        unfold adjLookup at hadj
        rw [hl] at hadj
        exact hadj
      have hnst : n ∈ g.stations := hGI.valuesSub (current, l) hentry n hnl
      rw [hasAdjKey_iff_keys, ← hGI.stationsEq]
      exact hnst
  · rw [List.map_append, hinv.pkeys, hv]
    rfl
  · intro i h
    have hib : i < st.parent.length + 1 := by
      have hb := h
      rw [List.length_append, List.length_singleton] at hb
      exact hb
    by_cases hi : i < st.parent.length
    · obtain ⟨k, hk, hkle, hkval⟩ := hinv.ppar i hi
      have hk2 : k < (st.visited ++ [n]).length := by
        rw [List.length_append]
        omega
      refine ⟨k, hk2, hkle, ?_⟩
      rw [List.get_append k hk, hkval]
      congr 1
      exact (List.get_append i hi).symm
    · have hieq : i = st.parent.length := by omega
      subst hieq
      obtain ⟨⟨k, hk⟩, hkval⟩ := List.mem_iff_get.mp hcur
      have hk2 : k < (st.visited ++ [n]).length := by
        rw [List.length_append]
        omega
      refine ⟨k, hk2, by omega, ?_⟩
      rw [List.get_append k hk, hkval]
      have hgl : (st.parent ++ [(n, current)]).get
          ⟨st.parent.length, h⟩ = (n, current) := by
        rw [List.get_eq_getElem]
        exact List.getElem_concat_length _ _ _ rfl _
      rw [hgl]
  · intro pr hpr
    rcases List.mem_append.mp hpr with hpr | hpr
    · exact hinv.padj pr hpr
    · rw [List.mem_singleton.mp hpr]
      exact hadj

theorem processNeighbors_spec (g : SubwayGraph) (frm tgt current : String)
    (hGI : GInv g) :
    ∀ (ns : List String) (st : BFSState),
      LoopInv g frm tgt st →
      current ∈ st.visited →
      (∀ n ∈ ns, n ∈ adjLookup g current) →
      (∀ v ∈ st.visited, v = current ∨ v ∈ st.queue ∨
        ∀ n ∈ adjLookup g v, n ∈ st.visited) →
      (∀ st', processNeighbors tgt current ns st = Sum.inl st' →
        LoopInv g frm tgt st' ∧
        (∀ n ∈ ns, n ∈ st'.visited) ∧
        (∀ v ∈ st'.visited, v = current ∨ v ∈ st'.queue ∨
          ∀ n ∈ adjLookup g v, n ∈ st'.visited) ∧
        ∃ new, st'.visited = st.visited ++ new ∧ st'.queue = st.queue ++ new) ∧
      (∀ p, processNeighbors tgt current ns st = Sum.inr p →
        PathOK g frm tgt p)
  | [], st, hinv, _, _, hcl => by
    constructor
    · intro st' hst'
      have hse : st = st' := Sum.inl.inj hst'
      subst hse
      exact ⟨hinv, fun n hn => absurd hn (List.not_mem_nil n), hcl,
        [], by simp, by simp⟩
    · intro p hp
      have himp : (Sum.inl st : BFSState ⊕ List String) = Sum.inr p := hp
      cases himp
  | n :: ns, st, hinv, hcur, hns, hcl => by
    have hstep : processNeighbors tgt current (n :: ns) st =
        if n ∈ st.visited then processNeighbors tgt current ns st
        else if n = tgt then
          Sum.inr (backtrack (st.parent ++ [(n, current)])
            ((st.parent ++ [(n, current)]).length + 1) tgt [])
        else processNeighbors tgt current ns
          ⟨st.visited ++ [n], st.parent ++ [(n, current)],
            st.queue ++ [n]⟩ := rfl
    by_cases hnv : n ∈ st.visited
    · rw [if_pos hnv] at hstep
      obtain ⟨hC1, hC2⟩ := processNeighbors_spec g frm tgt current hGI ns st
        hinv hcur (fun m hm => hns m (List.mem_cons_of_mem _ hm)) hcl
      constructor
      · intro st' hst'
        rw [hstep] at hst'
        obtain ⟨ha, hb, hc, hd⟩ := hC1 st' hst'
        refine ⟨ha, fun m hm => ?_, hc, hd⟩
        rcases List.mem_cons.mp hm with hm | hm
        · obtain ⟨new, hvv, -⟩ := hd
          rw [hm, hvv]
          exact List.mem_append.mpr (Or.inl hnv)
        · exact hb m hm
      · intro p hp
        rw [hstep] at hp
        exact hC2 p hp
    · rw [if_neg hnv] at hstep
      have hadj : n ∈ adjLookup g current := hns n (List.mem_cons_self n ns)
      obtain ⟨eh, end_, ek, epk, epp, epa⟩ :=
        bfs_extend_inv g frm tgt current n hGI st hinv hcur hadj hnv
      by_cases hnt : n = tgt
      · subst hnt
        rw [if_pos rfl] at hstep
        constructor
        · intro st' hst'
          rw [hstep] at hst'
          simp at hst'
        · intro p hp
          rw [hstep] at hp
          have hpe : backtrack (st.parent ++ [(n, current)])
              ((st.parent ++ [(n, current)]).length + 1) n [] = p :=
            Sum.inr.inj hp
          have hplen : st.parent.length = st.visited.length - 1 := by
            have hlen := congrArg List.length hinv.pkeys
            rw [List.length_map, List.length_tail] at hlen
            exact hlen
          have hvpos : 1 ≤ st.visited.length := by
            cases hvv : st.visited with
            | nil =>
              have hh := hinv.vhead
              rw [hvv] at hh
              cases hh
            | cons a t => simp
          have hjlt : st.visited.length < (st.visited ++ [n]).length := by
            rw [List.length_append]
            simp
          have hget : (st.visited ++ [n]).get
              ⟨st.visited.length, hjlt⟩ = n := by
            rw [List.get_eq_getElem]
            exact List.getElem_concat_length _ _ _ rfl _
          obtain ⟨q, heq, hh, hl, hch, hnd, -⟩ :=
            backtrack_spec g frm (st.visited ++ [n])
              (st.parent ++ [(n, current)]) eh end_ epk epp epa
              st.visited.length hjlt
              ((st.parent ++ [(n, current)]).length + 1)
              (by rw [List.length_append, List.length_singleton]; omega) []
          rw [hget] at heq hl
          rw [List.append_nil] at heq
          rw [← hpe, heq]
          exact ⟨hh, hl, hch, hnd⟩
      · rw [if_neg hnt] at hstep
        have hinv1 : LoopInv g frm tgt
            ⟨st.visited ++ [n], st.parent ++ [(n, current)],
              st.queue ++ [n]⟩ :=
          ⟨eh, end_, ek, epk, epp, epa,
            fun v hv => by
              rcases List.mem_append.mp hv with hv | hv
              · exact List.mem_append.mpr (Or.inl (hinv.qsub v hv))
              · exact List.mem_append.mpr (Or.inr hv),
            fun hmem => by
              rcases List.mem_append.mp hmem with hmem | hmem
              · exact hinv.tnotv hmem
              · exact hnt (List.mem_singleton.mp hmem).symm⟩
        have hcur1 : current ∈ st.visited ++ [n] :=
          List.mem_append.mpr (Or.inl hcur)
        have hns1 : ∀ m ∈ ns, m ∈ adjLookup g current :=
          fun m hm => hns m (List.mem_cons_of_mem _ hm)
        have hcl1 : ∀ v ∈ st.visited ++ [n], v = current ∨
            v ∈ st.queue ++ [n] ∨
            ∀ m ∈ adjLookup g v, m ∈ st.visited ++ [n] := by
          intro v hv
          rcases List.mem_append.mp hv with hv | hv
          · rcases hcl v hv with hc | hc | hc
            · exact Or.inl hc
            · exact Or.inr (Or.inl (List.mem_append.mpr (Or.inl hc)))
            · exact Or.inr (Or.inr
                (fun m hm => List.mem_append.mpr (Or.inl (hc m hm))))
          · exact Or.inr (Or.inl (List.mem_append.mpr (Or.inr hv)))
        obtain ⟨hC1, hC2⟩ := processNeighbors_spec g frm tgt current hGI ns
          ⟨st.visited ++ [n], st.parent ++ [(n, current)], st.queue ++ [n]⟩
          hinv1 hcur1 hns1 hcl1
        constructor
        · intro st' hst'
          rw [hstep] at hst'
          obtain ⟨ha, hb, hc, hd⟩ := hC1 st' hst'
          obtain ⟨new, hvv, hqq⟩ := hd
          refine ⟨ha, fun m hm => ?_, hc, n :: new, ?_, ?_⟩
          · rcases List.mem_cons.mp hm with hm | hm
            · rw [hm, hvv]
              exact List.mem_append.mpr
                (Or.inl (List.mem_append.mpr (Or.inr (List.mem_singleton.mpr rfl))))
            · exact hb m hm
          · rw [hvv]
            simp
          · rw [hqq]
            simp
        · intro p hp
          rw [hstep] at hp
          exact hC2 p hp

/-! ## BFS loop: soundness and completeness -/

theorem no_walk_of_closed (g : SubwayGraph) (S : List String)
    (hcl : ∀ v ∈ S, ∀ n ∈ adjLookup g v, n ∈ S) :
    ∀ w, List.Chain' (AdjIn g) w → ∀ a, w.head? = some a → a ∈ S →
      ∀ x ∈ w, x ∈ S
  | [], _, _, _, _, x, hx => absurd hx (List.not_mem_nil x)
  | [b], _, a, hh, ha, x, hx => by
    rw [List.mem_singleton.mp hx]
    exact (Option.some.inj hh) ▸ ha
  | b :: c :: t, hch, a, hh, ha, x, hx => by
    have hba : b = a := Option.some.inj hh
    rw [List.chain'_cons] at hch
    have hcS : c ∈ S := hcl b (hba ▸ ha) c hch.1
    rcases List.mem_cons.mp hx with hx | hx
    · rw [hx]
      exact hba ▸ ha
    · exact no_walk_of_closed g S hcl (c :: t) hch.2 c rfl hcS x hx

theorem bfs_terminal_no_walk (g : SubwayGraph) (frm tgt : String)
    (st : BFSState) (hinv : LoopInv g frm tgt st) (hq : st.queue = [])
    (hcl : ∀ v ∈ st.visited, v ∈ st.queue ∨
      ∀ n ∈ adjLookup g v, n ∈ st.visited) :
    ∀ w, w.head? = some frm → w.getLast? = some tgt →
      List.Chain' (AdjIn g) w → False := by
  intro w hwh hwl hwch
  have hclosed : ∀ v ∈ st.visited, ∀ n ∈ adjLookup g v, n ∈ st.visited := by
    intro v hv
    rcases hcl v hv with hc | hc
    · rw [hq] at hc
      cases hc
    · exact hc
  have hfrm : frm ∈ st.visited :=
    List.mem_of_mem_head? (Option.mem_def.mpr hinv.vhead)
  have hall := no_walk_of_closed g st.visited hclosed w hwch frm hwh hfrm
  exact hinv.tnotv
    (hall tgt (List.mem_of_mem_getLast? (Option.mem_def.mpr hwl)))

theorem visited_le_keys (g : SubwayGraph) (frm tgt : String) (st : BFSState)
    (hinv : LoopInv g frm tgt st) :
    st.visited.length ≤ g.adjacency.length := by
  have hsub : st.visited ⊆ g.adjacency.map Prod.fst := fun v hv =>
    (hasAdjKey_iff_keys g v).mp (hinv.vkeys v hv)
  have hsp := (List.subperm_of_subset hinv.vnodup hsub).length_le
  rw [List.length_map] at hsp
  exact hsp

theorem bfsLoop_spec (g : SubwayGraph) (frm tgt : String) (hGI : GInv g) :
    ∀ (fuel : Nat) (st : BFSState),
      LoopInv g frm tgt st →
      (∀ v ∈ st.visited, v ∈ st.queue ∨
        ∀ n ∈ adjLookup g v, n ∈ st.visited) →
      g.adjacency.length + st.queue.length ≤ fuel + st.visited.length →
      (∀ p, bfsLoop g tgt fuel st = some p → PathOK g frm tgt p) ∧
      (bfsLoop g tgt fuel st = none →
        ∀ w, w.head? = some frm → w.getLast? = some tgt →
          List.Chain' (AdjIn g) w → False)
  | 0, st, hinv, hcl, hfuel => by
    have hvle := visited_le_keys g frm tgt st hinv
    have hq : st.queue = [] := by
      cases hqq : st.queue with
      | nil => rfl
      | cons a t =>
        rw [hqq] at hfuel
        rw [List.length_cons] at hfuel
        omega
    refine ⟨fun p hp => ?_, fun _ => bfs_terminal_no_walk g frm tgt st hinv hq hcl⟩
    have hnone : (none : Option (List String)) = some p := hp
    cases hnone
  | fuel + 1, st, hinv, hcl, hfuel => by
    cases hq : st.queue with
    | nil =>
      have hres : bfsLoop g tgt (fuel + 1) st = none := by
        have h0 : bfsLoop g tgt (fuel + 1) st =
            match st.queue with
            | [] => none
            | current :: rest =>
              match processNeighbors tgt current (adjLookup g current)
                  { st with queue := rest } with
              | Sum.inl st' => bfsLoop g tgt fuel st'
              | Sum.inr path => some path := rfl
        rw [h0, hq]
      refine ⟨fun p hp => ?_, fun _ => bfs_terminal_no_walk g frm tgt st hinv hq hcl⟩
      rw [hres] at hp
      cases hp
    | cons current rest =>
      have hstep : bfsLoop g tgt (fuel + 1) st =
          match processNeighbors tgt current (adjLookup g current)
              { st with queue := rest } with
          | Sum.inl st' => bfsLoop g tgt fuel st'
          | Sum.inr path => some path := by
        have h0 : bfsLoop g tgt (fuel + 1) st =
            match st.queue with
            | [] => none
            | current :: rest =>
              match processNeighbors tgt current (adjLookup g current)
                  { st with queue := rest } with
              | Sum.inl st' => bfsLoop g tgt fuel st'
              | Sum.inr path => some path := rfl
        rw [h0, hq]
      have hinv0 : LoopInv g frm tgt { st with queue := rest } :=
        ⟨hinv.vhead, hinv.vnodup, hinv.vkeys, hinv.pkeys, hinv.ppar, hinv.padj,
          fun v hv => hinv.qsub v (by rw [hq]; exact List.mem_cons_of_mem _ hv),
          hinv.tnotv⟩
      have hcur : current ∈ st.visited :=
        hinv.qsub current (by rw [hq]; exact List.mem_cons_self _ _)
      have hcl0 : ∀ v ∈ st.visited, v = current ∨ v ∈ rest ∨
          ∀ n ∈ adjLookup g v, n ∈ st.visited := by
        intro v hv
        rcases hcl v hv with hc | hc
        · rw [hq] at hc
          rcases List.mem_cons.mp hc with hc | hc
          · exact Or.inl hc
          · exact Or.inr (Or.inl hc)
        · exact Or.inr (Or.inr hc)
      obtain ⟨hC1, hC2⟩ := processNeighbors_spec g frm tgt current hGI
        (adjLookup g current) { st with queue := rest } hinv0 hcur
        (fun m hm => hm) hcl0
      cases hpn : processNeighbors tgt current (adjLookup g current)
          { st with queue := rest } with
      | inr path =>
        have hres : bfsLoop g tgt (fuel + 1) st = some path := by
          rw [hstep, hpn]
        refine ⟨fun p hp => ?_, fun hnone => ?_⟩
        · rw [hres] at hp
          exact (Option.some.inj hp) ▸ hC2 path hpn
        · rw [hres] at hnone
          cases hnone
      | inl st' =>
        obtain ⟨hinv', hnsv, hcl', new, hvv, hqq⟩ := hC1 st' hpn
        have hclosedFull : ∀ v ∈ st'.visited, v ∈ st'.queue ∨
            ∀ n ∈ adjLookup g v, n ∈ st'.visited := by
          intro v hv
          rcases hcl' v hv with hc | hc | hc
          · rw [hc]
            exact Or.inr (fun m hm => hnsv m hm)
          · exact Or.inl hc
          · exact Or.inr hc
        have hfuel' : g.adjacency.length + st'.queue.length ≤
            fuel + st'.visited.length := by
          rw [hvv, hqq]
          simp only [List.length_append]
          rw [hq] at hfuel
          rw [List.length_cons] at hfuel
          omega
        have hrec := bfsLoop_spec g frm tgt hGI fuel st' hinv' hclosedFull hfuel'
        have hres : bfsLoop g tgt (fuel + 1) st = bfsLoop g tgt fuel st' := by
          rw [hstep, hpn]
        rw [hres]
        exact hrec

/-! ## `findPath`: soundness and completeness -/

theorem findPath_init_inv (g : SubwayGraph) (frm tgt : String)
    (hne : frm ≠ tgt) (hkf : hasAdjKey g frm = true) :
    LoopInv g frm tgt ⟨[frm], [], [frm]⟩ :=
  ⟨rfl, List.nodup_singleton frm,
    fun v hv => by rw [List.mem_singleton.mp hv]; exact hkf,
    rfl, fun i h => absurd h (by simp),
    fun pr hpr => absurd hpr (List.not_mem_nil pr),
    fun v hv => hv,
    fun hmem => hne (List.mem_singleton.mp hmem).symm⟩

theorem findPath_sound (g : SubwayGraph) (frm tgt : String) (hGI : GInv g)
    (hne : frm ≠ tgt) :
    ∀ p, findPath g frm tgt = some p → PathOK g frm tgt p := by
  intro p hp
  unfold findPath at hp
  rw [if_neg hne] at hp
  by_cases hg : ¬(hasAdjKey g frm = true) ∨ ¬(hasAdjKey g tgt = true)
  · rw [if_pos hg] at hp
    cases hp
  · rw [if_neg hg] at hp
    push_neg at hg
    obtain ⟨hS, -⟩ := bfsLoop_spec g frm tgt hGI (g.adjacency.length + 1)
      ⟨[frm], [], [frm]⟩ (findPath_init_inv g frm tgt hne hg.1)
      (fun v hv => Or.inl hv) (by simp)
    exact hS p hp

theorem findPath_complete (g : SubwayGraph) (frm tgt : String) (hGI : GInv g)
    (hne : frm ≠ tgt) (hkf : hasAdjKey g frm = true)
    (hkt : hasAdjKey g tgt = true) (w : List String)
    (hwh : w.head? = some frm) (hwl : w.getLast? = some tgt)
    (hwch : List.Chain' (AdjIn g) w) :
    (findPath g frm tgt).isSome = true := by
  unfold findPath
  rw [if_neg hne, if_neg (by rw [hkf, hkt]; simp)]
  obtain ⟨-, hN⟩ := bfsLoop_spec g frm tgt hGI (g.adjacency.length + 1)
    ⟨[frm], [], [frm]⟩ (findPath_init_inv g frm tgt hne hkf)
    (fun v hv => Or.inl hv) (by simp)
  cases hres : bfsLoop g tgt (g.adjacency.length + 1) ⟨[frm], [], [frm]⟩ with
  | some p => rfl
  | none => exact absurd (hN hres w hwh hwl hwch) (fun h => h)

/-! ## Branch peeling: duplicate-free walks between main-line stations stay
on the main line -/

theorem builtAfter_subset (built : List String) :
    ∀ (bs : List BranchData), built ⊆ builtAfter built bs
  | [] => fun _ hx => hx
  | br :: rest => fun _ hx =>
    builtAfter_subset (built ++ br.stations.map normalizeStationName) rest
      (List.mem_append.mpr (Or.inl hx))

theorem branchesWFb_snoc (b : BranchData) :
    ∀ (bs : List BranchData) (built : List String),
      branchesWFb built (bs ++ [b]) =
        (branchesWFb built bs && branchOK (builtAfter built bs) b)
  | [], built => by
    show (branchOK built b && true) = (true && branchOK built b)
    rw [Bool.and_true, Bool.true_and]
  | br :: bs, built => by
    show (branchOK built br &&
      branchesWFb (built ++ br.stations.map normalizeStationName) (bs ++ [b])) =
      ((branchOK built br &&
        branchesWFb (built ++ br.stations.map normalizeStationName) bs) &&
        branchOK (builtAfter (built ++ br.stations.map normalizeStationName) bs) b)
    rw [branchesWFb_snoc b bs (built ++ br.stations.map normalizeStationName),
      Bool.and_assoc]

theorem branchOK_spec (built : List String) (br : BranchData)
    (h : branchOK built br = true) :
    normalizeStationName br.branchPoint ∈ built ∧
    br.stations.map normalizeStationName ≠ [] ∧
    (br.stations.map normalizeStationName).Nodup ∧
    (∀ x ∈ br.stations.map normalizeStationName, x ∉ built) := by
  unfold branchOK at h
  simp only [Bool.and_eq_true, decide_eq_true_eq, Bool.not_eq_true',
    List.isEmpty_eq_false] at h
  tauto

theorem allBranchEdges_endpoints :
    ∀ (bs : List BranchData) (built : List String),
      branchesWFb built bs = true →
      ∀ e ∈ allBranchEdges bs,
        e.1 ∈ builtAfter built bs ∧ e.2 ∈ builtAfter built bs
  | [], _, _, e, he => absurd he (List.not_mem_nil e)
  | br :: bs, built, hwf, e, he => by
    have hwf' : (branchOK built br &&
        branchesWFb (built ++ br.stations.map normalizeStationName) bs) = true := hwf
    rw [Bool.and_eq_true] at hwf'
    have hsub : (built ++ br.stations.map normalizeStationName) ⊆
        builtAfter built (br :: bs) :=
      builtAfter_subset (built ++ br.stations.map normalizeStationName) bs
    rcases List.mem_append.mp he with he | he
    · obtain ⟨hbp, hne, -, -⟩ := branchOK_spec built br hwf'.1
      cases hns : br.stations.map normalizeStationName with
      | nil => exact absurd hns hne
      | cons n0 nrest =>
        have hbne : branchNormEdges br = (normalizeStationName br.branchPoint, n0) ::
            consecutivePairs (n0 :: nrest) := by
          unfold branchNormEdges
          rw [hns]
          rfl
        rw [hbne] at he
        rcases List.mem_cons.mp he with he | he
        · rw [he]
          constructor
          · exact hsub (List.mem_append.mpr (Or.inl hbp))
          · refine hsub (List.mem_append.mpr (Or.inr ?_))
            show n0 ∈ br.stations.map normalizeStationName
            rw [hns]
            exact List.mem_cons_self _ _
        · obtain ⟨a, c⟩ := e
          have hboth := consecutivePairs_mem_both (n0 :: nrest) a c he
          rw [← hns] at hboth
          exact ⟨hsub (List.mem_append.mpr (Or.inr hboth.1)),
            hsub (List.mem_append.mpr (Or.inr hboth.2))⟩
    · exact allBranchEdges_endpoints bs
        (built ++ br.stations.map normalizeStationName) hwf'.2 e he

theorem branches_restrict (base : List (String × String)) :
    ∀ (branches : List BranchData) (built : List String),
      (∀ e ∈ base, e.1 ∈ built ∧ e.2 ∈ built) →
      branchesWFb built branches = true →
      ∀ w, List.Chain' (EdgeMem (base ++ allBranchEdges branches)) w →
        w.Nodup →
        (∀ x ∈ w.head?, x ∈ built) → (∀ x ∈ w.getLast?, x ∈ built) →
        List.Chain' (EdgeMem base) w := by
  intro branches
  induction branches using List.reverseRecOn with
  | nil =>
    intro built _ _ w hch _ _ _
    have hbe : allBranchEdges [] = [] := rfl
    rw [hbe, List.append_nil] at hch
    exact hch
  | append_singleton bs b IH =>
    intro built hbase hwf w hch hnd hh hl
    rw [branchesWFb_snoc, Bool.and_eq_true] at hwf
    obtain ⟨hbp, hne, -, hfresh⟩ := branchOK_spec _ b hwf.2
    have hsplit : allBranchEdges (bs ++ [b]) =
        allBranchEdges bs ++ branchNormEdges b := by
      unfold allBranchEdges
      rw [List.map_append, List.flatten_append]
      simp
    cases hns : b.stations.map normalizeStationName with
    | nil => exact absurd hns hne
    | cons n0 nrest =>
      have hbne : branchNormEdges b = (normalizeStationName b.branchPoint, n0) ::
          consecutivePairs (n0 :: nrest) := by
        unfold branchNormEdges
        rw [hns]
        rfl
      have hp0B : normalizeStationName b.branchPoint ∈ builtAfter built bs := hbp
      have hdisj : ∀ x ∈ b.stations.map normalizeStationName,
          x ∉ builtAfter built bs := hfresh
      have hbaseB : ∀ e ∈ base ++ allBranchEdges bs,
          e.1 ∈ builtAfter built bs ∧ e.2 ∈ builtAfter built bs := by
        intro e hee
        rcases List.mem_append.mp hee with hee | hee
        · exact ⟨builtAfter_subset built bs (hbase e hee).1,
            builtAfter_subset built bs (hbase e hee).2⟩
        · exact allBranchEdges_endpoints bs built hwf.1 e hee
      have hnewE : ∀ e ∈ branchNormEdges b,
          (e.1 ∈ b.stations.map normalizeStationName ∧
            e.2 ∈ b.stations.map normalizeStationName) ∨
          e = (normalizeStationName b.branchPoint, n0) := by
        intro e hee
        rw [hbne] at hee
        rcases List.mem_cons.mp hee with hee | hee
        · exact Or.inr hee
        · obtain ⟨a, c⟩ := e
          have hboth := consecutivePairs_mem_both (n0 :: nrest) a c hee
          rw [← hns] at hboth
          exact Or.inl hboth
      have hout : ∀ a c,
          EdgeMem ((base ++ allBranchEdges bs) ++ branchNormEdges b) a c →
          a ∈ b.stations.map normalizeStationName →
          c ∉ b.stations.map normalizeStationName →
          c = normalizeStationName b.branchPoint := by
        intro a c hR haN hcN
        rcases (edgeMem_append _ _ a c).mp hR with hR | hR
        · exfalso
          rcases hR with hR | hR
          · exact hdisj a haN (hbaseB (a, c) hR).1
          · exact hdisj a haN (hbaseB (c, a) hR).2
        · rcases hR with hR | hR
          · rcases hnewE (a, c) hR with hE | hE
            · exact absurd hE.2 hcN
            · exfalso
              have ha : a = normalizeStationName b.branchPoint :=
                congrArg Prod.fst hE
              exact hdisj a haN (ha ▸ hp0B)
          · rcases hnewE (c, a) hR with hE | hE
            · exact absurd hE.1 hcN
            · exact congrArg Prod.fst hE
      have hin : ∀ a c,
          EdgeMem ((base ++ allBranchEdges bs) ++ branchNormEdges b) a c →
          a ∉ b.stations.map normalizeStationName →
          c ∈ b.stations.map normalizeStationName →
          a = normalizeStationName b.branchPoint := by
        intro a c hR haN hcN
        rcases (edgeMem_append _ _ a c).mp hR with hR | hR
        · exfalso
          rcases hR with hR | hR
          · exact hdisj c hcN (hbaseB (a, c) hR).2
          · exact hdisj c hcN (hbaseB (c, a) hR).1
        · rcases hR with hR | hR
          · rcases hnewE (a, c) hR with hE | hE
            · exact absurd hE.1 haN
            · exact congrArg Prod.fst hE
          · rcases hnewE (c, a) hR with hE | hE
            · exact absurd hE.2 haN
            · exfalso
              have hc : c = normalizeStationName b.branchPoint :=
                congrArg Prod.fst hE
              exact hdisj c hcN (hc ▸ hp0B)
      have hchR : List.Chain'
          (EdgeMem ((base ++ allBranchEdges bs) ++ branchNormEdges b)) w := by
        rw [hsplit, ← List.append_assoc] at hch
        exact hch
      have hhN : ∀ x ∈ w.head?, x ∉ b.stations.map normalizeStationName :=
        fun x hx hxN => hdisj x hxN (builtAfter_subset built bs (hh x hx))
      have hlN : ∀ x ∈ w.getLast?, x ∉ b.stations.map normalizeStationName :=
        fun x hx hxN => hdisj x hxN (builtAfter_subset built bs (hl x hx))
      have havoid : ∀ x ∈ w, x ∉ b.stations.map normalizeStationName :=
        chain_restrict_port _ _ _ hout hin w hchR hnd hhN hlN
      have hn0N : n0 ∈ b.stations.map normalizeStationName := by
        rw [hns]
        exact List.mem_cons_self n0 nrest
      have hch2 : List.Chain' (EdgeMem (base ++ allBranchEdges bs)) w := by
        refine chain_imp_mem w hchR (fun a c ha hc hR => ?_)
        rcases (edgeMem_append _ _ a c).mp hR with hR | hR
        · exact hR
        · exfalso
          rcases hR with hR | hR
          · rcases hnewE (a, c) hR with hE | hE
            · exact havoid a ha hE.1
            · have hcn : c = n0 := congrArg Prod.snd hE
              exact havoid c hc (hcn ▸ hn0N)
          · rcases hnewE (c, a) hR with hE | hE
            · exact havoid a ha hE.2
            · have han : a = n0 := congrArg Prod.snd hE
              exact havoid a ha (han ▸ hn0N)
      exact IH built hbase hwf.1 w hch2 hnd hh hl

/-! ## Index bookkeeping along the main line -/

theorem posIn_cons (a x : String) (l : List String) :
    posIn (a :: l) x = if a = x then 0 else posIn l x + 1 := by
  unfold posIn
  rw [List.findIdx_cons]
  by_cases h : a = x
  · rw [if_pos h]
    simp [h]
  · rw [if_neg h]
    simp [beq_eq_false_iff_ne.mpr h]

theorem posIn_lt (x : String) :
    ∀ (l : List String), x ∈ l → posIn l x < l.length
  | [], hm => absurd hm (List.not_mem_nil x)
  | a :: l, hm => by
    rw [posIn_cons]
    by_cases h : a = x
    · rw [if_pos h]
      simp
    · rw [if_neg h]
      rcases List.mem_cons.mp hm with hx | hx
      · exact absurd hx.symm h
      · rw [List.length_cons]
        exact Nat.succ_lt_succ (posIn_lt x l hx)

theorem getD_posIn (x d : String) :
    ∀ (l : List String), x ∈ l → l.getD (posIn l x) d = x
  | [], hm => absurd hm (List.not_mem_nil x)
  | a :: l, hm => by
    rw [posIn_cons]
    by_cases h : a = x
    · rw [if_pos h]
      exact h
    · rw [if_neg h]
      have hx : x ∈ l := by
        rcases List.mem_cons.mp hm with hx | hx
        · exact absurd hx.symm h
        · exact hx
      rw [List.getD_cons_succ]
      exact getD_posIn x d l hx

theorem posIn_getD (d : String) :
    ∀ (l : List String), l.Nodup → ∀ i, i < l.length →
      posIn l (l.getD i d) = i
  | a :: l, _, 0, _ => by
    rw [List.getD_cons_zero, posIn_cons, if_pos rfl]
  | a :: l, hnd, i + 1, h => by
    rw [List.getD_cons_succ, posIn_cons]
    rw [List.nodup_cons] at hnd
    have hi : i < l.length := by
      rw [List.length_cons] at h
      omega
    have hmem : l.getD i d ∈ l := by
      rw [List.getD_eq_getElem l d hi]
      exact List.getElem_mem hi
    have hne : a ≠ l.getD i d := fun he => hnd.1 (he ▸ hmem)
    rw [if_neg hne, posIn_getD d l hnd.2 i hi]

theorem posIn_get (l : List String) (hnd : l.Nodup) (k : Nat)
    (hk : k < l.length) : posIn l (l.get ⟨k, hk⟩) = k := by
  have h := posIn_getD "" l hnd k hk
  rw [List.getD_eq_getElem l "" hk] at h
  exact h

/-! ## Walks with steps of one along `Nat` indices -/

theorem pm1_ivt :
    ∀ (w : List Nat), List.Chain' (fun u v => v = u + 1 ∨ u = v + 1) w →
      ∀ a b, w.head? = some a → w.getLast? = some b →
      ∀ c, a ≤ c → c ≤ b → c ∈ w
  | [], _, _, _, hh, _, _, _, _ => by cases hh
  | [a0], _, a, b, hh, hl, c, hac, hcb => by
    have ha : a0 = a := Option.some.inj hh
    have hb : a0 = b := by
      rw [List.getLast?_singleton] at hl
      exact Option.some.inj hl
    have hc : c = a0 := by omega
    rw [hc]
    exact List.mem_cons_self _ _
  | a0 :: e :: t, hch, a, b, hh, hl, c, hac, hcb => by
    have ha : a0 = a := Option.some.inj hh
    rw [List.chain'_cons] at hch
    by_cases hc0 : c = a0
    · rw [hc0]
      exact List.mem_cons_self _ _
    · have hlt : a0 < c := by omega
      have hl' : (e :: t).getLast? = some b := by
        rw [List.getLast?_cons_cons] at hl
        exact hl
      rcases hch.1 with hstep | hstep
      · exact List.mem_cons_of_mem _
          (pm1_ivt (e :: t) hch.2 e b rfl hl' c (by omega) hcb)
      · exact List.mem_cons_of_mem _
          (pm1_ivt (e :: t) hch.2 e b rfl hl' c (by omega) hcb)

theorem pm1_nodup_range :
    ∀ (w : List Nat), List.Chain' (fun u v => v = u + 1 ∨ u = v + 1) w →
      w.Nodup → ∀ i j, w.head? = some i → w.getLast? = some j → i ≤ j →
      w = List.range' i (j - i + 1)
  | [], _, _, _, _, hh, _, _ => by cases hh
  | [a0], _, _, i, j, hh, hl, _ => by
    have hi : a0 = i := Option.some.inj hh
    have hj : a0 = j := by
      rw [List.getLast?_singleton] at hl
      exact Option.some.inj hl
    subst hi
    have hj' : j = a0 := hj.symm
    subst hj'
    rw [Nat.sub_self]
    rfl
  | a0 :: e :: t, hch, hnd, i, j, hh, hl, hij => by
    have hi : a0 = i := Option.some.inj hh
    subst hi
    rw [List.chain'_cons] at hch
    rw [List.nodup_cons] at hnd
    have hl' : (e :: t).getLast? = some j := by
      rw [List.getLast?_cons_cons] at hl
      exact hl
    rcases hch.1 with hstep | hstep
    · subst hstep
      have hdj : a0 + 1 ≤ j := by
        by_contra hcon
        push_neg at hcon
        have hja : j = a0 := by omega
        have hjmem : j ∈ (a0 + 1) :: t :=
          List.mem_of_mem_getLast? (Option.mem_def.mpr hl')
        rw [hja] at hjmem
        exact hnd.1 hjmem
      have hrec := pm1_nodup_range ((a0 + 1) :: t) hch.2 hnd.2 (a0 + 1) j
        rfl hl' hdj
      rw [hrec]
      have harith : j - a0 + 1 = (j - (a0 + 1) + 1) + 1 := by omega
      rw [harith]
      rfl
    · exfalso
      have hmem : a0 ∈ e :: t :=
        pm1_ivt (e :: t) hch.2 e j rfl hl' a0 (by omega) hij
      exact hnd.1 hmem

/-! ## `range'` segments of the main line -/

theorem range'_map_getD (l : List String) (d : String) :
    ∀ (n i : Nat), i + n ≤ l.length →
      (List.range' i n).map (fun k => l.getD k d) = (l.drop i).take n
  | 0, i, _ => by simp
  | n + 1, i, h => by
    have hi : i < l.length := by omega
    show (i :: List.range' (i + 1) n).map (fun k => l.getD k d) = _
    rw [List.map_cons, range'_map_getD l d n (i + 1) (by omega),
      List.getD_eq_getElem l d hi, List.drop_eq_getElem_cons hi,
      List.take_succ_cons]

theorem range'_getLast? (s : Nat) :
    ∀ (n : Nat), (List.range' s (n + 1)).getLast? = some (s + n)
  | 0 => by
    show [s].getLast? = some (s + 0)
    rw [List.getLast?_singleton]
    rfl
  | n + 1 => by
    have hrec := range'_getLast? (s + 1) n
    show (s :: (s + 1) :: List.range' (s + 2) n).getLast? = some (s + (n + 1))
    rw [List.getLast?_cons_cons]
    have h2 : ((s + 1) :: List.range' (s + 2) n).getLast? =
        some (s + 1 + n) := hrec
    rw [h2]
    congr 1
    omega

theorem range'_pm1 (s : Nat) :
    ∀ (n : Nat),
      List.Chain' (fun u v : Nat => v = u + 1 ∨ u = v + 1) (List.range' s n)
  | 0 => List.chain'_nil
  | 1 => List.chain'_singleton s
  | n + 2 => by
    show List.Chain' _ (s :: (s + 1) :: List.range' (s + 2) n)
    rw [List.chain'_cons]
    exact ⟨Or.inl rfl, range'_pm1 (s + 1) (n + 1)⟩

/-! ## Structure of BFS paths on a wellformed linear line -/

theorem lineWFb_spec (L : SubwayLineData) (h : lineWFb L = true) :
    2 ≤ L.stations.length ∧ (normMain L).Nodup ∧
      branchesWFb (normMain L) L.branches = true := by
  unfold lineWFb at h
  simp only [Bool.and_eq_true, decide_eq_true_eq] at h
  tauto

theorem normMain_length (L : SubwayLineData) :
    (normMain L).length = L.stations.length := by
  unfold normMain
  rw [List.length_map]

theorem normMain_mem_stations (L : SubwayLineData)
    (hlin : L.type = LineType.linear) (h2 : 2 ≤ L.stations.length)
    (k : Nat) (hk : k < (normMain L).length) :
    (normMain L).get ⟨k, hk⟩ ∈ (buildLineGraph L).stations := by
  rw [stations_buildLineGraph, normEdges_linear L hlin]
  have hlen : 2 ≤ (normMain L).length := by
    rw [normMain_length]
    exact h2
  by_cases hk1 : k + 1 < (normMain L).length
  · refine ⟨((normMain L).get ⟨k, hk⟩, (normMain L).get ⟨k + 1, hk1⟩),
      ?_, Or.inl rfl⟩
    exact List.mem_append.mpr (Or.inl (consecutivePairs_get (normMain L) k hk1))
  · obtain ⟨k', rfl⟩ : ∃ k', k = k' + 1 := ⟨k - 1, by omega⟩
    refine ⟨((normMain L).get ⟨k', by omega⟩, (normMain L).get ⟨k' + 1, hk⟩),
      ?_, Or.inr rfl⟩
    exact List.mem_append.mpr (Or.inl (consecutivePairs_get (normMain L) k' hk))

theorem stations_hasAdjKey (L : SubwayLineData) (v : String)
    (h : v ∈ (buildLineGraph L).stations) :
    hasAdjKey (buildLineGraph L) v = true := by
  rw [hasAdjKey_iff_keys, ← (buildLineGraph_ginv L).stationsEq]
  exact h

theorem mainEdge_adjIn (L : SubwayLineData) (hlin : L.type = LineType.linear)
    (a b : String) (h : EdgeMem (mainEdges L) a b) :
    b ∈ adjLookup (buildLineGraph L) a := by
  rw [adjIn_buildLineGraph, normEdges_linear L hlin]
  rcases h with h | h
  · exact Or.inl (List.mem_append.mpr (Or.inl h))
  · exact Or.inr (List.mem_append.mpr (Or.inl h))

theorem mainSegment_head (L : SubwayLineData) (i j : Nat)
    (hi : i < (normMain L).length) :
    ((List.range' i (j - i + 1)).map
      (fun k => (normMain L).getD k "")).head? =
      some ((normMain L).get ⟨i, hi⟩) := by
  show ((normMain L).getD i "" ::
    (List.range' (i + 1) (j - i)).map (fun k => (normMain L).getD k "")).head? = _
  rw [List.head?_cons, List.getD_eq_getElem (normMain L) "" hi]
  rfl

theorem mainSegment_last (L : SubwayLineData) (i j : Nat)
    (hj : j < (normMain L).length) (hij : i ≤ j) :
    ((List.range' i (j - i + 1)).map
      (fun k => (normMain L).getD k "")).getLast? =
      some ((normMain L).get ⟨j, hj⟩) := by
  rw [List.getLast?_map, range'_getLast? i (j - i)]
  have harith : i + (j - i) = j := by omega
  rw [harith]
  show some ((normMain L).getD j "") = _
  rw [List.getD_eq_getElem (normMain L) "" hj]
  rfl

theorem mainSegment_chain (L : SubwayLineData)
    (hlin : L.type = LineType.linear) (i j : Nat)
    (hj : j < (normMain L).length) (hij : i ≤ j) :
    List.Chain' (AdjIn (buildLineGraph L))
      ((List.range' i (j - i + 1)).map (fun k => (normMain L).getD k "")) := by
  rw [List.chain'_map]
  refine chain_imp_mem (List.range' i (j - i + 1)) (range'_pm1 i (j - i + 1))
    (fun u v hu hv hstep => ?_)
  rw [List.mem_range'_1] at hu hv
  show AdjIn (buildLineGraph L) ((normMain L).getD u "") ((normMain L).getD v "")
  rcases hstep with hstep | hstep
  · subst hstep
    have hv1 : u + 1 < (normMain L).length := by omega
    have hu1 : u < (normMain L).length := by omega
    rw [List.getD_eq_getElem (normMain L) "" hu1,
      List.getD_eq_getElem (normMain L) "" hv1]
    apply mainEdge_adjIn L hlin
    exact Or.inl (consecutivePairs_get (normMain L) u hv1)
  · subst hstep
    have hv1 : v + 1 < (normMain L).length := by omega
    have hu1 : v < (normMain L).length := by omega
    rw [List.getD_eq_getElem (normMain L) "" hv1,
      List.getD_eq_getElem (normMain L) "" hu1]
    apply mainEdge_adjIn L hlin
    exact Or.inr (consecutivePairs_get (normMain L) v hv1)

theorem mainSegment_mem (L : SubwayLineData) (hnd : (normMain L).Nodup)
    (i j d : Nat) (hj : j < (normMain L).length)
    (hd : d < (normMain L).length) (hij : i ≤ j) :
    ((normMain L).get ⟨d, hd⟩ ∈
      (List.range' i (j - i + 1)).map (fun k => (normMain L).getD k "")) ↔
      (i ≤ d ∧ d ≤ j) := by
  rw [List.mem_map]
  constructor
  · rintro ⟨k, hk, hkval⟩
    have hkval' : (normMain L).getD k "" = (normMain L).get ⟨d, hd⟩ := hkval
    rw [List.mem_range'_1] at hk
    have hklen : k < (normMain L).length := by omega
    have hpk := posIn_getD "" (normMain L) hnd k hklen
    have hpd := posIn_get (normMain L) hnd d hd
    have hke : k = d := by
      rw [← hpk, hkval', hpd]
    omega
  · rintro ⟨h1, h2⟩
    refine ⟨d, ?_, ?_⟩
    · rw [List.mem_range'_1]
      omega
    · show (normMain L).getD d "" = _
      rw [List.getD_eq_getElem (normMain L) "" hd]
      rfl

theorem mainPath_structure (L : SubwayLineData)
    (hlin : L.type = LineType.linear) (hwf : lineWFb L = true)
    (i j : Nat) (hi : i < (normMain L).length) (hj : j < (normMain L).length)
    (hij : i ≤ j) (p : List String)
    (hP : PathOK (buildLineGraph L) ((normMain L).get ⟨i, hi⟩)
      ((normMain L).get ⟨j, hj⟩) p) :
    p = (List.range' i (j - i + 1)).map (fun k => (normMain L).getD k "") := by
  obtain ⟨hph, hpl, hpch, hpnd⟩ := hP
  obtain ⟨h2, hnd, hbr⟩ := lineWFb_spec L hwf
  have hch1 : List.Chain' (EdgeMem (normEdges L)) p :=
    List.Chain'.imp (fun a b hab => (adjIn_buildLineGraph L a b).mp hab) hpch
  have hmainends : ∀ e ∈ mainEdges L, e.1 ∈ normMain L ∧ e.2 ∈ normMain L := by
    intro e he
    obtain ⟨a, c⟩ := e
    exact consecutivePairs_mem_both _ a c he
  have hch2 : List.Chain' (EdgeMem (mainEdges L)) p := by
    refine branches_restrict (mainEdges L) L.branches (normMain L) hmainends hbr
      p ?_ hpnd ?_ ?_
    · rw [← normEdges_linear L hlin]
      exact hch1
    · intro x hx
      have hxe : (normMain L).get ⟨i, hi⟩ = x := by
        rw [hph] at hx
        exact Option.some.inj (Option.mem_def.mp hx)
      exact hxe ▸ List.get_mem _ _ _
    · intro x hx
      have hxe : (normMain L).get ⟨j, hj⟩ = x := by
        rw [hpl] at hx
        exact Option.some.inj (Option.mem_def.mp hx)
      exact hxe ▸ List.get_mem _ _ _
  have hedge_mem : ∀ a b, EdgeMem (mainEdges L) a b →
      a ∈ normMain L ∧ b ∈ normMain L := by
    intro a b hab
    rcases hab with h | h
    · exact consecutivePairs_mem_both _ a b h
    · have hcb := consecutivePairs_mem_both _ b a h
      exact ⟨hcb.2, hcb.1⟩
  have hallmem : ∀ x ∈ p, x ∈ normMain L := by
    refine chain_all_mem hedge_mem p hch2 (fun x hx => ?_)
    have hxe : (normMain L).get ⟨i, hi⟩ = x := by
      rw [hph] at hx
      exact Option.some.inj (Option.mem_def.mp hx)
    exact hxe ▸ List.get_mem _ _ _
  have hchq : List.Chain' (fun u v : Nat => v = u + 1 ∨ u = v + 1)
      (p.map (posIn (normMain L))) := by
    rw [List.chain'_map]
    refine chain_imp_mem p hch2 (fun a b _ _ hab => ?_)
    rcases hab with hab | hab
    · obtain ⟨k, hk, h1, hcons2⟩ := consecutivePairs_mem (normMain L) a b hab
      left
      rw [← h1, ← hcons2, posIn_get _ hnd _ _, posIn_get _ hnd _ _]
    · obtain ⟨k, hk, h1, hcons2⟩ := consecutivePairs_mem (normMain L) b a hab
      right
      rw [← h1, ← hcons2, posIn_get _ hnd _ _, posIn_get _ hnd _ _]
  have hndq : (p.map (posIn (normMain L))).Nodup := by
    refine List.Nodup.map_on (fun x hx y hy hxy => ?_) hpnd
    rw [← getD_posIn x "" (normMain L) (hallmem x hx),
      ← getD_posIn y "" (normMain L) (hallmem y hy), hxy]
  have hqh : (p.map (posIn (normMain L))).head? = some i := by
    rw [List.head?_map, hph]
    show some (posIn (normMain L) ((normMain L).get ⟨i, hi⟩)) = some i
    rw [posIn_get _ hnd i hi]
  have hql : (p.map (posIn (normMain L))).getLast? = some j := by
    rw [List.getLast?_map, hpl]
    show some (posIn (normMain L) ((normMain L).get ⟨j, hj⟩)) = some j
    rw [posIn_get _ hnd j hj]
  have hqr := pm1_nodup_range (p.map (posIn (normMain L))) hchq hndq i j
    hqh hql hij
  have hrecon : p = ((p.map (posIn (normMain L))).map
      (fun k => (normMain L).getD k "")) := by
    rw [List.map_map]
    have hid : ∀ x ∈ p,
        ((fun k => (normMain L).getD k "") ∘ posIn (normMain L)) x = id x :=
      fun x hx => getD_posIn x "" (normMain L) (hallmem x hx)
    rw [List.map_congr_left hid, List.map_id]
  rw [hrecon, hqr]

/-! ## `willTrainReachStation` on a wellformed linear line -/

theorem willTrainReachLine_linear (L : SubwayLineData)
    (hlin : L.type = LineType.linear) (hwf : lineWFb L = true)
    (i j d : Nat) (hi : i < L.stations.length) (hj : j < L.stations.length)
    (hd : d < L.stations.length) (hij : i < j) (dir : Option String) :
    willTrainReachLine L (L.stations.get ⟨i, hi⟩) (L.stations.get ⟨d, hd⟩)
      (L.stations.get ⟨j, hj⟩) dir = decide (i ≤ d ∧ d ≤ j) := by
  obtain ⟨h2, hnd, hbr⟩ := lineWFb_spec L hwf
  have him : i < (normMain L).length := by rw [normMain_length]; exact hi
  have hjm : j < (normMain L).length := by rw [normMain_length]; exact hj
  have hdm : d < (normMain L).length := by rw [normMain_length]; exact hd
  have hni : normalizeStationName (L.stations.get ⟨i, hi⟩) =
      (normMain L).get ⟨i, him⟩ := by
    simp [normMain]
  have hnj : normalizeStationName (L.stations.get ⟨j, hj⟩) =
      (normMain L).get ⟨j, hjm⟩ := by
    simp [normMain]
  have hndd : normalizeStationName (L.stations.get ⟨d, hd⟩) =
      (normMain L).get ⟨d, hdm⟩ := by
    simp [normMain]
  have hmi : (normMain L).get ⟨i, him⟩ ∈ (buildLineGraph L).stations :=
    normMain_mem_stations L hlin h2 i him
  have hmj : (normMain L).get ⟨j, hjm⟩ ∈ (buildLineGraph L).stations :=
    normMain_mem_stations L hlin h2 j hjm
  have hmd : (normMain L).get ⟨d, hdm⟩ ∈ (buildLineGraph L).stations :=
    normMain_mem_stations L hlin h2 d hdm
  have hneij : (normMain L).get ⟨i, him⟩ ≠ (normMain L).get ⟨j, hjm⟩ := by
    intro he
    have hfe := hnd.get_inj_iff.mp he
    have : i = j := congrArg Fin.val hfe
    omega
  have hsh := mainSegment_head L i j him
  have hsl := mainSegment_last L i j hjm (Nat.le_of_lt hij)
  have hsc := mainSegment_chain L hlin i j hjm (Nat.le_of_lt hij)
  simp only [willTrainReachLine]
  rw [hni, hnj, hndd]
  rw [if_neg (by push_neg; exact ⟨hmi, hmd⟩)]
  rw [if_neg (not_not_intro hmj)]
  by_cases hid : i = d
  · subst hid
    have hdd : (normMain L).get ⟨i, him⟩ = (normMain L).get ⟨i, hdm⟩ := rfl
    rw [if_pos hdd]
    exact (decide_eq_true ⟨Nat.le_refl i, Nat.le_of_lt hij⟩).symm
  · have hsd : (normMain L).get ⟨i, him⟩ ≠ (normMain L).get ⟨d, hdm⟩ := by
      intro he
      exact hid (congrArg Fin.val (hnd.get_inj_iff.mp he))
    rw [if_neg hsd]
    by_cases hdj : d = j
    · subst hdj
      have hdd : (normMain L).get ⟨d, hdm⟩ = (normMain L).get ⟨d, hjm⟩ := rfl
      rw [if_pos hdd]
      have hnei : (normMain L).get ⟨i, him⟩ ≠ (normMain L).get ⟨d, hdm⟩ := hsd
      have hcomp := findPath_complete (buildLineGraph L) _ _
        (buildLineGraph_ginv L) hnei (stations_hasAdjKey L _ hmi)
        (stations_hasAdjKey L _ hmd)
        ((List.range' i (d - i + 1)).map (fun k => (normMain L).getD k ""))
        hsh hsl hsc
      rw [hcomp]
      exact (decide_eq_true ⟨Nat.le_of_lt hij, Nat.le_refl d⟩).symm
    · have hdt : (normMain L).get ⟨d, hdm⟩ ≠ (normMain L).get ⟨j, hjm⟩ := by
        intro he
        exact hdj (congrArg Fin.val (hnd.get_inj_iff.mp he))
      rw [if_neg hdt]
      rw [if_neg (by rw [hlin]; rintro ⟨hc, -⟩; cases hc)]
      have hcomp := findPath_complete (buildLineGraph L) _ _
        (buildLineGraph_ginv L) hneij (stations_hasAdjKey L _ hmi)
        (stations_hasAdjKey L _ hmj)
        ((List.range' i (j - i + 1)).map (fun k => (normMain L).getD k ""))
        hsh hsl hsc
      cases hfp : findPath (buildLineGraph L) ((normMain L).get ⟨i, him⟩)
          ((normMain L).get ⟨j, hjm⟩) with
      | none =>
        rw [hfp] at hcomp
        cases hcomp
      | some p =>
        show decide ((normMain L).get ⟨d, hdm⟩ ∈ p) = decide (i ≤ d ∧ d ≤ j)
        have hPOK := findPath_sound (buildLineGraph L) _ _
          (buildLineGraph_ginv L) hneij p hfp
        have hseg := mainPath_structure L hlin hwf i j him hjm
          (Nat.le_of_lt hij) p ⟨hPOK.1, hPOK.2.1, hPOK.2.2.1, hPOK.2.2.2⟩
        rw [hseg, decide_eq_decide]
        exact mainSegment_mem L hnd i j d hjm hdm (Nat.le_of_lt hij)

/-! ## Claim C2: circular-line direction scenario (evaluation)

On line 1002 the station table lists the loop in the order labelled
`외선` (시청 → 을지로 → … → 강남 → 교대 → … → 신림 → … → 충정로).  A train
at 강남 with `updnLine = "내선"` is therefore walked backward through
역삼 · 선릉 · 삼성 · 종합운동장 · 잠실새내 · … all the way around to a 신림
terminal, so the directed walk contains 잠실새내 and the train is included —
the claim (and the real line 2, where the clockwise direction is 내선)
requires it to be excluded. -/

set_option maxRecDepth 1000000 in
/-- C2 evaluated on the code: the 잠실새내-terminal 외선 train is included
(as the claim states), but the 신림-terminal 내선 train is also included
(`true`), where the claim requires exclusion (`false`). -/
theorem circular_direction_scenario_eval :
    willTrainReachStation "1002" "강남" "잠실새내" "잠실새내" (some "외선") = true
    ∧ willTrainReachStation "1002" "강남" "잠실새내" "신림" (some "내선") = true := by
  constructor
  · decide
  · decide

set_option maxRecDepth 1000000 in
/-- Counterexample to C3 as frozen: boarding at index 0 (대화) of linear line
1003 with terminal at index 2 (정발산), the destination at index 0 itself is
outside the claimed half-open range (0, 2], yet `willTrainReachStation`
returns `true` because of the explicit `start === dest` short-circuit. -/
theorem linear_range_counterexample :
    willTrainReachStation "1003" "대화" "대화" "정발산" none = true := by
  decide

/-! ## Claim C3 (amended): reachable range on a linear line -/

set_option maxRecDepth 1000000 in
/-- C3 (amended): for every configured linear line, boarding station at
main-line index `i` and train terminal at index `j > i`,
`willTrainReachStation` returns `true` exactly when the destination's
main-line index lies in the closed range `[i, j]` — destinations strictly
between `i` and `j` and the terminal itself are reached, the boarding
station itself is reported reachable by the `start === dest` short-circuit,
and every index outside `[i, j]` is excluded. -/
theorem linear_line_reach_range :
    ∀ (lineId : String) (L : SubwayLineData),
      SUBWAY_LINES.lookup lineId = some L → L.type = LineType.linear →
      ∀ (i j d : Nat) (hi : i < L.stations.length)
        (hj : j < L.stations.length) (hd : d < L.stations.length),
        i < j → ∀ (dir : Option String),
        willTrainReachStation lineId (L.stations.get ⟨i, hi⟩)
          (L.stations.get ⟨d, hd⟩) (L.stations.get ⟨j, hj⟩) dir =
          decide (i ≤ d ∧ d ≤ j) := by
  intro lineId L hlk hlin i j d hi hj hd hij dir
  have hmem : (lineId, L) ∈ SUBWAY_LINES :=
    alookup_some_mem lineId L SUBWAY_LINES hlk
  have hwftable : ∀ p ∈ SUBWAY_LINES, p.2.type = LineType.linear →
      lineWFb p.2 = true := by decide
  have hwf : lineWFb L = true := hwftable (lineId, L) hmem hlin
  unfold willTrainReachStation
  rw [hlk]
  exact willTrainReachLine_linear L hlin hwf i j d hi hj hd hij dir

/-- Witness for the amended C3 on line 1032: boarding 운정중앙 (index 0)
with terminal 대곡 (index 2), the destination 킨텍스 (index 1) is inside
`[0, 2]` and reported reachable. -/
theorem linear_line_reach_range_witness :
    willTrainReachStation "1032" "운정중앙" "킨텍스" "대곡" none = true := by
  have h := linear_line_reach_range "1032" _ rfl rfl 0 2 1 (by decide)
    (by decide) (by decide) (by decide) none
  exact h.trans rfl
